import Mathlib

/-!
# Estate refurbishment dashboard: normalisation, store and status cycling

A shallow embedding of `assets/js/excelService.js` (the workbook normaliser) and
`assets/js/state.js` (the entity store, the queries and the two status cycles),
followed by the properties proved about them.

JavaScript values are embedded as follows.

* A number is a `JSNum`: `NaN`, the two infinities, or a finite value kept as a
  rational.  Every finite double is a rational, so a statement proved for all
  `JSNum` holds for all doubles.  Negative zero is identified with zero: the
  embedded code only tests numbers for truthiness, compares them and uses them
  as property keys, and none of these distinguishes the two zeros.
* Arithmetic that rounds (`/`, `*`, `Number(string)`) rounds to the nearest
  binary64 value, ties to even, through `roundToDouble`.
* A spreadsheet cell or an object field is a `Val`: absent (`undefined`), a
  boolean, a number or a string.
* Code that can raise returns an `Except JSError`: calling `trim` on a truthy
  value that is not a string raises a `TypeError`.
-/

namespace EstateDashboard

/-! ## Numbers -/

/-- A JavaScript number. -/
inductive JSNum where
  | nan
  | posInf
  | negInf
  | fin (q : Rat)
  deriving DecidableEq

namespace JSNum

/-- `ToBoolean` on a number: false for `NaN` and zero only. -/
def truthy : JSNum → Bool
  | nan => false
  | posInf => true
  | negInf => true
  | fin q => decide (q ≠ 0)

/-- The comparison `x > 0`. -/
def isPos : JSNum → Bool
  | nan => false
  | posInf => true
  | negInf => false
  | fin q => decide (0 < q)

/-- Strict equality `x === y` on numbers: `NaN` equals nothing. -/
def strictEq : JSNum → JSNum → Bool
  | nan, _ => false
  | _, nan => false
  | x, y => decide (x = y)

/-- `x || 0` on a number. -/
def orZero (x : JSNum) : JSNum := if x.truthy then x else fin 0

end JSNum

/-- The rational `2 ^ p` for an integer exponent. -/
def pow2 (p : Int) : Rat :=
  if 0 ≤ p then ((2 ^ p.toNat : Nat) : Rat) else 1 / ((2 ^ (-p).toNat : Nat) : Rat)

/-- The rational `10 ^ p` for an integer exponent. -/
def pow10 (p : Int) : Rat :=
  if 0 ≤ p then ((10 ^ p.toNat : Nat) : Rat) else 1 / ((10 ^ (-p).toNat : Nat) : Rat)

/-- The integer nearest to `q`, the even one when `q` is half-way between two. -/
def roundHalfEven (q : Rat) : Int :=
  let f := Rat.floor q
  let r := q - (f : Rat)
  if r < 1 / 2 then f
  else if 1 / 2 < r then f + 1
  else if f % 2 = 0 then f else f + 1

/-- Halve `n` until it drops below two, at most `fuel` times, counting the steps. -/
def log2Fuel : Nat → Nat → Nat
  | 0, _ => 0
  | fuel + 1, n => if 2 ≤ n then log2Fuel fuel (n / 2) + 1 else 0

/-- The position of the leading bit of `n` (zero for `n = 0`). -/
def natLog2 (n : Nat) : Nat := log2Fuel n n

/-- For `q > 0`, the integer `l` with `2 ^ l ≤ q < 2 ^ (l + 1)`. -/
def floorLog2 (q : Rat) : Int :=
  let l : Int := (natLog2 q.num.natAbs : Int) - (natLog2 q.den : Int)
  if pow2 l ≤ q then l else l - 1

/-- Round a rational to the nearest binary64 value (round to nearest, ties to
even; 53-bit significand, least exponent `-1022` with gradual underflow,
overflow to an infinity). -/
def roundToDouble (q : Rat) : JSNum :=
  if q = 0 then JSNum.fin 0
  else
    let a := |q|
    let p := max (floorLog2 a) (-1022) - 52
    let v := (roundHalfEven (a / pow2 p) : Rat) * pow2 p
    if pow2 1024 ≤ v then (if q < 0 then JSNum.negInf else JSNum.posInf)
    else JSNum.fin (if q < 0 then -v else v)

/-- `Math.round`: the nearest integer, the larger one on a tie. -/
def mathRound : JSNum → JSNum
  | JSNum.fin q => JSNum.fin (Rat.floor (q + 1 / 2) : Int)
  | x => x

namespace JSNum

/-- The sign of a number as `-1`, `0` or `1` (`0` for `NaN`). -/
def sign : JSNum → Int
  | nan => 0
  | posInf => 1
  | negInf => -1
  | fin q => Int.sign q.num

/-- The product `x * y`. -/
def mul (x y : JSNum) : JSNum :=
  match x, y with
  | nan, _ => nan
  | _, nan => nan
  | fin a, fin b => roundToDouble (a * b)
  | _, _ =>
    if x.sign * y.sign = 0 then nan
    else if 0 < x.sign * y.sign then posInf else negInf

/-- The quotient `a / b` of two counters, for `b ≠ 0`. -/
def divNat (a b : Nat) : JSNum := roundToDouble ((a : Rat) / (b : Rat))

end JSNum

/-! ## Strings -/

/-- White space and line terminators, the characters removed by `trim` and
skipped around a numeric string. -/
def isWhiteSpace (c : Char) : Bool :=
  let n := c.toNat
  n = 0x9 || n = 0xA || n = 0xB || n = 0xC || n = 0xD || n = 0x20 || n = 0xA0 ||
  n = 0x1680 || (0x2000 ≤ n && n ≤ 0x200A) || n = 0x2028 || n = 0x2029 ||
  n = 0x202F || n = 0x205F || n = 0x3000 || n = 0xFEFF

/-- Remove white space at both ends of a character sequence. -/
def trimChars (cs : List Char) : List Char :=
  ((cs.dropWhile isWhiteSpace).reverse.dropWhile isWhiteSpace).reverse

/-- `String.prototype.trim`. -/
def jsTrim (s : String) : String := String.mk (trimChars s.data)

/-- Lower-case mapping of one character: the ASCII capitals, and the two
characters outside ASCII whose lower case contains an ASCII letter (the Kelvin
sign and the dotted capital I). -/
def lowerChar (c : Char) : List Char :=
  if c.toNat = 0x212A then [Char.ofNat 0x6B]
  else if c.toNat = 0x130 then [Char.ofNat 0x69, Char.ofNat 0x307]
  else [c.toLower]

/-- `String.prototype.toLowerCase`, as far as the embedded code observes it:
the result is only ever compared with ASCII words.  Every other character
outside ASCII is kept here, where JavaScript may replace it by another
character outside ASCII; neither equals an ASCII word. -/
def toLowerCase (s : String) : String := String.mk (s.data.flatMap lowerChar)

/-- The value of a decimal digit. -/
def decDigit (c : Char) : Option Nat :=
  let n := c.toNat
  if 48 ≤ n ∧ n ≤ 57 then some (n - 48) else none

/-- The value of a hexadecimal digit. -/
def hexDigit (c : Char) : Option Nat :=
  let n := c.toNat
  if 48 ≤ n ∧ n ≤ 57 then some (n - 48)
  else if 97 ≤ n ∧ n ≤ 102 then some (n - 87)
  else if 65 ≤ n ∧ n ≤ 70 then some (n - 55)
  else none

/-- The value of an octal digit. -/
def octDigit (c : Char) : Option Nat :=
  let n := c.toNat
  if 48 ≤ n ∧ n ≤ 55 then some (n - 48) else none

/-- The value of a binary digit. -/
def binDigit (c : Char) : Option Nat :=
  let n := c.toNat
  if 48 ≤ n ∧ n ≤ 49 then some (n - 48) else none

/-- The digit values of a character sequence made of digits only. -/
def digitsOf (digit : Char → Option Nat) : List Char → Option (List Nat)
  | [] => some []
  | c :: cs =>
    match digit c, digitsOf digit cs with
    | some d, some ds => some (d :: ds)
    | _, _ => none

/-- The number written by a digit sequence in a base. -/
def fromDigits (base : Nat) (ds : List Nat) : Nat :=
  ds.foldl (fun acc d => acc * base + d) 0

/-- A non-empty digit string read in a base. -/
def parseNat (base : Nat) (digit : Char → Option Nat) (cs : List Char) : Option Nat :=
  if cs.isEmpty then none else (digitsOf digit cs).map (fromDigits base)

/-- The digits after `e` or `E`, with their optional sign. -/
def parseExponent (cs : List Char) : Option Int :=
  match cs with
  | '+' :: ds => (parseNat 10 decDigit ds).map Int.ofNat
  | '-' :: ds => (parseNat 10 decDigit ds).map (fun n => -(n : Int))
  | ds => (parseNat 10 decDigit ds).map Int.ofNat

/-- An unsigned decimal literal: `digits`, `digits.`, `digits.digits` or
`.digits`, each with an optional exponent part. -/
def parseUnsignedDecimal (cs : List Char) : Option Rat :=
  let mantRest := cs.span (fun c => c != 'e' && c != 'E')
  let exp : Option Int :=
    match mantRest.2 with
    | [] => some 0
    | _ :: es => parseExponent es
  let intFrac := mantRest.1.span (fun c => c != '.')
  let frac := intFrac.2.drop 1
  if intFrac.1.isEmpty && frac.isEmpty then none
  else
    match digitsOf decDigit intFrac.1, digitsOf decDigit frac, exp with
    | some i, some f, some e =>
      some ((fromDigits 10 (i ++ f) : Rat) * pow10 (e - (f.length : Int)))
    | _, _, _ => none

/-- `Number(s)` for a string: surrounding white space is skipped, the empty
string is `0`, a malformed literal is `NaN`. -/
def stringToNumber (s : String) : JSNum :=
  let radix (base : Nat) (digit : Char → Option Nat) (ds : List Char) : JSNum :=
    match parseNat base digit ds with
    | some n => roundToDouble (n : Rat)
    | none => JSNum.nan
  let decimal (neg : Bool) (u : List Char) : JSNum :=
    if u = "Infinity".data then (if neg then JSNum.negInf else JSNum.posInf)
    else
      match parseUnsignedDecimal u with
      | some q => roundToDouble (if neg then -q else q)
      | none => JSNum.nan
  match trimChars s.data with
  | [] => JSNum.fin 0
  | '0' :: 'x' :: ds => radix 16 hexDigit ds
  | '0' :: 'X' :: ds => radix 16 hexDigit ds
  | '0' :: 'o' :: ds => radix 8 octDigit ds
  | '0' :: 'O' :: ds => radix 8 octDigit ds
  | '0' :: 'b' :: ds => radix 2 binDigit ds
  | '0' :: 'B' :: ds => radix 2 binDigit ds
  | '-' :: u => decimal true u
  | '+' :: u => decimal false u
  | u => decimal false u

/-! ## Values -/

/-- A value found in a spreadsheet cell or an object field. -/
inductive Val where
  | undef
  | bool (b : Bool)
  | num (n : JSNum)
  | str (s : String)
  deriving DecidableEq

namespace Val

/-- `ToBoolean`. -/
def truthy : Val → Bool
  | undef => false
  | bool b => b
  | num n => n.truthy
  | str s => decide (s ≠ "")

/-- The expression `a || b`. -/
def orElse (a b : Val) : Val := if a.truthy then a else b

/-- `Number(v)`. -/
def toNumber : Val → JSNum
  | undef => JSNum.nan
  | bool true => JSNum.fin 1
  | bool false => JSNum.fin 0
  | num n => n
  | str s => stringToNumber s

/-- Strict equality `a === b`. -/
def strictEq : Val → Val → Bool
  | undef, undef => true
  | bool a, bool b => decide (a = b)
  | num a, num b => a.strictEq b
  | str a, str b => decide (a = b)
  | _, _ => false

end Val

/-- An exception raised by the embedded code. -/
inductive JSError where
  | typeError
  | error (message : String)
  deriving DecidableEq

/-! ## Entities -/

/-- A task of a project.  The synthesised `id` string of the source
(the project id, a dash, the title) is read nowhere in the repository and is
not kept. -/
structure Task where
  phase : Val
  title : Val
  assignee : Val
  due : Val
  status : Val
  deriving DecidableEq

/-- A normalised project. -/
structure Project where
  id : JSNum
  name : Val
  assetType : Val
  assetName : Val
  site : Val
  buildingOrArea : Val
  status : Val
  startDate : Val
  endDate : Val
  owner : Val
  leadUser : Val
  currentSpend : JSNum
  projectedSpend : JSNum
  budget : JSNum
  baselineEstimate : JSNum
  riskRating : Val
  riskSummary : Val
  phaseTasks : List Task
  deriving DecidableEq

/-- A normalised contractor. -/
structure Contractor where
  contractorId : JSNum
  name : String
  company : String
  trade : String
  phone : String
  email : String
  accreditations : String
  preferred : Bool
  notes : String
  deriving DecidableEq

/-- A normalised health and safety warning. -/
structure HSWarning where
  id : JSNum
  projectId : JSNum
  warningType : String
  description : String
  severity : String
  location : String
  controlMeasures : String
  notes : String
  deriving DecidableEq

/-- A normalised link between a project and a contractor. -/
structure ContractorLink where
  linkId : JSNum
  projectId : JSNum
  contractorId : JSNum
  role : String
  notes : String
  deriving DecidableEq

/-! ## Workbook rows -/

/-- A row of the `Projects` sheet: the columns the normaliser reads. -/
structure ProjectRow where
  ID : Val := Val.undef
  Name : Val := Val.undef
  AssetType : Val := Val.undef
  AssetName : Val := Val.undef
  Site : Val := Val.undef
  BuildingOrArea : Val := Val.undef
  Status : Val := Val.undef
  StartDate : Val := Val.undef
  EndDate : Val := Val.undef
  Owner : Val := Val.undef
  LeadUser : Val := Val.undef
  CurrentSpend : Val := Val.undef
  ProjectedSpend : Val := Val.undef
  Budget : Val := Val.undef
  BaselineEstimate : Val := Val.undef
  RiskRating : Val := Val.undef
  RiskSummary : Val := Val.undef
  deriving DecidableEq

/-- A row of the `Tasks` sheet: the columns the normaliser reads. -/
structure TaskRow where
  ProjectID : Val := Val.undef
  Title : Val := Val.undef
  Phase : Val := Val.undef
  Assignee : Val := Val.undef
  DueDate : Val := Val.undef
  Status : Val := Val.undef
  deriving DecidableEq

/-! ## The workbook normaliser: projects and tasks (`excelService.js`) -/

/-- The object literal stored in `projectMap[id]` for a retained row. -/
def projectOfRow (id : JSNum) (row : ProjectRow) : Project where
  id := id
  name := row.Name.orElse (Val.str "")
  assetType := row.AssetType.orElse (Val.str "")
  assetName := row.AssetName.orElse (Val.str "")
  site := row.Site.orElse (Val.str "")
  buildingOrArea := row.BuildingOrArea.orElse (Val.str "")
  status := row.Status.orElse (Val.str "Planned")
  startDate := row.StartDate.orElse (Val.str "")
  endDate := row.EndDate.orElse (Val.str "")
  owner := row.Owner.orElse (Val.str "")
  leadUser := row.LeadUser.orElse (Val.str "")
  currentSpend := row.CurrentSpend.toNumber.orZero
  projectedSpend := row.ProjectedSpend.toNumber.orZero
  budget := row.Budget.toNumber.orZero
  baselineEstimate := row.BaselineEstimate.toNumber.orZero
  riskRating := row.RiskRating.orElse (Val.str "")
  riskSummary := row.RiskSummary.orElse (Val.str "")
  phaseTasks := []

/-- The object literal pushed onto `phaseTasks` for a retained task row. -/
def taskOfRow (row : TaskRow) : Task where
  phase := row.Phase.orElse (Val.str "Pre")
  title := row.Title.orElse (Val.str "")
  assignee := row.Assignee.orElse (Val.str "")
  due := row.DueDate.orElse (Val.str "")
  status := row.Status.orElse (Val.str "Not Started")

/-- The object `projectMap`: its properties in creation order.  A property key
is the string form of a number; two numbers that are not `NaN` have the same
string form exactly when they are equal, so the number itself stands for the
key. -/
abbrev ProjectMap := List (JSNum × Project)

namespace ProjectMap

/-- The read `projectMap[k]`. -/
def lookup (m : ProjectMap) (k : JSNum) : Option Project :=
  (m.find? (fun e => decide (e.1 = k))).map Prod.snd

/-- The write `projectMap[k] = v`: an existing property keeps its place, a new
one is created last. -/
def assign : ProjectMap → JSNum → Project → ProjectMap
  | [], k, v => [(k, v)]
  | e :: m, k, v => if e.1 = k then (k, v) :: m else e :: assign m k v

/-- The call `projectMap[k].phaseTasks.push(t)` for a key that is present. -/
def pushTask (m : ProjectMap) (k : JSNum) (t : Task) : ProjectMap :=
  m.map (fun e => if e.1 = k then (e.1, { e.2 with phaseTasks := e.2.phaseTasks ++ [t] }) else e)

/-- The array index written by a key, when the key is one: an integer from `0`
to `2 ^ 32 - 2`. -/
def arrayIndex : JSNum → Option Nat
  | JSNum.fin q =>
    if q.den = 1 ∧ 0 ≤ q.num ∧ q.num < 2 ^ 32 - 1 then some q.num.toNat else none
  | _ => none

/-- The properties whose key is an array index, each with its index. -/
def indexed (m : ProjectMap) : List (Nat × Project) :=
  m.filterMap (fun e => (arrayIndex e.1).map (fun i => (i, e.2)))

/-- The properties whose key is not an array index. -/
def named (m : ProjectMap) : List Project :=
  (m.filter (fun e => (arrayIndex e.1).isNone)).map Prod.snd

/-- `Object.values(projectMap)`: the array-index properties in ascending index
order, then the other properties in creation order. -/
def values (m : ProjectMap) : List Project :=
  ((indexed m).insertionSort (fun a b => a.1 ≤ b.1)).map Prod.snd ++ named m

end ProjectMap

/-- One step of `projRows.forEach`. -/
def addProjectRow (m : ProjectMap) (row : ProjectRow) : ProjectMap :=
  let id := row.ID.toNumber
  if !id.truthy then m else m.assign id (projectOfRow id row)

/-- One step of `taskRows.forEach`.  A stored project is an object, hence
truthy, so `!projectMap[pid]` holds exactly when the key is absent. -/
def addTaskRow (m : ProjectMap) (row : TaskRow) : ProjectMap :=
  let pid := row.ProjectID.toNumber
  if !pid.truthy || (m.lookup pid).isNone then m else m.pushTask pid (taskOfRow row)

/-- The object `projectMap` after both loops. -/
def buildProjectMap (projRows : List ProjectRow) (taskRows : List TaskRow) : ProjectMap :=
  taskRows.foldl addTaskRow (projRows.foldl addProjectRow [])

/-- The `projects` array computed by `loadDataFromExcel` from the rows of the
`Projects` and `Tasks` sheets. -/
def normaliseProjects (projRows : List ProjectRow) (taskRows : List TaskRow) : List Project :=
  (buildProjectMap projRows taskRows).values

/-! ## The entity store (`state.js`) -/

/-- The module state of `state.js`.  `selectedProjectId` is `null` or a number. -/
structure Store where
  projects : List Project := []
  selectedProjectId : Option JSNum := none
  contractors : List Contractor := []
  hsWarnings : List HSWarning := []
  projectContractorLinks : List ContractorLink := []
  deriving DecidableEq

/-- The test `!selectedProjectId`. -/
def Store.cursorFalsy (s : Store) : Bool :=
  match s.selectedProjectId with
  | none => true
  | some id => !id.truthy

/-- `setProjects(newProjects)`. -/
def setProjects (s : Store) (newProjects : List Project) : Store :=
  let s1 := { s with projects := newProjects }
  match s1.projects with
  | p :: _ => if s1.cursorFalsy then { s1 with selectedProjectId := some p.id } else s1
  | [] => s1

/-- `setSelectedProject(id)`. -/
def setSelectedProject (s : Store) (id : Option JSNum) : Store :=
  { s with selectedProjectId := id }

/-- `getSelectedProject()`; `none` is `undefined`. -/
def getSelectedProject (s : Store) : Option Project :=
  s.projects.find? (fun p =>
    match s.selectedProjectId with
    | none => false
    | some id => p.id.strictEq id)

/-- `getFilteredProjects(statusFilter, siteFilter)`, the filters being the
strings read from the two select elements. -/
def getFilteredProjects (s : Store) (statusFilter siteFilter : String) : List Project :=
  s.projects.filter (fun p =>
    (decide (statusFilter = "all") || p.status.strictEq (Val.str statusFilter)) &&
    (decide (siteFilter = "all") || p.site.strictEq (Val.str siteFilter)))

/-- The object returned by `computeStats`. -/
structure Stats where
  projectCount : Nat
  taskCount : Nat
  completedCount : Nat
  progress : JSNum
  deriving DecidableEq

/-- The two counters after the nested `forEach` loops of `computeStats`. -/
def countTasks (projects : List Project) : Nat × Nat :=
  projects.foldl (fun acc p =>
    p.phaseTasks.foldl (fun c t =>
      (c.1 + 1, if t.status.strictEq (Val.str "Done") then c.2 + 1 else c.2)) acc) (0, 0)

/-- `computeStats()`.  The counters are natural numbers: increments of a double
are exact below `2 ^ 53`. -/
def computeStats (s : Store) : Stats :=
  let c := countTasks s.projects
  let taskCount := c.1
  let completedCount := c.2
  let progress :=
    if taskCount = 0 then JSNum.fin 0
    else mathRound ((JSNum.divNat completedCount taskCount).mul (JSNum.fin 100))
  { projectCount := s.projects.length, taskCount := taskCount,
    completedCount := completedCount, progress := progress }

/-- The search of `indexOf` from position `i` on. -/
def indexOfFrom (v : Val) : List Val → Int → Int
  | [], _ => -1
  | x :: xs, i => if x.strictEq v then i else indexOfFrom v xs (i + 1)

/-- `order.indexOf(v)`: the first position holding a value strictly equal to
`v`, or `-1`. -/
def indexOf (order : List Val) (v : Val) : Int := indexOfFrom v order 0

/-- The status following `status` in the cycle `order`. -/
def nextStatus (order : List Val) (status : Val) : Val :=
  let idx := indexOf order status
  let idx := if idx = -1 then 0 else idx
  order.getD ((idx + 1) % (order.length : Int)).toNat Val.undef

/-- `cycleTaskStatus(task)`: the task after the assignment to its status. -/
def cycleTaskStatus (task : Task) : Task :=
  let order := [Val.str "Not Started", Val.str "In Progress", Val.str "Done"]
  { task with status := nextStatus order task.status }

/-- `cycleProjectStatus(project)`: the project after the assignment to its
status. -/
def cycleProjectStatus (project : Project) : Project :=
  let order := [Val.str "Planned", Val.str "In Progress", Val.str "Completed"]
  { project with status := nextStatus order project.status }

/-- The weight of a label: shared body of `riskWeight` and `hsSeverityWeight`.
`(v || "")` is a string when `v` is falsy or a string; any other truthy value
has no `toLowerCase` method and the call raises a `TypeError`. -/
def labelWeight (v : Val) : Except JSError Nat :=
  match v.orElse (Val.str "") with
  | Val.str s =>
    let r := toLowerCase s
    if r = "high" then Except.ok 3
    else if r = "medium" then Except.ok 2
    else if r = "low" then Except.ok 1
    else Except.ok 0
  | _ => Except.error JSError.typeError

/-- `riskWeight(rating)`. -/
def riskWeight (rating : Val) : Except JSError Nat := labelWeight rating

/-- `hsSeverityWeight(severity)`. -/
def hsSeverityWeight (severity : Val) : Except JSError Nat := labelWeight severity

/-! ## Numbers as strings -/

/-- Count the decimal digits of `n`, at most `fuel` of them. -/
def digits10Fuel : Nat → Nat → Nat
  | 0, _ => 0
  | fuel + 1, n => if n = 0 then 0 else digits10Fuel fuel (n / 10) + 1

/-- The number of decimal digits of `n` (zero for `n = 0`). -/
def natDigits10 (n : Nat) : Nat := digits10Fuel n n

/-- For `q > 0`, the integer `l` with `10 ^ l ≤ q < 10 ^ (l + 1)`. -/
def floorLog10 (q : Rat) : Int :=
  let l : Int := (natDigits10 q.num.natAbs : Int) - (natDigits10 q.den : Int)
  if pow10 l ≤ q then l else l - 1

/-- A `k`-digit integer `s` with `s * 10 ^ (n - k)` rounding to the double `q`,
the one nearest to `q` (the even one on a tie), with its exponent; `none` when
no `k`-digit integer does. -/
def digitsOfLength (q : Rat) (n : Int) (k : Nat) : Option (Nat × Int) :=
  let scale := pow10 (n - (k : Int))
  let x := q / scale
  let lo := (Rat.floor x).toNat
  let hi := lo + 1
  let okLo := decide (roundToDouble ((lo : Rat) * scale) = JSNum.fin q)
  let okHi := decide (roundToDouble ((hi : Rat) * scale) = JSNum.fin q)
  let pick : Option Nat :=
    if okLo && okHi then
      (if x - (lo : Rat) < (hi : Rat) - x then some lo
       else if (hi : Rat) - x < x - (lo : Rat) then some hi
       else if lo % 2 = 0 then some lo else some hi)
    else if okLo then some lo
    else if okHi then some hi
    else none
  pick.map (fun s => if s = 10 ^ k then (10 ^ (k - 1), n + 1) else (s, n))

/-- The shortest digit string that rounds to `q`, searched from `k` digits on:
the digits `s`, their number and the exponent `n`.  Seventeen digits always
suffice for a double, so the first case is not reached for one. -/
def shortestDigitsFrom (q : Rat) (n : Int) : Nat → Nat → Nat × Nat × Int
  | 0, k => ((Rat.floor (q / pow10 (n - (k : Int)))).toNat, k, n)
  | fuel + 1, k =>
    match digitsOfLength q n k with
    | some sn => (sn.1, k, sn.2)
    | none => shortestDigitsFrom q n fuel (k + 1)

/-- The characters of a positive number with digits `s` (`k` of them) and
decimal exponent `n`. -/
def formatDigits (s k : Nat) (n : Int) : List Char :=
  let ds := Nat.toDigits 10 s
  if (k : Int) ≤ n ∧ n ≤ 21 then ds ++ List.replicate (n - (k : Int)).toNat '0'
  else if 0 < n ∧ n ≤ 21 then ds.take n.toNat ++ ['.'] ++ ds.drop n.toNat
  else if -6 < n ∧ n ≤ 0 then ['0', '.'] ++ List.replicate (-n).toNat '0' ++ ds
  else
    let e := n - 1
    let expChars := (if 0 ≤ e then ['+'] else ['-']) ++ Nat.toDigits 10 e.natAbs
    if k = 1 then ds ++ ['e'] ++ expChars
    else ds.take 1 ++ ['.'] ++ ds.drop 1 ++ ['e'] ++ expChars

/-- `Number.prototype.toString` in radix ten. -/
def numberToString : JSNum → String
  | JSNum.nan => "NaN"
  | JSNum.posInf => "Infinity"
  | JSNum.negInf => "-Infinity"
  | JSNum.fin q =>
    if q = 0 then "0"
    else
      let d := shortestDigitsFrom |q| (floorLog10 |q| + 1) 17 1
      String.mk ((if q < 0 then ['-'] else []) ++ formatDigits d.1 d.2.1 d.2.2)

/-! ## The workbook normaliser: contractors, warnings and links (`excelService.js`) -/

/-- A row of the `Contractors` sheet: the columns the normaliser reads. -/
structure ContractorRow where
  ContractorID : Val := Val.undef
  Name : Val := Val.undef
  Company : Val := Val.undef
  Trade : Val := Val.undef
  Phone : Val := Val.undef
  Email : Val := Val.undef
  Accreditations : Val := Val.undef
  Preferred : Val := Val.undef
  Notes : Val := Val.undef
  deriving DecidableEq

/-- A row of the `HealthAndSafety` sheet: the columns the normaliser reads. -/
structure HSRow where
  HSID : Val := Val.undef
  ProjectID : Val := Val.undef
  WarningType : Val := Val.undef
  Description : Val := Val.undef
  Severity : Val := Val.undef
  Location : Val := Val.undef
  ControlMeasures : Val := Val.undef
  Notes : Val := Val.undef
  deriving DecidableEq

/-- A row of the `ProjectContractors` sheet: the columns the normaliser reads. -/
structure LinkRow where
  LinkID : Val := Val.undef
  ProjectID : Val := Val.undef
  ContractorID : Val := Val.undef
  Role : Val := Val.undef
  Notes : Val := Val.undef
  deriving DecidableEq

/-- The expression `(v || "").trim()`.  A truthy value that is not a string
has no `trim` method: the call raises a `TypeError`. -/
def trimText (v : Val) : Except JSError String :=
  match v.orElse (Val.str "") with
  | Val.str s => Except.ok (jsTrim s)
  | _ => Except.error JSError.typeError

/-- The expression `(v || "").toString()`.  The receiver is never `undefined`. -/
def textOf (v : Val) : String :=
  match v.orElse (Val.str "") with
  | Val.str s => s
  | Val.num n => numberToString n
  | Val.bool b => if b then "true" else "false"
  | Val.undef => ""

/-- The `preferred` flag computed from the `Preferred` cell. -/
def preferredOf (v : Val) : Bool :=
  let preferredStr := toLowerCase (jsTrim (textOf v))
  decide (preferredStr = "yes") || decide (preferredStr = "true") || decide (preferredStr = "1")

/-- A `forEach` loop over rows whose body returns early (`none`), pushes one
entity onto the result array, or raises. -/
def forEachPush {ρ α : Type} (body : ρ → Except JSError (Option α)) (rows : List ρ) :
    Except JSError (List α) :=
  rows.foldlM (fun acc row =>
    (body row).map (fun r =>
      match r with
      | none => acc
      | some a => acc ++ [a])) []

/-- The body of `contractorRows.forEach`. -/
def contractorOfRow (row : ContractorRow) : Except JSError (Option Contractor) :=
  let contractorId := row.ContractorID.toNumber
  if !contractorId.truthy then Except.ok none
  else do
    let preferred := preferredOf row.Preferred
    let name ← trimText row.Name
    let company ← trimText row.Company
    let trade ← trimText row.Trade
    let phone ← trimText row.Phone
    let email ← trimText row.Email
    let accreditations ← trimText row.Accreditations
    let notes ← trimText row.Notes
    return some
      { contractorId := contractorId, name := name, company := company, trade := trade,
        phone := phone, email := email, accreditations := accreditations,
        preferred := preferred, notes := notes }

/-- The `contractors` array computed from the rows of the `Contractors` sheet. -/
def normaliseContractors (rows : List ContractorRow) : Except JSError (List Contractor) :=
  forEachPush contractorOfRow rows

/-- The body of `hsRows.forEach`. -/
def hsWarningOfRow (row : HSRow) : Except JSError (Option HSWarning) :=
  let hsId := row.HSID.toNumber
  let projectId := row.ProjectID.toNumber
  if !hsId.truthy then Except.ok none
  else do
    let warningType ← trimText row.WarningType
    let description ← trimText row.Description
    let severity ← trimText row.Severity
    let location ← trimText row.Location
    let controlMeasures ← trimText row.ControlMeasures
    let notes ← trimText row.Notes
    return some
      { id := hsId, projectId := projectId, warningType := warningType,
        description := description, severity := severity, location := location,
        controlMeasures := controlMeasures, notes := notes }

/-- The `hsWarnings` array computed from the rows of the `HealthAndSafety`
sheet. -/
def normaliseHSWarnings (rows : List HSRow) : Except JSError (List HSWarning) :=
  forEachPush hsWarningOfRow rows

/-- The object literal built by `linkRows.map` for one row. -/
def linkOfRow (row : LinkRow) : Except JSError ContractorLink := do
  let linkId := row.LinkID.toNumber.orZero
  let projectId := row.ProjectID.toNumber.orZero
  let contractorId := row.ContractorID.toNumber.orZero
  let role ← trimText row.Role
  let notes ← trimText row.Notes
  return { linkId := linkId, projectId := projectId, contractorId := contractorId,
           role := role, notes := notes }

/-- The `projectContractorLinks` array computed from the rows of the
`ProjectContractors` sheet: `map`, then `filter`. -/
def normaliseLinks (rows : List LinkRow) : Except JSError (List ContractorLink) :=
  (rows.mapM linkOfRow).map (fun links =>
    links.filter (fun link => link.linkId.isPos && link.projectId.isPos && link.contractorId.isPos))

/-! ## The entity store: contractors, warnings and links (`state.js`) -/

/-- `setContractors(newContractors)`, called with an array. -/
def setContractors (s : Store) (newContractors : List Contractor) : Store :=
  { s with contractors := newContractors }

/-- `setHSWarnings(newWarnings)`, called with an array. -/
def setHSWarnings (s : Store) (newWarnings : List HSWarning) : Store :=
  { s with hsWarnings := newWarnings }

/-- `setProjectContractorLinks(newLinks)`, called with an array. -/
def setProjectContractorLinks (s : Store) (newLinks : List ContractorLink) : Store :=
  { s with projectContractorLinks := newLinks }

/-- `getWarningsForProject(projectId)`. -/
def getWarningsForProject (s : Store) (projectId : JSNum) : List HSWarning :=
  s.hsWarnings.filter (fun w => w.projectId.strictEq projectId)

/-- `getProjectContractorLinks(projectId)`. -/
def getProjectContractorLinks (s : Store) (projectId : JSNum) : List ContractorLink :=
  s.projectContractorLinks.filter (fun link => link.projectId.strictEq projectId)

/-- A row returned by `getContractorsForProject`. -/
structure ProjectContractor where
  linkId : JSNum
  projectId : JSNum
  role : String
  notes : String
  contractorId : JSNum
  name : String
  company : String
  trade : String
  phone : String
  email : String
  accreditations : String
  preferred : Bool
  deriving DecidableEq

/-- The expression `contractor?.field || ""` for a text field. -/
def textOrEmpty (field : Option String) : String :=
  match field with
  | some s => if s ≠ "" then s else ""
  | none => ""

/-- `getContractorsForProject(projectId)`. -/
def getContractorsForProject (s : Store) (projectId : JSNum) : List ProjectContractor :=
  (getProjectContractorLinks s projectId).map (fun link =>
    let contractor := s.contractors.find? (fun c => c.contractorId.strictEq link.contractorId)
    { linkId := link.linkId
      projectId := link.projectId
      role := link.role
      notes := link.notes
      contractorId := (contractor.map (fun c => c.contractorId)).getD link.contractorId
      name := textOrEmpty (contractor.map (fun c => c.name))
      company := textOrEmpty (contractor.map (fun c => c.company))
      trade := textOrEmpty (contractor.map (fun c => c.trade))
      phone := textOrEmpty (contractor.map (fun c => c.phone))
      email := textOrEmpty (contractor.map (fun c => c.email))
      accreditations := textOrEmpty (contractor.map (fun c => c.accreditations))
      preferred := (contractor.map (fun c => c.preferred)).getD false })

/-! ## The normalised entities as the specification words them -/

deriving instance DecidableEq for Except

/-- A cell that is absent or falsy, or holds text: `(v || "")` is a string. -/
def Val.isText (v : Val) : Bool :=
  match v.orElse (Val.str "") with
  | Val.str _ => true
  | _ => false

/-- The text of a cell with the white space at both ends removed; the empty
string for a cell that holds no text. -/
def specText (v : Val) : String :=
  match v with
  | Val.str s => jsTrim s
  | _ => ""

/-- The flag of a `Preferred` cell: its text form, trimmed and lower-cased, is
one of `yes`, `true`, `1`.  The text form of a number or of `true` is its
string conversion; an absent or falsy cell has the empty text. -/
def specPreferred (v : Val) : Bool :=
  match v with
  | Val.str s => decide (toLowerCase (jsTrim s) ∈ ["yes", "true", "1"])
  | Val.bool b => b
  | Val.num n =>
    n.truthy && decide (toLowerCase (jsTrim (numberToString n)) ∈ ["yes", "true", "1"])
  | Val.undef => false

/-- All the text cells of a `Contractors` row are absent or text. -/
def ContractorRow.textual (row : ContractorRow) : Bool :=
  row.Name.isText && row.Company.isText && row.Trade.isText && row.Phone.isText &&
    row.Email.isText && row.Accreditations.isText && row.Notes.isText

/-- All the text cells of a `HealthAndSafety` row are absent or text. -/
def HSRow.textual (row : HSRow) : Bool :=
  row.WarningType.isText && row.Description.isText && row.Severity.isText &&
    row.Location.isText && row.ControlMeasures.isText && row.Notes.isText

/-- Both text cells of a `ProjectContractors` row are absent or text. -/
def LinkRow.textual (row : LinkRow) : Bool :=
  row.Role.isText && row.Notes.isText

/-- The contractor a retained `Contractors` row stands for. -/
def specContractorOfRow (row : ContractorRow) : Contractor where
  contractorId := row.ContractorID.toNumber
  name := specText row.Name
  company := specText row.Company
  trade := specText row.Trade
  phone := specText row.Phone
  email := specText row.Email
  accreditations := specText row.Accreditations
  preferred := specPreferred row.Preferred
  notes := specText row.Notes

/-- The warning a retained `HealthAndSafety` row stands for. -/
def specHSWarningOfRow (row : HSRow) : HSWarning where
  id := row.HSID.toNumber
  projectId := row.ProjectID.toNumber
  warningType := specText row.WarningType
  description := specText row.Description
  severity := specText row.Severity
  location := specText row.Location
  controlMeasures := specText row.ControlMeasures
  notes := specText row.Notes

/-- The link a retained `ProjectContractors` row stands for. -/
def specLinkOfRow (row : LinkRow) : ContractorLink where
  linkId := row.LinkID.toNumber
  projectId := row.ProjectID.toNumber
  contractorId := row.ContractorID.toNumber
  role := specText row.Role
  notes := specText row.Notes

/-- The three ids of a `ProjectContractors` row are numeric and strictly
positive. -/
def LinkRow.positive (row : LinkRow) : Bool :=
  row.LinkID.toNumber.isPos && row.ProjectID.toNumber.isPos && row.ContractorID.toNumber.isPos

/-- A free-text field kept as the cell gives it: the text of a text cell, the
empty string for a missing cell. -/
def KeptAsGiven (cell field : Val) : Prop :=
  (∀ s, cell = Val.str s → field = Val.str s) ∧ (cell = Val.undef → field = Val.str "")

/-- A free-text field trimmed: the text of a text cell without the white space
at its ends, the empty string for a missing cell. -/
def TrimmedFrom (cell : Val) (field : String) : Prop :=
  (∀ s, cell = Val.str s → field = jsTrim s) ∧ (cell = Val.undef → field = "")

/-- A numeric field coerced: never `NaN`, the numeric value of the cell when
it has one, zero otherwise. -/
def NumericOrZero (cell : Val) (field : JSNum) : Prop :=
  field ≠ JSNum.nan ∧ (cell.toNumber ≠ JSNum.nan → field = cell.toNumber) ∧
    (cell.toNumber = JSNum.nan → field = JSNum.fin 0)

/-- The comparison `0 <= x`. -/
def JSNum.isNonneg : JSNum → Bool
  | JSNum.nan => false
  | JSNum.posInf => true
  | JSNum.negInf => false
  | JSNum.fin q => decide (0 ≤ q)

/-! ## Sample workbooks -/

/-- Three `Projects` rows: a non-numeric, a zero and a valid `ID`. -/
def sampleRowsMixed : List ProjectRow :=
  [{ ID := Val.str "n/a" }, { ID := Val.num (JSNum.fin 0) }, { ID := Val.str "7" }]

/-- The project built from the valid row of `sampleRowsMixed`. -/
def sampleProjectSeven : Project := projectOfRow (JSNum.fin 7) { ID := Val.str "7" }

/-- One `Projects` row with the negative `ID` `-1`. -/
def sampleRowsNegative : List ProjectRow := [{ ID := Val.num (JSNum.fin (-1)) }]

/-- The `Projects` row of the roof project. -/
def sampleRoofRow : ProjectRow := { ID := Val.num (JSNum.fin 1), Name := Val.str "Roof" }

/-- A `Tasks` row for the roof project. -/
def sampleSurveyRow : TaskRow := { ProjectID := Val.num (JSNum.fin 1), Title := Val.str "Survey" }

/-- A `Tasks` row for project `9`, which no `Projects` row defines. -/
def sampleOrphanRow : TaskRow := { ProjectID := Val.num (JSNum.fin 9), Title := Val.str "Orphan" }

/-- The roof project with its one task. -/
def sampleRoofProject : Project :=
  { projectOfRow (JSNum.fin 1) sampleRoofRow with phaseTasks := [taskOfRow sampleSurveyRow] }

/-- Two `Projects` rows with the same `ID`. -/
def sampleRowsDuplicate : List ProjectRow :=
  [{ ID := Val.num (JSNum.fin 1), Name := Val.str "Old" }, sampleRoofRow]

/-- A store holding the roof project, with that project selected. -/
def sampleStore : Store := { projects := [sampleRoofProject], selectedProjectId := some (JSNum.fin 1) }

/-- A task that has been started. -/
def sampleStartedTask : Task := { taskOfRow sampleSurveyRow with status := Val.str "In Progress" }

/-- A task whose status is not one of the three of the cycle. -/
def sampleBlockedTask : Task := { taskOfRow sampleSurveyRow with status := Val.str "Blocked" }

/-- A project whose status is not one of the three of the cycle. -/
def sampleOnHoldProject : Project := { sampleRoofProject with status := Val.str "On Hold" }

/-- A store with one project holding `done` tasks marked Done followed by
`pending` tasks marked Not Started. -/
def sampleStoreOfCounts (done pending : Nat) : Store :=
  { projects := [{ sampleRoofProject with
      phaseTasks :=
        List.replicate done { taskOfRow sampleSurveyRow with status := Val.str "Done" } ++
        List.replicate pending (taskOfRow sampleSurveyRow) }] }

/-- A store whose cursor names project `1` while only project `7` is loaded. -/
def sampleReloadedStore : Store := setProjects sampleStore [sampleProjectSeven]

/-- A `Contractors` row with the negative `ContractorID` `-3`. -/
def sampleNegativeContractorRow : ContractorRow :=
  { ContractorID := Val.num (JSNum.fin (-3)), Name := Val.str "Acme" }

/-- A `Contractors` row whose `Preferred` cell is `Yes` between blanks. -/
def samplePaddedYesRow : ContractorRow :=
  { ContractorID := Val.num (JSNum.fin 2), Name := Val.str " Bob ", Preferred := Val.str " Yes " }

/-- The contractor built from `samplePaddedYesRow`. -/
def sampleBob : Contractor :=
  { contractorId := JSNum.fin 2, name := "Bob", company := "", trade := "", phone := "",
    email := "", accreditations := "", preferred := true, notes := "" }

/-- A `HealthAndSafety` row with the negative `HSID` `-4`. -/
def sampleNegativeHSRow : HSRow :=
  { HSID := Val.num (JSNum.fin (-4)), ProjectID := Val.num (JSNum.fin 1),
    Severity := Val.str "High" }

/-- A `HealthAndSafety` row with `HSID` `2`. -/
def sampleHSRow : HSRow :=
  { HSID := Val.num (JSNum.fin 2), ProjectID := Val.num (JSNum.fin 1),
    Severity := Val.str " High " }

/-- A `ProjectContractors` row linking project `1` to contractor `99`. -/
def sampleRooferLinkRow : LinkRow :=
  { LinkID := Val.num (JSNum.fin 5), ProjectID := Val.num (JSNum.fin 1),
    ContractorID := Val.num (JSNum.fin 99), Role := Val.str "Roofer" }

/-- A `ProjectContractors` row without a `ContractorID`. -/
def sampleBrokenLinkRow : LinkRow :=
  { LinkID := Val.num (JSNum.fin 6), ProjectID := Val.num (JSNum.fin 1) }

/-- The link built from `sampleRooferLinkRow`. -/
def sampleRooferLink : ContractorLink :=
  { linkId := JSNum.fin 5, projectId := JSNum.fin 1, contractorId := JSNum.fin 99,
    role := "Roofer", notes := "" }

/-- A store with the roofer link and no contractor `99`. -/
def sampleLinkStore : Store :=
  { projects := [sampleRoofProject], projectContractorLinks := [sampleRooferLink] }

/-- A `Projects` row with a budget given as text, a negative spend and a name
between blanks. -/
def sampleMoneyRow : ProjectRow :=
  { ID := Val.num (JSNum.fin 1), Name := Val.str " Roof ", Budget := Val.str "1000",
    ProjectedSpend := Val.str "1200", CurrentSpend := Val.num (JSNum.fin (-5)) }

/-- The project built from `sampleMoneyRow`. -/
def sampleMoneyProject : Project := projectOfRow (JSNum.fin 1) sampleMoneyRow

/-! ## The statistics as the specification words them -/

/-- The total number of tasks over all projects. -/
def specTaskCount (projects : List Project) : Nat :=
  (projects.map (fun p => p.phaseTasks.length)).sum

/-- The number of tasks, over all projects, whose status is exactly `Done`. -/
def specCompletedCount (projects : List Project) : Nat :=
  (projects.map (fun p =>
    p.phaseTasks.countP (fun t => decide (t.status = Val.str "Done")))).sum

/-- The exact quotient `100 * completed / tasks` rounded to the nearest
integer, half-way cases upwards as `Math.round` does; `0` without tasks. -/
def specProgress (completed tasks : Nat) : Int :=
  if tasks = 0 then 0 else Rat.floor (100 * (completed : Rat) / (tasks : Rat) + 1 / 2)

/-! ## The whole load (`excelService.js`, `main.js`) -/

/-- The decoded workbook: each sheet, when present, as its rows. -/
structure Workbook where
  Projects : Option (List ProjectRow) := none
  Tasks : Option (List TaskRow) := none
  Contractors : Option (List ContractorRow) := none
  HealthAndSafety : Option (List HSRow) := none
  ProjectContractors : Option (List LinkRow) := none
  deriving DecidableEq

/-- The object returned by `loadDataFromExcel`. -/
structure LoadedData where
  projects : List Project
  contractors : List Contractor
  hsWarnings : List HSWarning
  projectContractorLinks : List ContractorLink
  deriving DecidableEq

/-- `loadDataFromExcel`, from the decoded workbook on: the check of the two
required sheets and the normalisation.  (Fetching and decoding the file come
before and are not embedded.) -/
def loadDataFromExcel (wb : Workbook) : Except JSError LoadedData :=
  match wb.Projects, wb.Tasks with
  | some projRows, some taskRows => do
    let projects := normaliseProjects projRows taskRows
    let contractors ←
      match wb.Contractors with
      | some rows => normaliseContractors rows
      | none => Except.ok []
    let hsWarnings ←
      match wb.HealthAndSafety with
      | some rows => normaliseHSWarnings rows
      | none => Except.ok []
    let projectContractorLinks ←
      match wb.ProjectContractors with
      | some rows => normaliseLinks rows
      | none => Except.ok []
    return { projects := projects, contractors := contractors, hsWarnings := hsWarnings,
             projectContractorLinks := projectContractorLinks }
  | _, _ => Except.error (JSError.error "Missing Projects or Tasks sheet")

/-- The store after `bootstrap`: the four setters when the load succeeds, the
`catch` branch (which only reports) when it raises.  The rendering calls that
follow the setters do not write to the store. -/
def bootstrap (s : Store) (wb : Workbook) : Store :=
  match loadDataFromExcel wb with
  | Except.ok d =>
    setProjectContractorLinks
      (setHSWarnings (setContractors (setProjects s d.projects) d.contractors) d.hsWarnings)
      d.projectContractorLinks
  | Except.error _ => s

/-! ## Status cycling on stored entities -/

/-- Replace the element at a position by its image; nothing changes when the
position is out of range. -/
def modifyAt {α : Type} (f : α → α) : Nat → List α → List α
  | _, [] => []
  | 0, a :: l => f a :: l
  | n + 1, a :: l => a :: modifyAt f n l

/-- The store after `cycleTaskStatus(task)`, the task being the `j`-th task of
the `i`-th stored project: the assignment writes to that object in place. -/
def cycleTaskStatusAt (s : Store) (i j : Nat) : Store :=
  let cycleIn (p : Project) : Project :=
    { p with phaseTasks := modifyAt cycleTaskStatus j p.phaseTasks }
  { s with projects := modifyAt cycleIn i s.projects }

/-- The store after `cycleProjectStatus(project)`, the project being the `i`-th
stored project. -/
def cycleProjectStatusAt (s : Store) (i : Nat) : Store :=
  { s with projects := modifyAt cycleProjectStatus i s.projects }

/-- The store with the status of the `j`-th task of the `i`-th project
overwritten by `v`. -/
def overwriteTaskStatus (s : Store) (i j : Nat) (v : Val) : Store :=
  let overwrite (t : Task) : Task := { t with status := v }
  let overwriteIn (p : Project) : Project :=
    { p with phaseTasks := modifyAt overwrite j p.phaseTasks }
  { s with projects := modifyAt overwriteIn i s.projects }

/-- The store with the status of the `i`-th project overwritten by `v`. -/
def overwriteProjectStatus (s : Store) (i : Nat) (v : Val) : Store :=
  let overwrite (p : Project) : Project := { p with status := v }
  { s with projects := modifyAt overwrite i s.projects }

/-- The comparison `x < y`. -/
def JSNum.lt : JSNum → JSNum → Bool
  | JSNum.nan, _ => false
  | _, JSNum.nan => false
  | JSNum.negInf, JSNum.negInf => false
  | JSNum.negInf, _ => true
  | _, JSNum.negInf => false
  | JSNum.posInf, _ => false
  | JSNum.fin _, JSNum.posInf => true
  | JSNum.fin a, JSNum.fin b => decide (a < b)

/-- A workbook whose `Contractors` sheet holds a phone number as a numeric
cell. -/
def sampleNumericPhoneWorkbook : Workbook :=
  { Projects := some [sampleRoofRow], Tasks := some [sampleSurveyRow],
    Contractors := some
      [{ ContractorID := Val.num (JSNum.fin 1), Name := Val.str "Acme",
         Phone := Val.num (JSNum.fin 5551234) }] }

/-- A workbook with the two required sheets only. -/
def sampleMinimalWorkbook : Workbook :=
  { Projects := some [sampleRoofRow], Tasks := some [sampleSurveyRow] }

/-- A workbook without the `Tasks` sheet. -/
def sampleNoTasksWorkbook : Workbook :=
  { Projects := some [sampleRoofRow], Contractors := some [samplePaddedYesRow] }

/-- Two `Projects` rows in descending `ID` order. -/
def sampleRowsDescending : List ProjectRow :=
  [{ ID := Val.num (JSNum.fin 5), Name := Val.str "Five" },
   { ID := Val.num (JSNum.fin 2), Name := Val.str "Two" }]


/-- The ids of the retained `Projects` rows, in source row order. -/
def sourceIds (rows : List ProjectRow) : List JSNum :=
  (rows.filter (fun r => r.ID.toNumber.truthy)).map (fun r => r.ID.toNumber)

/-! ## Rankings (`programmeView.js`, `projectsView.js`) -/

/-- The call `xs.sort((a, b) => weight(b) - weight(a))`.  The sort is stable
and the weights are numbers, so each element is placed before the first one
that does not outweigh it.  The comparator is not called on fewer than two
elements; on two or more it is called on every element and raises when a
weight does. -/
def sortByWeightDesc {α : Type} (weight : α → Except JSError Nat) (xs : List α) :
    Except JSError (List α) :=
  match xs with
  | [] => Except.ok []
  | [x] => Except.ok [x]
  | _ => do
    let keyed ← xs.mapM (fun x => do
      let w ← weight x
      return (w, x))
    return (keyed.insertionSort (fun a b => b.1 ≤ a.1)).map Prod.snd

/-- The arrays at the end of `renderProgrammeRisks`: the array passed in and the
ranked array `sorted`. -/
structure RisksRun where
  projectsToShow : List Project
  sorted : List Project
  deriving DecidableEq

/-- `renderProgrammeRisks(filteredProjects)` up to the rendering loop; `none` is
the argument `null`, for which the stored projects are shown.  An empty array
returns before the ranking, nothing being listed; otherwise the spread copy is
sorted and sliced. -/
def renderProgrammeRisks (s : Store) (filteredProjects : Option (List Project)) :
    Except JSError RisksRun :=
  let projectsToShow := filteredProjects.getD s.projects
  if projectsToShow.isEmpty then
    Except.ok { projectsToShow := projectsToShow, sorted := [] }
  else do
    let copy := projectsToShow
    let sortedCopy ← sortByWeightDesc (fun p => riskWeight p.riskRating) copy
    return { projectsToShow := projectsToShow, sorted := sortedCopy.take 5 }

/-- The weight of the risk rating of a project, `0` where `riskWeight` raises. -/
def ratingWeight (p : Project) : Nat :=
  match riskWeight p.riskRating with
  | Except.ok n => n
  | Except.error _ => 0

/-- The reduce of `renderProgrammeHSHotspots` over the warnings of one project,
started from `warnings[0]`.  On an empty array the reduce returns its initial
value, which is `undefined`. -/
def highestSeverityReduce (warnings : List HSWarning) : Except JSError (Option HSWarning) :=
  match warnings with
  | [] => Except.ok none
  | first :: _ => do
    let highest ← warnings.foldlM (fun highest w => do
      let currentWeight ← hsSeverityWeight (Val.str w.severity)
      let highestWeight ← hsSeverityWeight (Val.str highest.severity)
      return if currentWeight > highestWeight then w else highest) first
    return some highest

/-- The weight written inline in `renderSelectedProject`:
`(severity || "").toLowerCase()` compared with the three labels. -/
def inlineSeverityWeight (severity : String) : Nat :=
  let lowered := toLowerCase (if severity = "" then "" else severity)
  if lowered = "high" then 3
  else if lowered = "medium" then 2
  else if lowered = "low" then 1
  else 0

/-- The inline reduce of `renderSelectedProject`: `null` on an empty array. -/
def selectedHighestSeverity (warnings : List HSWarning) : Option HSWarning :=
  match warnings with
  | [] => none
  | first :: _ =>
    some (warnings.foldl (fun highest w =>
      if inlineSeverityWeight w.severity > inlineSeverityWeight highest.severity then w
      else highest) first)

/-- The two warnings of the example: a `Low` one, then a `High` one. -/
def sampleLowWarning : HSWarning :=
  { id := JSNum.fin 1, projectId := JSNum.fin 1, warningType := "", description := "",
    severity := "Low", location := "", controlMeasures := "", notes := "" }

def sampleHighWarning : HSWarning :=
  { id := JSNum.fin 2, projectId := JSNum.fin 1, warningType := "", description := "",
    severity := "High", location := "", controlMeasures := "", notes := "" }

/-- Three projects rated `Low`, `High`, `High`. -/
def sampleRatedProjects : List Project :=
  [{ sampleRoofProject with riskRating := Val.str "Low" },
   { sampleProjectSeven with riskRating := Val.str "High" },
   { sampleMoneyProject with riskRating := Val.str "High" }]

/-! ## Sets and keyed collections -/

/-- The call `set.add(v)` on a `Set` listed in insertion order.  Membership of
a `Set` is by `SameValueZero`, which on numbers without a signed zero and on
strings is equality. -/
def setAdd {α : Type} [DecidableEq α] (set : List α) (v : α) : List α :=
  if v ∈ set then set else set ++ [v]

/-- The set `new Set(values)`, in insertion order; its `size` is its length. -/
def setOf {α : Type} [DecidableEq α] (values : List α) : List α :=
  values.foldl setAdd []

/-- The read `m.get(k)` of a `Map`, or `m[k]` of an object, listed in creation
order of its keys. -/
def lookupAt {κ β : Type} [DecidableEq κ] (m : List (κ × β)) (k : κ) : Option β :=
  (m.find? (fun e => decide (e.1 = k))).map Prod.snd

/-- The statements `if (!m.has(k)) m.set(k, empty); update(m.get(k))`, the
update being in place: an entry that is present keeps its position, a new one
is created last. -/
def updateAt {κ β : Type} [DecidableEq κ] (empty : β) (update : β → β) :
    List (κ × β) → κ → List (κ × β)
  | [], k => [(k, update empty)]
  | e :: rest, k =>
    if e.1 = k then (e.1, update e.2) :: rest else e :: updateAt empty update rest k

/-- `Object.keys(m)` read back as numbers by `Number(pid)`, for an object whose
keys were written from numbers: the array indices ascending, then the other
keys in creation order. -/
def numericKeys {β : Type} (m : List (JSNum × β)) : List JSNum :=
  ((m.filterMap (fun e => ProjectMap.arrayIndex e.1)).insertionSort (fun a b => a ≤ b)).map
      (fun i : Nat => JSNum.fin (i : Rat)) ++
    (m.filter (fun e => (ProjectMap.arrayIndex e.1).isNone)).map Prod.fst

/-! ## Health and safety hotspots (`programmeView.js`) -/

/-- An element of `projectHSData`. -/
structure Hotspot where
  project : Project
  highestSeverity : String
  warningTypes : List String
  deriving DecidableEq

/-- The object `projectWarningsMap` after the loop over `hsWarnings`. -/
def projectWarningsMap (projectsToShow : List Project) (hsWarnings : List HSWarning) :
    List (JSNum × List HSWarning) :=
  let filteredProjectIds := setOf (projectsToShow.map (fun p => p.id))
  hsWarnings.foldl (fun m w =>
    if w.projectId ∈ filteredProjectIds then
      updateAt [] (fun warnings => warnings ++ [w]) m w.projectId
    else m) []

/-- The callback mapped over `Object.keys(projectWarningsMap)`; `none` is its
result `null`.  Reading `reduce` from a missing entry, or `severity` from the
result of a reduce over an empty array, raises a `TypeError`. -/
def hotspotOfKey (projectsToShow : List Project) (m : List (JSNum × List HSWarning))
    (pidNum : JSNum) : Except JSError (Option Hotspot) :=
  match projectsToShow.find? (fun p => p.id.strictEq pidNum) with
  | none => Except.ok none
  | some project =>
    match lookupAt m pidNum with
    | none => Except.error JSError.typeError
    | some warnings => do
      let highest ← highestSeverityReduce warnings
      match highest with
      | none => Except.error JSError.typeError
      | some highestSeverity =>
        let weight ← hsSeverityWeight (Val.str highestSeverity.severity)
        if weight < 2 then return none
        else
          return some
            { project := project
              highestSeverity := highestSeverity.severity
              warningTypes :=
                setOf ((warnings.map (fun w => w.warningType)).filter (fun t => decide (t ≠ ""))) }

/-- `renderProgrammeHSHotspots(filteredProjects)` up to the rendering loop: the
array `projectHSData`.  With no stored warning the function returns before
computing it, nothing being listed. -/
def renderProgrammeHSHotspots (s : Store) (filteredProjects : Option (List Project)) :
    Except JSError (List Hotspot) :=
  if s.hsWarnings.isEmpty then Except.ok []
  else do
    let projectsToShow := filteredProjects.getD s.projects
    let m := projectWarningsMap projectsToShow s.hsWarnings
    let mapped ← (numericKeys m).mapM (hotspotOfKey projectsToShow m)
    let kept := mapped.filterMap (fun e => e)
    let sorted ← sortByWeightDesc (fun e => hsSeverityWeight (Val.str e.highestSeverity)) kept
    return sorted.take 5

/-! ## Contractor usage (`programmeView.js`, `charts.js`) -/

/-- An element of `rows` in `renderProgrammeContractors`. -/
structure UsageRow where
  contractor : Contractor
  projectCount : Nat
  deriving DecidableEq

/-- The `Map` `usageMap` after the loop over the links. -/
def usageMap (projectsToShow : List Project) (links : List ContractorLink) :
    List (JSNum × List JSNum) :=
  let filteredProjectIds := setOf (projectsToShow.map (fun p => p.id))
  links.foldl (fun m link =>
    if link.projectId ∈ filteredProjectIds then
      updateAt [] (fun set => setAdd set link.projectId) m link.contractorId
    else m) []

/-- `renderProgrammeContractors(filteredProjects)` up to the rendering loop: the
rows `rows.slice(0, 8)`.  With no contractor or no link the function returns
before computing them, nothing being listed. -/
def renderProgrammeContractors (s : Store) (filteredProjects : Option (List Project)) :
    List UsageRow :=
  let projectsToShow := filteredProjects.getD s.projects
  if s.contractors.isEmpty || s.projectContractorLinks.isEmpty then []
  else
    let m := usageMap projectsToShow s.projectContractorLinks
    let rows := ((s.contractors.map (fun c =>
        ({ contractor := c, projectCount := ((lookupAt m c.contractorId).getD []).length } :
          UsageRow))).filter
      (fun row => decide (row.projectCount > 0))).insertionSort
        (fun a b => b.projectCount ≤ a.projectCount)
    rows.take 8

/-- The expression `contractor?.trade || "Other"` for the contractor found by
the id of a link. -/
def tradeOfLink (contractors : List Contractor) (link : ContractorLink) : String :=
  match contractors.find? (fun c => c.contractorId.strictEq link.contractorId) with
  | some c => if c.trade = "" then "Other" else c.trade
  | none => "Other"

/-- The arrays `labels` and `data` handed to the radar chart. -/
structure RadarData where
  labels : List String
  data : List Nat
  deriving DecidableEq

/-- `updateContractorRadarChart(contractors, projectContractorLinks)` up to the
creation of the chart. -/
def updateContractorRadarChart (contractors : List Contractor)
    (projectContractorLinks : List ContractorLink) : RadarData :=
  let usageByTrade := projectContractorLinks.foldl (fun m link =>
    updateAt [] (fun set => setAdd set link.projectId) m (tradeOfLink contractors link)) []
  let labels := usageByTrade.map Prod.fst
  { labels := labels
    data := labels.map (fun trade => ((lookupAt usageByTrade trade).getD []).length) }

/-! ## Phase columns (`projectsView.js`) -/

/-- The property key written by a value used as `phases[v]`. -/
def propertyKey : Val → String
  | Val.undef => "undefined"
  | Val.bool true => "true"
  | Val.bool false => "false"
  | Val.num n => numberToString n
  | Val.str s => s

/-- The properties that the object literal `phases` inherits from
`Object.prototype`.  Each holds a function, or for `__proto__` the prototype
object: a truthy value without a `push` method. -/
def objectPrototypeKeys : List String :=
  ["constructor", "__defineGetter__", "__defineSetter__", "hasOwnProperty",
   "__lookupGetter__", "__lookupSetter__", "isPrototypeOf", "propertyIsEnumerable",
   "toString", "valueOf", "__proto__", "toLocaleString"]

/-- The object `phases`. -/
structure Phases where
  Pre : List Task := []
  During : List Task := []
  Post : List Task := []
  deriving DecidableEq

/-- The statement `if (phases[t.phase]) phases[t.phase].push(t)`.  An own
property holds an array, which is truthy; an inherited one is truthy and the
call of its missing `push` raises a `TypeError`; any other key reads
`undefined`. -/
def bucketTask (phases : Phases) (t : Task) : Except JSError Phases :=
  let key := propertyKey t.phase
  if key = "Pre" then Except.ok { phases with Pre := phases.Pre ++ [t] }
  else if key = "During" then Except.ok { phases with During := phases.During ++ [t] }
  else if key = "Post" then Except.ok { phases with Post := phases.Post ++ [t] }
  else if key ∈ objectPrototypeKeys then Except.error JSError.typeError
  else Except.ok phases

/-- The phase bucketing of `renderSelectedProject` for the selected project. -/
def bucketPhases (project : Project) : Except JSError Phases :=
  project.phaseTasks.foldlM bucketTask {}

/-! ## The usage counts as the specification words them -/

/-- The number of distinct project ids of the shown projects for which a link
to the contractor exists. -/
def specUsageCount (projectsToShow : List Project) (links : List ContractorLink)
    (contractorId : JSNum) : Nat :=
  (((projectsToShow.map (fun p => p.id)).dedup).filter (fun pid =>
    links.any (fun link => decide (link.projectId = pid ∧ link.contractorId = contractorId)))).length

/-- The number of distinct project ids among the links counted under a trade. -/
def specTradeCount (contractors : List Contractor) (links : List ContractorLink)
    (trade : String) : Nat :=
  (((links.filter (fun link => decide (tradeOfLink contractors link = trade))).map
    (fun link => link.projectId)).dedup).length

/-- The weight of a stored severity, `0` where `hsSeverityWeight` raises. -/
def weightOfSeverity (severity : String) : Nat :=
  match hsSeverityWeight (Val.str severity) with
  | Except.ok n => n
  | Except.error _ => 0

/-- A `Tasks` row whose `Phase` cell is the text `constructor`. -/
def sampleConstructorRow : TaskRow :=
  { ProjectID := Val.num (JSNum.fin 1), Title := Val.str "Survey",
    Phase := Val.str "constructor" }

/-- The project loaded from `sampleRoofRow` and `sampleConstructorRow`. -/
def sampleConstructorProject : Project :=
  { projectOfRow (JSNum.fin 1) sampleRoofRow with phaseTasks := [taskOfRow sampleConstructorRow] }

/-! ## The filter handlers (`projectsView.js`) and further samples -/

/-- The `change` handler of either filter in `initProjectsView`, as to the
store: when no filtered project has the selected id, the first filtered
project is selected, or none when the filtered list is empty. -/
def onFilterChange (s : Store) (statusFilter siteFilter : String) : Store :=
  let filtered := getFilteredProjects s statusFilter siteFilter
  match filtered.find? (fun p =>
    match s.selectedProjectId with
    | none => false
    | some id => p.id.strictEq id) with
  | some _ => s
  | none => setSelectedProject s (filtered.head?.map (fun p => p.id))

/-- A workbook whose only project has the id `7`. -/
def sampleSevenWorkbook : Workbook :=
  { Projects := some [{ ID := Val.str "7" }], Tasks := some [] }

/-- A `Tasks` row with a title between blanks. -/
def samplePaddedTaskRow : TaskRow :=
  { ProjectID := Val.num (JSNum.fin 1), Title := Val.str " Survey " }

/-- A workbook with a project name, a task title and a contractor name between
blanks. -/
def samplePaddedWorkbook : Workbook :=
  { Projects := some [sampleMoneyRow], Tasks := some [samplePaddedTaskRow],
    Contractors := some [samplePaddedYesRow] }

/-- A store with project `1` and the two warnings of the example. -/
def sampleHotspotStore : Store :=
  { projects := [sampleRoofProject], hsWarnings := [sampleLowWarning, sampleHighWarning] }

/-- The contractor `1`. -/
def sampleAcme : Contractor :=
  { contractorId := JSNum.fin 1, name := "Acme", company := "", trade := "", phone := "",
    email := "", accreditations := "", preferred := false, notes := "" }

/-- A link of a project to a contractor. -/
def sampleLinkOf (linkId projectId contractorId : Nat) : ContractorLink :=
  { linkId := JSNum.fin (linkId : Rat), projectId := JSNum.fin (projectId : Rat),
    contractorId := JSNum.fin (contractorId : Rat), role := "", notes := "" }

/-- A store with the projects `1` and `7`, the contractors `1` and `2`, and
links of contractor `1` to the projects `1` and `9` and of contractor `2` to
project `1` twice and to project `7`. -/
def sampleUsageStore : Store :=
  { projects := [sampleRoofProject, sampleProjectSeven]
    contractors := [sampleAcme, sampleBob]
    projectContractorLinks :=
      [sampleLinkOf 1 1 1, sampleLinkOf 2 9 1, sampleLinkOf 3 1 2, sampleLinkOf 4 1 2,
       sampleLinkOf 5 7 2] }

/-! ## The property map -/

namespace ProjectMap

theorem lookup_nil (k : JSNum) : lookup [] k = none := rfl

theorem lookup_cons (e : JSNum × Project) (m : ProjectMap) (k : JSNum) :
    lookup (e :: m) k = if e.1 = k then some e.2 else lookup m k := by
  unfold lookup
  by_cases h : e.1 = k <;> simp [List.find?, h]

theorem lookup_assign (m : ProjectMap) (k k1 : JSNum) (v : Project) :
    lookup (assign m k v) k1 = if k = k1 then some v else lookup m k1 := by
  induction m with
  | nil => simp [assign, lookup_cons, lookup_nil]
  | cons e m ih =>
    by_cases h : e.1 = k
    · subst h
      by_cases h1 : e.1 = k1 <;> simp [assign, lookup_cons, h1]
    · by_cases h1 : e.1 = k1
      · have h2 : ¬ k = k1 := fun h3 => h (h1.trans h3.symm)
        rw [assign, if_neg h, lookup_cons, if_pos h1, if_neg h2, lookup_cons, if_pos h1]
      · rw [assign, if_neg h, lookup_cons, if_neg h1, ih, lookup_cons, if_neg h1]

theorem keys_assign (m : ProjectMap) (k : JSNum) (v : Project) :
    (assign m k v).map Prod.fst =
      if k ∈ m.map Prod.fst then m.map Prod.fst else m.map Prod.fst ++ [k] := by
  induction m with
  | nil => simp [assign]
  | cons e m ih =>
    by_cases h : e.1 = k
    · subst h
      simp [assign]
    · have h1 : ¬ k = e.1 := fun h2 => h h2.symm
      by_cases h3 : k ∈ m.map Prod.fst
      · simp only [assign, h, if_false, List.map_cons, ih, h3, if_true, List.mem_cons, or_true]
      · simp only [assign, h, if_false, List.map_cons, ih, h3, List.mem_cons, h1, or_self,
          List.cons_append]

theorem keys_pushTask (m : ProjectMap) (k : JSNum) (t : Task) :
    (pushTask m k t).map Prod.fst = m.map Prod.fst := by
  unfold pushTask
  rw [List.map_map]
  apply List.map_congr_left
  intro e _
  by_cases h : e.1 = k <;> simp [h]

theorem lookup_pushTask (m : ProjectMap) (k k1 : JSNum) (t : Task) :
    lookup (pushTask m k t) k1 =
      (lookup m k1).map (fun p =>
        if k1 = k then { p with phaseTasks := p.phaseTasks ++ [t] } else p) := by
  induction m with
  | nil => simp [pushTask, lookup_nil]
  | cons e m ih =>
    have hstep : pushTask (e :: m) k t =
        (if e.1 = k then (e.1, { e.2 with phaseTasks := e.2.phaseTasks ++ [t] }) else e) ::
          pushTask m k t := by
      simp [pushTask]
    rw [hstep, lookup_cons, lookup_cons, ih]
    by_cases h : e.1 = k
    · by_cases h1 : e.1 = k1
      · have h2 : k1 = k := h1.symm.trans h
        simp [h, h1, h2]
      · have h2 : ¬ k = k1 := fun h3 => h1 (h.trans h3)
        simp [h, h2]
    · by_cases h1 : e.1 = k1
      · have h2 : ¬ k1 = k := fun h3 => h (h1.trans h3)
        simp [h, h1, h2]
      · simp [h, h1]

theorem lookup_eq_none_iff (m : ProjectMap) (k : JSNum) :
    lookup m k = none ↔ k ∉ m.map Prod.fst := by
  induction m with
  | nil => simp [lookup_nil]
  | cons e m ih =>
    rw [lookup_cons]
    by_cases h : e.1 = k
    · simp [h]
    · have h1 : ¬ k = e.1 := fun h2 => h h2.symm
      simp [h, h1, ih]

theorem mem_iff_lookup (m : ProjectMap) (hm : (m.map Prod.fst).Nodup) (k : JSNum)
    (p : Project) : (k, p) ∈ m ↔ lookup m k = some p := by
  induction m with
  | nil => simp [lookup_nil]
  | cons e m ih =>
    rw [List.map_cons, List.nodup_cons] at hm
    rw [lookup_cons, List.mem_cons]
    by_cases h : e.1 = k
    · have hk : ∀ q, (k, q) ∉ m := by
        intro q hq
        apply hm.1
        rw [h]
        exact List.mem_map.mpr ⟨(k, q), hq, rfl⟩
      constructor
      · rintro (h1 | h1)
        · simp [← h1]
        · exact absurd h1 (hk p)
      · intro h1
        left
        simp only [h, if_true, Option.some.injEq] at h1
        exact Prod.ext h.symm h1.symm
    · simp only [h, if_false]
      rw [← ih hm.2]
      constructor
      · rintro (h1 | h1)
        · exact absurd (by rw [← h1]) h
        · exact h1
      · exact Or.inr

theorem indexed_map_snd (m : ProjectMap) :
    (indexed m).map Prod.snd = (m.filter (fun e => (arrayIndex e.1).isSome)).map Prod.snd := by
  unfold indexed
  induction m with
  | nil => rfl
  | cons e m ih =>
    cases h : arrayIndex e.1 <;> simp [List.filterMap_cons, List.filter_cons, h, ih]

theorem values_perm (m : ProjectMap) : (values m).Perm (m.map Prod.snd) := by
  unfold values
  have h1 : (((indexed m).insertionSort (fun a b => a.1 ≤ b.1)).map Prod.snd).Perm
      ((indexed m).map Prod.snd) := (List.perm_insertionSort _ _).map _
  have h2 := indexed_map_snd m
  have h3 : (m.filter (fun e => (arrayIndex e.1).isSome) ++
      m.filter (fun e => (arrayIndex e.1).isNone)).Perm m := by
    have h4 := List.filter_append_perm (fun e : JSNum × Project => (arrayIndex e.1).isSome) m
    have h5 : (fun e : JSNum × Project => (arrayIndex e.1).isNone) =
        (fun e => !(arrayIndex e.1).isSome) := by
      funext e
      cases arrayIndex e.1 <;> rfl
    rw [h5]
    exact h4
  unfold named
  refine (h1.append_right _).trans ?_
  rw [h2, ← List.map_append]
  exact h3.map _

end ProjectMap

/-! ## The two loops of the normaliser -/

theorem getLast?_cons_eq {α : Type} (a : α) (l : List α) :
    (a :: l).getLast? = match l.getLast? with
      | some b => some b
      | none => some a := by
  cases l with
  | nil => rfl
  | cons b l =>
    rw [List.getLast?_cons_cons]
    cases h : (b :: l).getLast? with
    | none => simp at h
    | some c => rfl

theorem lookup_addProjectRow (m : ProjectMap) (row : ProjectRow) (k : JSNum)
    (hk : k.truthy = true) :
    (addProjectRow m row).lookup k =
      if row.ID.toNumber = k then some (projectOfRow k row) else m.lookup k := by
  unfold addProjectRow
  by_cases h : row.ID.toNumber = k
  · simp [h, hk, ProjectMap.lookup_assign]
  · by_cases h1 : row.ID.toNumber.truthy = true
    · simp [h, h1, ProjectMap.lookup_assign]
    · simp [h, h1]

theorem lookup_projRows (rows : List ProjectRow) (m : ProjectMap) (k : JSNum)
    (hk : k.truthy = true) :
    (rows.foldl addProjectRow m).lookup k =
      match (rows.filter (fun r => decide (r.ID.toNumber = k))).getLast? with
      | some r => some (projectOfRow k r)
      | none => m.lookup k := by
  induction rows generalizing m with
  | nil => rfl
  | cons row rows ih =>
    rw [List.foldl_cons, ih, lookup_addProjectRow m row k hk]
    by_cases h : row.ID.toNumber = k
    · rw [List.filter_cons_of_pos (by simpa using h), getLast?_cons_eq]
      cases (rows.filter (fun r => decide (r.ID.toNumber = k))).getLast? <;> simp [h]
    · rw [List.filter_cons_of_neg (by simpa using h)]
      cases (rows.filter (fun r => decide (r.ID.toNumber = k))).getLast? <;> simp [h]

theorem keys_projRows (rows : List ProjectRow) (m : ProjectMap)
    (hm : (m.map Prod.fst).Nodup ∧ ∀ k ∈ m.map Prod.fst, k.truthy = true) :
    ((rows.foldl addProjectRow m).map Prod.fst).Nodup ∧
      ∀ k ∈ (rows.foldl addProjectRow m).map Prod.fst, k.truthy = true := by
  induction rows generalizing m with
  | nil => exact hm
  | cons row rows ih =>
    rw [List.foldl_cons]
    apply ih
    unfold addProjectRow
    by_cases h1 : row.ID.toNumber.truthy = true
    · simp only [h1, Bool.not_true, Bool.false_eq_true, if_false, ProjectMap.keys_assign]
      by_cases h2 : row.ID.toNumber ∈ m.map Prod.fst
      · simpa [h2] using hm
      · rw [if_neg h2]
        constructor
        · exact List.Nodup.append hm.1 (List.nodup_singleton _) (by simpa using h2)
        · intro k hk1
          rcases List.mem_append.mp hk1 with h3 | h3
          · exact hm.2 k h3
          · rw [List.mem_singleton.mp h3]
            exact h1
    · simpa [h1] using hm

theorem keys_addTaskRow (m : ProjectMap) (row : TaskRow) :
    (addTaskRow m row).map Prod.fst = m.map Prod.fst := by
  by_cases hc : (!row.ProjectID.toNumber.truthy || (m.lookup row.ProjectID.toNumber).isNone) = true
  · simp only [addTaskRow, hc, if_true]
  · simp only [addTaskRow, hc, if_false]
    exact ProjectMap.keys_pushTask _ _ _

theorem keys_taskRows (tasks : List TaskRow) (m : ProjectMap) :
    (tasks.foldl addTaskRow m).map Prod.fst = m.map Prod.fst := by
  induction tasks generalizing m with
  | nil => rfl
  | cons row tasks ih => rw [List.foldl_cons, ih, keys_addTaskRow]

theorem lookup_addTaskRow (m : ProjectMap) (row : TaskRow) (k : JSNum)
    (hk : k.truthy = true) :
    (addTaskRow m row).lookup k =
      (m.lookup k).map (fun p =>
        if row.ProjectID.toNumber = k then
          { p with phaseTasks := p.phaseTasks ++ [taskOfRow row] }
        else p) := by
  unfold addTaskRow
  by_cases h : row.ProjectID.toNumber = k
  · cases h1 : m.lookup k with
    | none => simp [h, h1]
    | some p => simp [h, hk, h1, ProjectMap.lookup_pushTask]
  · have h2 : ¬ k = row.ProjectID.toNumber := fun h3 => h h3.symm
    by_cases hc : (!row.ProjectID.toNumber.truthy ||
        (m.lookup row.ProjectID.toNumber).isNone) = true
    · show (if _ then m else _).lookup k = _
      rw [if_pos hc]
      simp only [h, if_false]
      cases m.lookup k <;> rfl
    · show (if _ then m else _).lookup k = _
      rw [if_neg hc, ProjectMap.lookup_pushTask]
      simp only [h, h2, if_false]

theorem lookup_taskRows (tasks : List TaskRow) (m : ProjectMap) (k : JSNum)
    (hk : k.truthy = true) :
    (tasks.foldl addTaskRow m).lookup k =
      (m.lookup k).map (fun p =>
        { p with phaseTasks := p.phaseTasks ++
            (tasks.filter (fun t => decide (t.ProjectID.toNumber = k))).map taskOfRow }) := by
  induction tasks generalizing m with
  | nil =>
    cases h : m.lookup k <;> simp [h]
  | cons row tasks ih =>
    rw [List.foldl_cons, ih, lookup_addTaskRow m row k hk]
    by_cases h : row.ProjectID.toNumber = k
    · rw [List.filter_cons_of_pos (by simpa using h)]
      cases m.lookup k <;> simp [h]
    · rw [List.filter_cons_of_neg (by simpa using h)]
      cases m.lookup k <;> simp [h]

theorem keys_buildProjectMap (rows : List ProjectRow) (tasks : List TaskRow) :
    ((buildProjectMap rows tasks).map Prod.fst).Nodup ∧
      ∀ k ∈ (buildProjectMap rows tasks).map Prod.fst, k.truthy = true := by
  unfold buildProjectMap
  rw [keys_taskRows]
  exact keys_projRows rows [] ⟨List.nodup_nil, by simp⟩

theorem lookup_buildProjectMap (rows : List ProjectRow) (tasks : List TaskRow) (k : JSNum)
    (hk : k.truthy = true) :
    (buildProjectMap rows tasks).lookup k =
      ((rows.filter (fun r => decide (r.ID.toNumber = k))).getLast?).map (fun r =>
        { projectOfRow k r with
          phaseTasks := (tasks.filter (fun t => decide (t.ProjectID.toNumber = k))).map
            taskOfRow }) := by
  unfold buildProjectMap
  rw [lookup_taskRows tasks _ k hk, lookup_projRows rows [] k hk]
  cases (rows.filter (fun r => decide (r.ID.toNumber = k))).getLast? with
  | none => simp [ProjectMap.lookup_nil]
  | some r => simp [projectOfRow]

/-- A project is in the normalised list exactly when its id is truthy, some
row carries that id, and the project is built from the last such row and from
all the task rows with that id. -/
theorem mem_normaliseProjects_iff (rows : List ProjectRow) (tasks : List TaskRow)
    (p : Project) :
    p ∈ normaliseProjects rows tasks ↔
      p.id.truthy = true ∧
      ∃ r, (rows.filter (fun r => decide (r.ID.toNumber = p.id))).getLast? = some r ∧
        p = { projectOfRow p.id r with
          phaseTasks := (tasks.filter (fun t => decide (t.ProjectID.toNumber = p.id))).map
            taskOfRow } := by
  have hkeys := keys_buildProjectMap rows tasks
  unfold normaliseProjects
  rw [(ProjectMap.values_perm _).mem_iff, List.mem_map]
  constructor
  · rintro ⟨⟨k, q⟩, hmem, rfl⟩
    have hk : k.truthy = true := hkeys.2 k (List.mem_map.mpr ⟨(k, q), hmem, rfl⟩)
    have hl := (ProjectMap.mem_iff_lookup _ hkeys.1 k q).mp hmem
    rw [lookup_buildProjectMap rows tasks k hk] at hl
    cases hr : (rows.filter (fun r => decide (r.ID.toNumber = k))).getLast? with
    | none => simp [hr] at hl
    | some r =>
      rw [hr] at hl
      have hq := Option.some.inj hl
      have hid : q.id = k := by
        rw [← hq]
        rfl
      simp only [hid]
      exact ⟨hk, r, hr, hq.symm⟩
  · rintro ⟨hk, r, hr, hp⟩
    refine ⟨(p.id, p), ?_, rfl⟩
    rw [ProjectMap.mem_iff_lookup _ hkeys.1, lookup_buildProjectMap rows tasks p.id hk, hr]
    exact congrArg some hp.symm

theorem id_eq_key (rows : List ProjectRow) (tasks : List TaskRow) (e : JSNum × Project)
    (he : e ∈ buildProjectMap rows tasks) : e.2.id = e.1 := by
  have hkeys := keys_buildProjectMap rows tasks
  have hk : e.1.truthy = true := hkeys.2 e.1 (List.mem_map.mpr ⟨e, he, rfl⟩)
  have hl := (ProjectMap.mem_iff_lookup _ hkeys.1 e.1 e.2).mp he
  rw [lookup_buildProjectMap rows tasks e.1 hk] at hl
  cases hr : (rows.filter (fun r => decide (r.ID.toNumber = e.1))).getLast? with
  | none => simp [hr] at hl
  | some r =>
    rw [hr] at hl
    rw [← Option.some.inj hl]
    rfl

theorem ids_eq_keys (rows : List ProjectRow) (tasks : List TaskRow) :
    ((normaliseProjects rows tasks).map (fun p => p.id)).Perm
      ((buildProjectMap rows tasks).map Prod.fst) := by
  unfold normaliseProjects
  refine ((ProjectMap.values_perm _).map _).trans ?_
  rw [List.map_map]
  apply List.Perm.of_eq
  apply List.map_congr_left
  intro e he
  exact id_eq_key rows tasks e he

theorem addTaskRow_absent (m : ProjectMap) (t : TaskRow)
    (h : t.ProjectID.toNumber ∉ m.map Prod.fst) : addTaskRow m t = m := by
  have h1 := (ProjectMap.lookup_eq_none_iff m _).mpr h
  simp [addTaskRow, h1]

theorem foldl_addTaskRow_filter (keys : List JSNum) (keep : TaskRow → Bool)
    (hkeep : ∀ t, keep t = false → t.ProjectID.toNumber ∉ keys) (tasks : List TaskRow)
    (m : ProjectMap) (hm : m.map Prod.fst = keys) :
    (tasks.filter keep).foldl addTaskRow m = tasks.foldl addTaskRow m := by
  induction tasks generalizing m with
  | nil => rfl
  | cons t tasks ih =>
    cases hk : keep t with
    | true =>
      rw [List.filter_cons_of_pos hk, List.foldl_cons, List.foldl_cons]
      exact ih _ ((keys_addTaskRow m t).trans hm)
    | false =>
      rw [List.filter_cons_of_neg (by simp [hk]), List.foldl_cons,
        addTaskRow_absent m t (by rw [hm]; exact hkeep t hk)]
      exact ih m hm

/-! ## Settled claims: the workbook normaliser -/

/-- C1, as stated, fails: a `Projects` row whose `ID` is the number `-1` is
retained, so not every normalised project has `id > 0`. -/
theorem C1_negative_id_is_retained :
    ¬ ∀ p ∈ normaliseProjects sampleRowsNegative [], p.id.isPos = true := by
  decide!

/-- C1, amended: every normalised project has an id that is neither `NaN` nor
zero, and that id is the numeric `ID` of a `Projects` row; a row whose `ID` is
non-numeric or zero therefore yields no project. -/
theorem C1_normalised_id_is_nonzero_number (rows : List ProjectRow) (tasks : List TaskRow)
    (p : Project) (hp : p ∈ normaliseProjects rows tasks) :
    p.id ≠ JSNum.nan ∧ p.id ≠ JSNum.fin 0 ∧ ∃ r ∈ rows, r.ID.toNumber = p.id := by
  obtain ⟨hk, r, hr, _⟩ := (mem_normaliseProjects_iff rows tasks p).mp hp
  refine ⟨?_, ?_, r, ?_⟩
  · intro h
    rw [h] at hk
    exact absurd hk (by decide)
  · intro h
    rw [h] at hk
    exact absurd hk (by decide)
  · have h1 := List.mem_of_mem_getLast? hr
    rw [List.mem_filter] at h1
    exact ⟨h1.1, by simpa using h1.2⟩

/-- Witness for `C1_normalised_id_is_nonzero_number`: of three rows with a
non-numeric, a zero and a valid `ID`, the valid one yields a project. -/
theorem C1_normalised_id_is_nonzero_number_witness :
    sampleProjectSeven ∈ normaliseProjects sampleRowsMixed [] ∧
      (sampleProjectSeven.id ≠ JSNum.nan ∧ sampleProjectSeven.id ≠ JSNum.fin 0 ∧
        ∃ r ∈ sampleRowsMixed, r.ID.toNumber = sampleProjectSeven.id) :=
  ⟨by decide!, C1_normalised_id_is_nonzero_number sampleRowsMixed [] sampleProjectSeven
    (by decide!)⟩

/-- C2: the tasks of a normalised project are exactly the tasks built from the
`Tasks` rows whose numeric `ProjectID` equals the project's id, in row order;
and the rows whose `ProjectID` equals no normalised project id contribute
nothing: deleting them all leaves the normalised list unchanged. -/
theorem C2_tasks_attach_by_project_id (rows : List ProjectRow) (tasks : List TaskRow) :
    (∀ p ∈ normaliseProjects rows tasks,
      p.phaseTasks =
        (tasks.filter (fun t => decide (t.ProjectID.toNumber = p.id))).map taskOfRow) ∧
    normaliseProjects rows
        (tasks.filter (fun t =>
          (normaliseProjects rows tasks).any (fun p => decide (p.id = t.ProjectID.toNumber)))) =
      normaliseProjects rows tasks := by
  constructor
  · intro p hp
    obtain ⟨_, r, _, h⟩ := (mem_normaliseProjects_iff rows tasks p).mp hp
    exact congrArg Project.phaseTasks h
  · unfold normaliseProjects
    congr 1
    unfold buildProjectMap
    apply foldl_addTaskRow_filter ((rows.foldl addProjectRow []).map Prod.fst)
    · intro t ht hmem
      have h1 : t.ProjectID.toNumber ∈ (buildProjectMap rows tasks).map Prod.fst := by
        unfold buildProjectMap
        rw [keys_taskRows]
        exact hmem
      have h2 := (ids_eq_keys rows tasks).mem_iff.mpr h1
      obtain ⟨p, hp, hpid⟩ := List.mem_map.mp h2
      have h3 : ((buildProjectMap rows tasks).values.any
          (fun p => decide (p.id = t.ProjectID.toNumber))) = true :=
        List.any_eq_true.mpr ⟨p, hp, by simpa using hpid⟩
      exact Bool.noConfusion (h3.symm.trans ht)
    · rfl

/-- Witness for `C2_tasks_attach_by_project_id`: one project, one task row
for it and one task row for an id that no project has. -/
theorem C2_tasks_attach_by_project_id_witness :
    sampleRoofProject ∈ normaliseProjects [sampleRoofRow] [sampleSurveyRow, sampleOrphanRow] ∧
      sampleRoofProject.phaseTasks =
        ([sampleSurveyRow, sampleOrphanRow].filter
          (fun t => decide (t.ProjectID.toNumber = sampleRoofProject.id))).map taskOfRow :=
  ⟨by decide!, (C2_tasks_attach_by_project_id [sampleRoofRow]
    [sampleSurveyRow, sampleOrphanRow]).1 sampleRoofProject (by decide!)⟩

/-- C9: the ids of the normalised projects are pairwise distinct; every
normalised project carries the attributes of the last `Projects` row with its
id together with the tasks of all `Tasks` rows with that id; and every row
that passes the guard has its id among the normalised projects. -/
theorem C9_distinct_ids_last_row_wins (rows : List ProjectRow) (tasks : List TaskRow) :
    ((normaliseProjects rows tasks).map (fun p => p.id)).Nodup ∧
    (∀ p ∈ normaliseProjects rows tasks,
      ∃ r, (rows.filter (fun r => decide (r.ID.toNumber = p.id))).getLast? = some r ∧
        p = { projectOfRow p.id r with
          phaseTasks := (tasks.filter (fun t => decide (t.ProjectID.toNumber = p.id))).map
            taskOfRow }) ∧
    (∀ row ∈ rows, row.ID.toNumber.truthy = true →
      ∃ p ∈ normaliseProjects rows tasks, p.id = row.ID.toNumber) := by
  refine ⟨?_, ?_, ?_⟩
  · exact (ids_eq_keys rows tasks).nodup_iff.mpr (keys_buildProjectMap rows tasks).1
  · intro p hp
    exact ((mem_normaliseProjects_iff rows tasks p).mp hp).2
  · intro row hrow hk
    have hmem : row ∈ rows.filter (fun r => decide (r.ID.toNumber = row.ID.toNumber)) :=
      List.mem_filter.mpr ⟨hrow, by simp⟩
    cases hr : (rows.filter (fun r => decide (r.ID.toNumber = row.ID.toNumber))).getLast? with
    | none =>
      rw [List.getLast?_eq_none_iff] at hr
      rw [hr] at hmem
      exact absurd hmem (List.not_mem_nil _)
    | some r =>
      refine ⟨{ projectOfRow row.ID.toNumber r with
        phaseTasks := (tasks.filter
          (fun t => decide (t.ProjectID.toNumber = row.ID.toNumber))).map taskOfRow }, ?_, rfl⟩
      exact (mem_normaliseProjects_iff rows tasks _).mpr ⟨hk, r, hr, rfl⟩

/-- Witness for `C9_distinct_ids_last_row_wins`: two rows with id `1`; the
project kept is built from the second, and holds the task. -/
theorem C9_distinct_ids_last_row_wins_witness :
    sampleRoofProject ∈ normaliseProjects sampleRowsDuplicate [sampleSurveyRow] ∧
      ∃ r, (sampleRowsDuplicate.filter
          (fun r => decide (r.ID.toNumber = sampleRoofProject.id))).getLast? = some r ∧
        sampleRoofProject = { projectOfRow sampleRoofProject.id r with
          phaseTasks := ([sampleSurveyRow].filter
            (fun t => decide (t.ProjectID.toNumber = sampleRoofProject.id))).map taskOfRow } :=
  ⟨by decide!, (C9_distinct_ids_last_row_wins sampleRowsDuplicate [sampleSurveyRow]).2.1
    sampleRoofProject (by decide!)⟩

/-! ## Settled claims: the store, the filters, the weights and the cycles -/

theorem strictEq_str (v : Val) (x : String) : v.strictEq (Val.str x) = decide (v = Val.str x) := by
  cases v <;> simp [Val.strictEq]

theorem str_strictEq (v : Val) (x : String) : (Val.str x).strictEq v = decide (v = Val.str x) := by
  cases v <;> simp [Val.strictEq, eq_comm]

/-- C5: `getFilteredProjects` returns exactly the stored projects that pass both
filters (`"all"` passes everything), in stored order, and with both filters
`"all"` it returns the whole stored sequence. -/
theorem C5_filtered_projects_are_the_matching_ones (s : Store)
    (statusFilter siteFilter : String) :
    getFilteredProjects s statusFilter siteFilter =
        s.projects.filter (fun p =>
          decide ((statusFilter = "all" ∨ p.status = Val.str statusFilter) ∧
            (siteFilter = "all" ∨ p.site = Val.str siteFilter))) ∧
      (getFilteredProjects s statusFilter siteFilter).Sublist s.projects ∧
      getFilteredProjects s "all" "all" = s.projects := by
  refine ⟨?_, List.filter_sublist _, ?_⟩
  · unfold getFilteredProjects
    apply List.filter_congr
    intro p _
    simp [strictEq_str]
  · unfold getFilteredProjects
    simp

theorem lowerChar_of_ascii (c : Char) (h : c.toLower.toNat < 128) :
    lowerChar c = [c.toLower] := by
  unfold lowerChar
  have hlow : ∀ d : Char, ¬ (65 ≤ d.toNat ∧ d.toNat ≤ 90) → d.toLower = d := by
    intro d hd
    unfold Char.toLower
    exact if_neg hd
  by_cases h1 : c.toNat = 0x212A
  · exfalso
    rw [hlow c (by omega)] at h
    omega
  · by_cases h2 : c.toNat = 0x130
    · exfalso
      rw [hlow c (by omega)] at h
      omega
    · simp [h1, h2]

theorem toLowerCase_of_ascii (s lit : String) (hlit : ∀ c ∈ lit.data, c.toNat < 128)
    (h : s.data.map Char.toLower = lit.data) : toLowerCase s = lit := by
  have h1 : ∀ cs : List Char, (∀ c ∈ cs, c.toLower.toNat < 128) →
      cs.flatMap lowerChar = cs.map Char.toLower := by
    intro cs
    induction cs with
    | nil => intro _; rfl
    | cons c cs ih =>
      intro hc
      rw [List.flatMap_cons, List.map_cons, lowerChar_of_ascii c (hc c (List.mem_cons_self _ _)),
        ih (fun d hd => hc d (List.mem_cons_of_mem _ hd))]
      rfl
  have h2 : ∀ c ∈ s.data, c.toLower.toNat < 128 := by
    intro c hc
    apply hlit
    rw [← h]
    exact List.mem_map_of_mem _ hc
  unfold toLowerCase
  rw [h1 s.data h2, h]

theorem labelWeight_str (s : String) :
    labelWeight (Val.str s) = Except.ok
      (if toLowerCase s = "high" then 3
       else if toLowerCase s = "medium" then 2
       else if toLowerCase s = "low" then 1 else 0) := by
  unfold labelWeight Val.orElse
  by_cases h : s = ""
  · subst h
    rfl
  · simp only [Val.truthy, ne_eq, h, not_false_eq_true, decide_True, if_true]
    split_ifs <;> rfl

/-- C6: on every string `riskWeight` and `hsSeverityWeight` return `3`, `2` or
`1` when the lower-cased input is `high`, `medium` or `low` and `0` otherwise,
also for the empty and the absent input; so every spelling of `high`,
`medium`, `low` that differs only in letter case has weight `3`, `2`, `1`, and
`3 > 2 > 1 > 0`. -/
theorem C6_weights_total_case_insensitive (s : String) :
    riskWeight (Val.str s) = Except.ok
        (if toLowerCase s = "high" then 3
         else if toLowerCase s = "medium" then 2
         else if toLowerCase s = "low" then 1 else 0) ∧
      hsSeverityWeight (Val.str s) = riskWeight (Val.str s) ∧
      riskWeight Val.undef = Except.ok 0 ∧
      hsSeverityWeight Val.undef = Except.ok 0 ∧
      (s.data.map Char.toLower = "high".data → riskWeight (Val.str s) = Except.ok 3) ∧
      (s.data.map Char.toLower = "medium".data → riskWeight (Val.str s) = Except.ok 2) ∧
      (s.data.map Char.toLower = "low".data → riskWeight (Val.str s) = Except.ok 1) := by
  refine ⟨labelWeight_str s, rfl, rfl, rfl, ?_, ?_, ?_⟩
  · intro h
    have h1 := toLowerCase_of_ascii s "high" (by decide) h
    show labelWeight (Val.str s) = _
    rw [labelWeight_str, h1]
    rfl
  · intro h
    have h1 := toLowerCase_of_ascii s "medium" (by decide) h
    show labelWeight (Val.str s) = _
    rw [labelWeight_str, h1]
    rfl
  · intro h
    have h1 := toLowerCase_of_ascii s "low" (by decide) h
    show labelWeight (Val.str s) = _
    rw [labelWeight_str, h1]
    rfl

/-- Witness for `C6_weights_total_case_insensitive`: the spelling `HiGh`. -/
theorem C6_weights_total_case_insensitive_witness :
    "HiGh".data.map Char.toLower = "high".data ∧ riskWeight (Val.str "HiGh") = Except.ok 3 :=
  ⟨by decide, (C6_weights_total_case_insensitive "HiGh").2.2.2.2.1 (by decide)⟩

theorem nextStatus_of_unknown (a b c : String) (v : Val) (ha : v ≠ Val.str a)
    (hb : v ≠ Val.str b) (hc : v ≠ Val.str c) :
    nextStatus [Val.str a, Val.str b, Val.str c] v = Val.str b := by
  simp [nextStatus, indexOf, indexOfFrom, str_strictEq, ha, hb, hc]

/-- C7: `cycleTaskStatus` steps Not Started, In Progress, Done and back, and
`cycleProjectStatus` steps Planned, In Progress, Completed and back; from each
of the three valid statuses, three calls restore the entity. -/
theorem C7_three_cycles_restore_status (task : Task) (project : Project)
    (ht : task.status = Val.str "Not Started" ∨ task.status = Val.str "In Progress" ∨
      task.status = Val.str "Done")
    (hp : project.status = Val.str "Planned" ∨ project.status = Val.str "In Progress" ∨
      project.status = Val.str "Completed") :
    (cycleTaskStatus task).status =
        (if task.status = Val.str "Not Started" then Val.str "In Progress"
         else if task.status = Val.str "In Progress" then Val.str "Done"
         else Val.str "Not Started") ∧
      cycleTaskStatus (cycleTaskStatus (cycleTaskStatus task)) = task ∧
      (cycleProjectStatus project).status =
        (if project.status = Val.str "Planned" then Val.str "In Progress"
         else if project.status = Val.str "In Progress" then Val.str "Completed"
         else Val.str "Planned") ∧
      cycleProjectStatus (cycleProjectStatus (cycleProjectStatus project)) = project := by
  cases task
  cases project
  simp only at ht hp
  rcases ht with h | h | h <;> rcases hp with h1 | h1 | h1 <;> subst h <;> subst h1 <;>
    exact ⟨rfl, rfl, rfl, rfl⟩

/-- Witness for `C7_three_cycles_restore_status`: a started task and a planned
project. -/
theorem C7_three_cycles_restore_status_witness :
    cycleTaskStatus (cycleTaskStatus (cycleTaskStatus sampleStartedTask)) = sampleStartedTask ∧
      cycleProjectStatus (cycleProjectStatus (cycleProjectStatus sampleRoofProject)) =
        sampleRoofProject :=
  ⟨(C7_three_cycles_restore_status sampleStartedTask sampleRoofProject
      (Or.inr (Or.inl rfl)) (Or.inl rfl)).2.1,
    (C7_three_cycles_restore_status sampleStartedTask sampleRoofProject
      (Or.inr (Or.inl rfl)) (Or.inl rfl)).2.2.2⟩

/-- C8: one call of `cycleTaskStatus` on a task whose status is none of
Not Started, In Progress, Done sets it to In Progress, and one call of
`cycleProjectStatus` on a project whose status is none of Planned, In Progress,
Completed sets it to In Progress. -/
theorem C8_unknown_status_becomes_in_progress (task : Task) (project : Project)
    (ht : task.status ≠ Val.str "Not Started" ∧ task.status ≠ Val.str "In Progress" ∧
      task.status ≠ Val.str "Done")
    (hp : project.status ≠ Val.str "Planned" ∧ project.status ≠ Val.str "In Progress" ∧
      project.status ≠ Val.str "Completed") :
    (cycleTaskStatus task).status = Val.str "In Progress" ∧
      (cycleProjectStatus project).status = Val.str "In Progress" :=
  ⟨nextStatus_of_unknown _ _ _ task.status ht.1 ht.2.1 ht.2.2,
    nextStatus_of_unknown _ _ _ project.status hp.1 hp.2.1 hp.2.2⟩

/-- Witness for `C8_unknown_status_becomes_in_progress`: a task marked Blocked
and a project marked On Hold. -/
theorem C8_unknown_status_becomes_in_progress_witness :
    (cycleTaskStatus sampleBlockedTask).status = Val.str "In Progress" ∧
      (cycleProjectStatus sampleOnHoldProject).status = Val.str "In Progress" :=
  C8_unknown_status_becomes_in_progress sampleBlockedTask sampleOnHoldProject
    (by decide) (by decide)

/-- C10: `setProjects` replaces the stored projects and leaves the other
sequences alone; with a null cursor and a non-empty new sequence the cursor
becomes the id of the first new project; a cursor holding an id (a number
other than `NaN` and zero, as every normalised id is), or an empty new
sequence, leaves the cursor unchanged. -/
theorem C10_setProjects_selects_first_when_unselected (s : Store)
    (newProjects : List Project) :
    (setProjects s newProjects).projects = newProjects ∧
      (setProjects s newProjects).contractors = s.contractors ∧
      (setProjects s newProjects).hsWarnings = s.hsWarnings ∧
      (setProjects s newProjects).projectContractorLinks = s.projectContractorLinks ∧
      (∀ p rest, s.selectedProjectId = none → newProjects = p :: rest →
        (setProjects s newProjects).selectedProjectId = some p.id) ∧
      (∀ id, s.selectedProjectId = some id → id.truthy = true →
        (setProjects s newProjects).selectedProjectId = some id) ∧
      (newProjects = [] → (setProjects s newProjects).selectedProjectId = s.selectedProjectId) := by
  refine ⟨?_, ?_, ?_, ?_, ?_, ?_, ?_⟩
  · unfold setProjects
    cases newProjects <;> simp only [] <;> split_ifs <;> rfl
  · unfold setProjects
    cases newProjects <;> simp only [] <;> split_ifs <;> rfl
  · unfold setProjects
    cases newProjects <;> simp only [] <;> split_ifs <;> rfl
  · unfold setProjects
    cases newProjects <;> simp only [] <;> split_ifs <;> rfl
  · intro p rest h1 h2
    subst h2
    simp [setProjects, Store.cursorFalsy, h1]
  · intro id h1 h2
    cases newProjects with
    | nil => simp [setProjects, h1]
    | cons p rest => simp [setProjects, Store.cursorFalsy, h1, h2]
  · intro h
    subst h
    rfl

/-- Witness for `C10_setProjects_selects_first_when_unselected`: loading the
roof project into the empty store selects it; loading nothing into a store
with a selection keeps the selection. -/
theorem C10_setProjects_selects_first_when_unselected_witness :
    (setProjects {} [sampleRoofProject]).selectedProjectId = some sampleRoofProject.id ∧
      (setProjects sampleStore [sampleProjectSeven]).selectedProjectId = some (JSNum.fin 1) ∧
      (setProjects sampleStore []).selectedProjectId = sampleStore.selectedProjectId :=
  ⟨(C10_setProjects_selects_first_when_unselected {} [sampleRoofProject]).2.2.2.2.1
      sampleRoofProject [] rfl rfl,
    (C10_setProjects_selects_first_when_unselected sampleStore [sampleProjectSeven]).2.2.2.2.2.1
      (JSNum.fin 1) rfl (by decide),
    (C10_setProjects_selects_first_when_unselected sampleStore []).2.2.2.2.2.2 rfl⟩

/-! ## Rounding to binary64: bounds -/

theorem rat_floor_eq (q : Rat) : Rat.floor q = ⌊q⌋ := rfl

theorem roundHalfEven_eq (z : Rat) :
    roundHalfEven z =
      if z - (⌊z⌋ : Rat) < 1 / 2 then ⌊z⌋
      else if 1 / 2 < z - (⌊z⌋ : Rat) then ⌊z⌋ + 1
      else if ⌊z⌋ % 2 = 0 then ⌊z⌋ else ⌊z⌋ + 1 := rfl

theorem roundHalfEven_bounds (z : Rat) :
    ⌊z⌋ ≤ roundHalfEven z ∧ roundHalfEven z ≤ ⌊z⌋ + 1 ∧
      (z - (⌊z⌋ : Rat) < 1 / 2 → roundHalfEven z = ⌊z⌋) ∧
      (1 / 2 < z - (⌊z⌋ : Rat) → roundHalfEven z = ⌊z⌋ + 1) := by
  rw [roundHalfEven_eq]
  by_cases h1 : z - (⌊z⌋ : Rat) < 1 / 2
  · rw [if_pos h1]
    exact ⟨le_refl _, by omega, fun _ => rfl, fun h2 => absurd h1 (not_lt.mpr h2.le)⟩
  · rw [if_neg h1]
    by_cases h2 : 1 / 2 < z - (⌊z⌋ : Rat)
    · rw [if_pos h2]
      exact ⟨by omega, le_refl _, fun h3 => absurd h3 h1, fun _ => rfl⟩
    · rw [if_neg h2]
      refine ⟨?_, ?_, fun h3 => absurd h3 h1, fun h3 => absurd h3 h2⟩
      · split_ifs <;> omega
      · split_ifs <;> omega

theorem roundHalfEven_le (z : Rat) (N : Int) (h : z ≤ (N : Rat)) : roundHalfEven z ≤ N := by
  obtain ⟨_, h2, h3, _⟩ := roundHalfEven_bounds z
  have hf : ⌊z⌋ ≤ N := Int.cast_le.mp ((Int.floor_le z).trans h)
  by_cases h4 : z - (⌊z⌋ : Rat) < 1 / 2
  · rw [h3 h4]
    exact hf
  · have h5 : (⌊z⌋ : Rat) < (N : Rat) := by linarith
    have h6 : ⌊z⌋ < N := Int.cast_lt.mp h5
    omega

theorem roundHalfEven_nonneg (z : Rat) (h : 0 ≤ z) : 0 ≤ roundHalfEven z := by
  obtain ⟨h1, _⟩ := roundHalfEven_bounds z
  exact (Int.floor_nonneg.mpr h).trans h1

theorem roundHalfEven_err (z : Rat) : |(roundHalfEven z : Rat) - z| ≤ 1 / 2 := by
  obtain ⟨_, _, h3, h4⟩ := roundHalfEven_bounds z
  have hf1 := Int.floor_le z
  have hf2 := Int.lt_floor_add_one z
  rw [abs_le]
  by_cases h5 : z - (⌊z⌋ : Rat) < 1 / 2
  · rw [h3 h5]
    constructor <;> linarith
  · by_cases h6 : 1 / 2 < z - (⌊z⌋ : Rat)
    · rw [h4 h6]
      push_cast
      constructor <;> linarith
    · have h7 : z - (⌊z⌋ : Rat) = 1 / 2 := le_antisymm (not_lt.mp h6) (not_lt.mp h5)
      obtain ⟨h1, h2, _, _⟩ := roundHalfEven_bounds z
      have h8 : ((⌊z⌋ : Int) : Rat) ≤ (roundHalfEven z : Rat) := Int.cast_le.mpr h1
      have h9 : (roundHalfEven z : Rat) ≤ ((⌊z⌋ + 1 : Int) : Rat) := Int.cast_le.mpr h2
      push_cast at h9
      constructor <;> linarith

theorem log2Fuel_eq (fuel n : Nat) (h : n ≤ fuel) : log2Fuel fuel n = Nat.log 2 n := by
  induction fuel generalizing n with
  | zero =>
    have h0 : n = 0 := by omega
    subst h0
    simp [log2Fuel]
  | succ f ih =>
    unfold log2Fuel
    by_cases h2 : 2 ≤ n
    · rw [if_pos h2, ih (n / 2) (by omega), Nat.log_div_base]
      have h3 := Nat.log_pos (b := 2) (by norm_num) h2
      omega
    · rw [if_neg h2, Nat.log_of_lt (by omega)]

theorem natLog2_eq (n : Nat) : natLog2 n = Nat.log 2 n := log2Fuel_eq n n (le_refl n)

theorem natLog2_le (n d k : Nat) (hd : d ≠ 0) (h : n ≤ 2 ^ k * d) :
    natLog2 n ≤ k + natLog2 d := by
  rw [natLog2_eq, natLog2_eq]
  have h1 : ∀ j : Nat, Nat.log 2 (d * 2 ^ j) = Nat.log 2 d + j := by
    intro j
    induction j with
    | zero => simp
    | succ j ih =>
      rw [pow_succ, ← mul_assoc, Nat.log_mul_base (by norm_num) (by positivity), ih]
      omega
  calc Nat.log 2 n ≤ Nat.log 2 (d * 2 ^ k) := Nat.log_mono_right (by rw [mul_comm]; exact h)
    _ = k + Nat.log 2 d := by rw [h1 k, add_comm]

theorem pow2_pos (p : Int) : 0 < pow2 p := by
  unfold pow2
  split_ifs <;> positivity

theorem pow2_of_nonpos (p : Int) (h : p ≤ 0) : pow2 p = 1 / (2 : Rat) ^ (-p).toNat := by
  unfold pow2
  by_cases h1 : 0 ≤ p
  · have h2 : p = 0 := le_antisymm h h1
    subst h2
    simp
  · rw [if_neg h1]
    push_cast
    rfl

theorem floorLog2_le (q : Rat) (hq : 0 < q) (B k : Nat) (hB : q ≤ (B : Rat)) (hk : B ≤ 2 ^ k) :
    floorLog2 q ≤ (k : Int) := by
  have hnum : 0 < q.num := Rat.num_pos.mpr hq
  have h1 : q.num ≤ (B : Int) * q.den := by
    have h2 : (q.num : Rat) ≤ (B : Rat) * (q.den : Rat) := by
      rw [← Rat.mul_den_eq_num q]
      exact mul_le_mul_of_nonneg_right hB (by positivity)
    exact_mod_cast h2
  have h3 : q.num.natAbs ≤ 2 ^ k * q.den := by
    have h4 : (q.num.natAbs : Int) = q.num := Int.natAbs_of_nonneg hnum.le
    have h5 : (q.num.natAbs : Int) ≤ ((B * q.den : Nat) : Int) := by
      rw [h4]
      exact_mod_cast h1
    have h6 : q.num.natAbs ≤ B * q.den := Int.ofNat_le.mp h5
    exact h6.trans (Nat.mul_le_mul_right _ hk)
  have h7 := natLog2_le q.num.natAbs q.den k q.den_ne_zero h3
  unfold floorLog2
  simp only []
  split_ifs <;> omega

/-- A positive rational below a natural number `B ≤ 2 ^ k`, `k ≤ 52`, rounds to
a finite double between `0` and `B`, at distance at most `2 ^ k / 2 ^ 53`. -/
theorem roundToDouble_bounds (q : Rat) (hq : 0 < q) (B k : Nat) (hB : q ≤ (B : Rat))
    (hk : B ≤ 2 ^ k) (hk52 : k ≤ 52) :
    ∃ v : Rat, roundToDouble q = JSNum.fin v ∧ 0 ≤ v ∧ v ≤ (B : Rat) ∧
      |v - q| ≤ (2 : Rat) ^ k / 2 ^ 53 := by
  have hfl := floorLog2_le q hq B k hB hk
  obtain ⟨p, hp⟩ : ∃ p : Int, p = max (floorLog2 q) (-1022) - 52 := ⟨_, rfl⟩
  have hple : p ≤ (k : Int) - 52 := by
    have h1 : max (floorLog2 q) (-1022) ≤ (k : Int) := max_le hfl (by omega)
    omega
  have hp0 : p ≤ 0 := by omega
  obtain ⟨n, hn⟩ : ∃ n : Nat, n = (-p).toNat := ⟨_, rfl⟩
  have hnk : 52 ≤ n + k := by omega
  have hpow : pow2 p = 1 / (2 : Rat) ^ n := by rw [hn]; exact pow2_of_nonpos p hp0
  have h2n : (0 : Rat) < 2 ^ n := by positivity
  have hz : q / pow2 p = q * 2 ^ n := by
    rw [hpow]
    field_simp
  have hzN : q * 2 ^ n ≤ ((B * 2 ^ n : Nat) : Int) := by
    push_cast
    exact mul_le_mul_of_nonneg_right hB h2n.le
  have hr1 := roundHalfEven_le (q * 2 ^ n) _ hzN
  have hr2 := roundHalfEven_nonneg (q * 2 ^ n) (by positivity)
  have hr3 := roundHalfEven_err (q * 2 ^ n)
  have hv : (roundHalfEven (q / pow2 p) : Rat) * pow2 p =
      (roundHalfEven (q * 2 ^ n) : Rat) / 2 ^ n := by
    rw [hz, hpow]
    field_simp
  have hr1q : (roundHalfEven (q * 2 ^ n) : Rat) ≤ (B : Rat) * 2 ^ n := by
    have h3 : ((roundHalfEven (q * 2 ^ n) : Int) : Rat) ≤ (((B * 2 ^ n : Nat) : Int) : Rat) :=
      Int.cast_le.mpr hr1
    push_cast at h3
    exact h3
  have hr2q : (0 : Rat) ≤ (roundHalfEven (q * 2 ^ n) : Rat) := by exact_mod_cast hr2
  have hvB : (roundHalfEven (q * 2 ^ n) : Rat) / 2 ^ n ≤ (B : Rat) := by
    rw [div_le_iff₀ h2n]
    exact hr1q
  have hBk : (B : Rat) ≤ 2 ^ k := by exact_mod_cast hk
  have hbig : (2 : Rat) ^ k < pow2 1024 := by
    have h4 : pow2 1024 = (2 : Rat) ^ 1024 := by
      unfold pow2
      rw [if_pos (by norm_num)]
      have h5 : (1024 : Int).toNat = 1024 := rfl
      rw [h5, Nat.cast_pow, Nat.cast_ofNat]
    rw [h4]
    exact pow_lt_pow_right₀ (by norm_num) (by omega)
  refine ⟨(roundHalfEven (q * 2 ^ n) : Rat) / 2 ^ n, ?_, by positivity, hvB, ?_⟩
  · unfold roundToDouble
    rw [if_neg hq.ne']
    simp only [abs_of_pos hq, ← hp, hv]
    rw [if_neg (not_le.mpr (lt_of_le_of_lt (hvB.trans hBk) hbig)), if_neg (not_lt.mpr hq.le)]
  · have h5 : (roundHalfEven (q * 2 ^ n) : Rat) / 2 ^ n - q =
        ((roundHalfEven (q * 2 ^ n) : Rat) - q * 2 ^ n) / 2 ^ n := by
      field_simp
      ring
    rw [h5, abs_div, abs_of_pos h2n, div_le_div_iff h2n (by positivity)]
    have h6 : (2 : Rat) ^ 53 ≤ 2 * (2 ^ n * 2 ^ k) := by
      rw [← pow_add, ← pow_succ']
      exact pow_le_pow_right₀ (by norm_num) (by omega)
    have h7 : (0 : Rat) ≤ |(roundHalfEven (q * 2 ^ n) : Rat) - q * 2 ^ n| := abs_nonneg _
    nlinarith [hr3, h6, h7]

/-! ## Settled claims: the statistics -/

theorem countTasks_inner (tasks : List Task) (c : Nat × Nat) :
    tasks.foldl (fun c t =>
        (c.1 + 1, if t.status.strictEq (Val.str "Done") then c.2 + 1 else c.2)) c =
      (c.1 + tasks.length,
        c.2 + tasks.countP (fun t => decide (t.status = Val.str "Done"))) := by
  induction tasks generalizing c with
  | nil => simp
  | cons t tasks ih =>
    rw [List.foldl_cons, ih, List.length_cons, List.countP_cons, strictEq_str]
    by_cases h : t.status = Val.str "Done"
    · simp [h]
      omega
    · simp [h]
      omega

theorem countTasks_from (projects : List Project) (c : Nat × Nat) :
    projects.foldl (fun acc p =>
        p.phaseTasks.foldl (fun c t =>
          (c.1 + 1, if t.status.strictEq (Val.str "Done") then c.2 + 1 else c.2)) acc) c =
      (c.1 + specTaskCount projects, c.2 + specCompletedCount projects) := by
  induction projects generalizing c with
  | nil => simp [specTaskCount, specCompletedCount]
  | cons p projects ih =>
    rw [List.foldl_cons, countTasks_inner, ih]
    simp [specTaskCount, specCompletedCount]
    omega

theorem countTasks_eq (projects : List Project) :
    countTasks projects = (specTaskCount projects, specCompletedCount projects) := by
  unfold countTasks
  rw [countTasks_from]
  simp

theorem specCompletedCount_le (projects : List Project) :
    specCompletedCount projects ≤ specTaskCount projects := by
  unfold specCompletedCount specTaskCount
  induction projects with
  | nil => simp
  | cons p projects ih =>
    simp only [List.map_cons, List.sum_cons]
    exact Nat.add_le_add (List.countP_le_length _) ih

theorem roundToDouble_zero : roundToDouble 0 = JSNum.fin 0 := by
  unfold roundToDouble
  rw [if_pos rfl]

/-- The double computed by `(completedCount / taskCount) * 100` is finite, lies
between `0` and `100`, and is within `228 / 2 ^ 53` of the exact value. -/
theorem percent_bounds (c t : Nat) (ht : 0 < t) (hct : c ≤ t) :
    ∃ y : Rat, (JSNum.divNat c t).mul (JSNum.fin 100) = JSNum.fin y ∧ 0 ≤ y ∧ y ≤ 100 ∧
      |y - 100 * (c : Rat) / (t : Rat)| ≤ 228 / 2 ^ 53 := by
  have htq : (0 : Rat) < (t : Rat) := by exact_mod_cast ht
  by_cases hc : c = 0
  · subst hc
    refine ⟨0, ?_, le_refl _, by norm_num, ?_⟩
    · simp [JSNum.divNat, JSNum.mul, roundToDouble_zero]
    · simp
      positivity
  · have hcq : (0 : Rat) < (c : Rat) := by exact_mod_cast Nat.pos_of_ne_zero hc
    have hq : (0 : Rat) < (c : Rat) / (t : Rat) := div_pos hcq htq
    have hq1 : (c : Rat) / (t : Rat) ≤ ((1 : Nat) : Rat) := by
      rw [div_le_iff₀ htq]
      push_cast
      rw [one_mul]
      exact_mod_cast hct
    obtain ⟨v, hv, hv0, hv1, hverr⟩ :=
      roundToDouble_bounds ((c : Rat) / (t : Rat)) hq 1 0 hq1 (by norm_num) (by norm_num)
    push_cast at hv1
    have hverr1 : |v - (c : Rat) / (t : Rat)| ≤ 1 / 2 ^ 53 := by simpa using hverr
    have hE : 100 * (c : Rat) / (t : Rat) = 100 * ((c : Rat) / (t : Rat)) := by ring
    rw [abs_le] at hverr1
    by_cases hvz : v = 0
    · refine ⟨0, ?_, le_refl _, by norm_num, ?_⟩
      · simp [JSNum.divNat, hv, hvz, JSNum.mul, roundToDouble_zero]
      · rw [hE, abs_le]
        rw [hvz] at hverr1
        constructor <;> linarith [hverr1.1, hverr1.2]
    · have hvpos : 0 < v * 100 := by
        have h1 : 0 < v := lt_of_le_of_ne hv0 (Ne.symm hvz)
        positivity
      have hv100 : v * 100 ≤ ((100 : Nat) : Rat) := by
        push_cast
        linarith
      obtain ⟨y, hy, hy0, hy1, hyerr⟩ :=
        roundToDouble_bounds (v * 100) hvpos 100 7 hv100 (by norm_num) (by norm_num)
      push_cast at hy1
      refine ⟨y, ?_, hy0, hy1, ?_⟩
      · simp [JSNum.divNat, hv, JSNum.mul, hy]
      · rw [hE, abs_le]
        rw [abs_le] at hyerr
        constructor <;> linarith [hverr1.1, hverr1.2, hyerr.1, hyerr.2]

/-- `Math.round` of that double: an integer from `0` to `100`, and within one
half of the exact percentage when there are at most `2 ^ 44` tasks. -/
theorem progress_bounds (c t : Nat) (ht : 0 < t) (hct : c ≤ t) :
    ∃ k : Int, mathRound ((JSNum.divNat c t).mul (JSNum.fin 100)) = JSNum.fin (k : Rat) ∧
      0 ≤ k ∧ k ≤ 100 ∧
      (t ≤ 2 ^ 44 → |(k : Rat) - 100 * (c : Rat) / (t : Rat)| ≤ 1 / 2) := by
  obtain ⟨y, hy, hy0, hy1, hyerr⟩ := percent_bounds c t ht hct
  have htq : (0 : Rat) < (t : Rat) := by exact_mod_cast ht
  have hk1 : ((⌊y + 1 / 2⌋ : Int) : Rat) ≤ y + 1 / 2 := Int.floor_le _
  have hk2 : y + 1 / 2 < ((⌊y + 1 / 2⌋ : Int) : Rat) + 1 := Int.lt_floor_add_one _
  refine ⟨⌊y + 1 / 2⌋, ?_, ?_, ?_, ?_⟩
  · rw [hy]
    rfl
  · exact Int.floor_nonneg.mpr (by linarith)
  · have h1 : ⌊y + 1 / 2⌋ < 101 := Int.floor_lt.mpr (by push_cast; linarith)
    omega
  · intro ht44
    have ht44q : (t : Rat) ≤ 2 ^ 44 := by exact_mod_cast ht44
    rw [abs_le] at hyerr
    obtain ⟨m, hm⟩ : ∃ m : Int, m = 2 * (t : Int) * ⌊y + 1 / 2⌋ - 200 * (c : Int) := ⟨_, rfl⟩
    have hmq : (m : Rat) = 2 * (t : Rat) * ((⌊y + 1 / 2⌋ : Int) : Rat) - 200 * (c : Rat) := by
      rw [hm]
      push_cast
      ring
    have hE : 100 * (c : Rat) / (t : Rat) * (2 * (t : Rat)) = 200 * (c : Rat) := by
      field_simp
      ring
    have hsmall : 2 * (t : Rat) * (228 / 2 ^ 53) < 1 := by
      have h3 : 2 * (t : Rat) * (228 / 2 ^ 53) ≤ 2 * 2 ^ 44 * (228 / 2 ^ 53) := by
        apply mul_le_mul_of_nonneg_right _ (by positivity)
        linarith
      have h4 : (2 : Rat) * 2 ^ 44 * (228 / 2 ^ 53) < 1 := by norm_num
      linarith
    have hup : (m : Rat) < (t : Rat) + 1 := by
      rw [hmq]
      nlinarith [hk1, hyerr.2, hE, hsmall, htq]
    have hlo : -(t : Rat) - 1 < (m : Rat) := by
      rw [hmq]
      nlinarith [hk2, hyerr.1, hE, hsmall, htq]
    have hup1 : m ≤ (t : Int) := by
      have h5 : m < (t : Int) + 1 := by exact_mod_cast hup
      omega
    have hlo1 : -(t : Int) ≤ m := by
      have h5 : -(t : Int) - 1 < m := by exact_mod_cast hlo
      omega
    have hupq : (m : Rat) ≤ (t : Rat) := by exact_mod_cast hup1
    have hloq : -(t : Rat) ≤ (m : Rat) := by exact_mod_cast hlo1
    have hdiff : ((⌊y + 1 / 2⌋ : Int) : Rat) - 100 * (c : Rat) / (t : Rat) =
        (m : Rat) / (2 * (t : Rat)) := by
      rw [hmq]
      field_simp
      ring
    rw [hdiff, abs_le]
    constructor
    · rw [le_div_iff₀ (by positivity)]
      linarith
    · rw [div_le_iff₀ (by positivity)]
      linarith

theorem computeStats_eq (s : Store) :
    computeStats s =
      { projectCount := s.projects.length
        taskCount := specTaskCount s.projects
        completedCount := specCompletedCount s.projects
        progress :=
          if specTaskCount s.projects = 0 then JSNum.fin 0
          else mathRound ((JSNum.divNat (specCompletedCount s.projects)
            (specTaskCount s.projects)).mul (JSNum.fin 100)) } := by
  unfold computeStats
  rw [countTasks_eq]

theorem specProgress_of_nearest (c t : Nat) (ht : 0 < t) (k : Int)
    (hk : |(k : Rat) - 100 * (c : Rat) / (t : Rat)| ≤ 1 / 2)
    (htie : (200 * c + t) % (2 * t) ≠ 0) : k = specProgress c t := by
  have htq : (0 : Rat) < (t : Rat) := by exact_mod_cast ht
  unfold specProgress
  rw [if_neg (by omega), rat_floor_eq]
  rw [abs_le] at hk
  have hf1 := Int.floor_le (100 * (c : Rat) / (t : Rat) + 1 / 2)
  have hf2 := Int.lt_floor_add_one (100 * (c : Rat) / (t : Rat) + 1 / 2)
  have hne : ((⌊100 * (c : Rat) / (t : Rat) + 1 / 2⌋ : Int) : Rat) ≠
      100 * (c : Rat) / (t : Rat) + 1 / 2 := by
    intro heq
    apply htie
    have h1 : ((⌊100 * (c : Rat) / (t : Rat) + 1 / 2⌋ : Int) : Rat) * (2 * (t : Rat)) =
        200 * (c : Rat) + (t : Rat) := by
      rw [heq]
      field_simp
      ring
    have h2 : ⌊100 * (c : Rat) / (t : Rat) + 1 / 2⌋ * ((2 * t : Nat) : Int) =
        ((200 * c + t : Nat) : Int) := by
      have h3 : ((⌊100 * (c : Rat) / (t : Rat) + 1 / 2⌋ * ((2 * t : Nat) : Int) : Int) : Rat) =
          (((200 * c + t : Nat) : Int) : Rat) := by
        push_cast
        exact h1
      exact Int.cast_injective h3
    have h4 : ((2 * t : Nat) : Int) ∣ ((200 * c + t : Nat) : Int) := ⟨_, by rw [← h2, mul_comm]⟩
    exact Nat.mod_eq_zero_of_dvd (Int.natCast_dvd_natCast.mp h4)
  have hlt : ((⌊100 * (c : Rat) / (t : Rat) + 1 / 2⌋ : Int) : Rat) <
      100 * (c : Rat) / (t : Rat) + 1 / 2 := lt_of_le_of_ne hf1 hne
  have hle : k ≤ ⌊100 * (c : Rat) / (t : Rat) + 1 / 2⌋ := Int.le_floor.mpr (by linarith)
  have hge : ⌊100 * (c : Rat) / (t : Rat) + 1 / 2⌋ - 1 < k := by
    have h5 : ((⌊100 * (c : Rat) / (t : Rat) + 1 / 2⌋ - 1 : Int) : Rat) < (k : Rat) := by
      push_cast
      linarith
    exact Int.cast_lt.mp h5
  omega

/-- C3, as stated, fails on the progress figure.  With 23 of 40 tasks done the
exact percentage is `57.5`, which rounds to `58`, and `computeStats` returns
`57`, because the double `(23 / 40) * 100` lies just below `57.5`; with 1 of 8
done the exact percentage `12.5` is rounded up to `13`.  So no rule for
rounding the exact quotient gives the returned value. -/
theorem C3_progress_is_not_the_rounded_exact_quotient :
    specTaskCount (sampleStoreOfCounts 23 17).projects = 40 ∧
      specCompletedCount (sampleStoreOfCounts 23 17).projects = 23 ∧
      specProgress 23 40 = 58 ∧
      (computeStats (sampleStoreOfCounts 23 17)).progress = JSNum.fin 57 ∧
      (computeStats (sampleStoreOfCounts 23 17)).progress ≠
        JSNum.fin (specProgress (specCompletedCount (sampleStoreOfCounts 23 17).projects)
          (specTaskCount (sampleStoreOfCounts 23 17).projects)) ∧
      (computeStats (sampleStoreOfCounts 1 7)).progress = JSNum.fin 13 := by
  decide!

/-- C3, amended: `computeStats` returns the number of projects, the total
number of tasks and the number of tasks whose status is exactly `Done`;
`progress` is `0` without tasks; with tasks (at most `2 ^ 44`) it is an integer
within one half of `100 * completedCount / taskCount`, hence equal to that
quotient rounded to the nearest integer whenever the quotient is not exactly
half-way between two integers. -/
theorem C3_stats_counts_and_nearest_progress (s : Store) :
    (computeStats s).projectCount = s.projects.length ∧
      (computeStats s).taskCount = specTaskCount s.projects ∧
      (computeStats s).completedCount = specCompletedCount s.projects ∧
      (specTaskCount s.projects = 0 → (computeStats s).progress = JSNum.fin 0) ∧
      (0 < specTaskCount s.projects → specTaskCount s.projects ≤ 2 ^ 44 →
        ∃ k : Int, (computeStats s).progress = JSNum.fin (k : Rat) ∧
          |(k : Rat) - 100 * (specCompletedCount s.projects : Rat) /
            (specTaskCount s.projects : Rat)| ≤ 1 / 2 ∧
          ((200 * specCompletedCount s.projects + specTaskCount s.projects) %
              (2 * specTaskCount s.projects) ≠ 0 →
            k = specProgress (specCompletedCount s.projects) (specTaskCount s.projects))) := by
  rw [computeStats_eq]
  refine ⟨rfl, rfl, rfl, ?_, ?_⟩
  · intro h
    simp only [h, if_true]
  · intro hpos hle
    obtain ⟨k, hk, _, _, hnear⟩ := progress_bounds (specCompletedCount s.projects)
      (specTaskCount s.projects) hpos (specCompletedCount_le s.projects)
    refine ⟨k, ?_, hnear hle, fun htie => specProgress_of_nearest _ _ hpos k (hnear hle) htie⟩
    simp only [if_neg (Nat.pos_iff_ne_zero.mp hpos)]
    exact hk

/-- Witness for `C3_stats_counts_and_nearest_progress`: one task done of three,
a percentage that is not half-way, gives `33`. -/
theorem C3_stats_counts_and_nearest_progress_witness :
    0 < specTaskCount (sampleStoreOfCounts 1 2).projects ∧
      specTaskCount (sampleStoreOfCounts 1 2).projects ≤ 2 ^ 44 ∧
      ∃ k : Int, (computeStats (sampleStoreOfCounts 1 2)).progress = JSNum.fin (k : Rat) ∧
        |(k : Rat) - 100 * (specCompletedCount (sampleStoreOfCounts 1 2).projects : Rat) /
          (specTaskCount (sampleStoreOfCounts 1 2).projects : Rat)| ≤ 1 / 2 ∧
        ((200 * specCompletedCount (sampleStoreOfCounts 1 2).projects +
            specTaskCount (sampleStoreOfCounts 1 2).projects) %
            (2 * specTaskCount (sampleStoreOfCounts 1 2).projects) ≠ 0 →
          k = specProgress (specCompletedCount (sampleStoreOfCounts 1 2).projects)
            (specTaskCount (sampleStoreOfCounts 1 2).projects)) :=
  ⟨by decide, by decide,
    (C3_stats_counts_and_nearest_progress (sampleStoreOfCounts 1 2)).2.2.2.2
      (by decide) (by decide)⟩

/-- C4: the progress returned by `computeStats` is an integer from `0` to
`100`, the completed count is at most the task count, and the progress is `0`
when there is no task. -/
theorem C4_progress_within_bounds (s : Store) :
    (∃ k : Int, (computeStats s).progress = JSNum.fin (k : Rat) ∧ 0 ≤ k ∧ k ≤ 100) ∧
      (computeStats s).completedCount ≤ (computeStats s).taskCount ∧
      ((computeStats s).taskCount = 0 → (computeStats s).progress = JSNum.fin 0) := by
  rw [computeStats_eq]
  refine ⟨?_, specCompletedCount_le s.projects, ?_⟩
  · by_cases h : specTaskCount s.projects = 0
    · exact ⟨0, by simp [h], le_refl _, by norm_num⟩
    · obtain ⟨k, hk, hk0, hk1, _⟩ := progress_bounds (specCompletedCount s.projects)
        (specTaskCount s.projects) (Nat.pos_of_ne_zero h) (specCompletedCount_le s.projects)
      refine ⟨k, ?_, hk0, hk1⟩
      simp only [if_neg h]
      exact hk
  · intro h
    have h1 : specTaskCount s.projects = 0 := h
    simp only [h1, if_true]

/-- Witness for `C4_progress_within_bounds`: the empty store has no task and
progress `0`. -/
theorem C4_progress_within_bounds_witness :
    (computeStats {}).taskCount = 0 ∧ (computeStats {}).progress = JSNum.fin 0 :=
  ⟨rfl, (C4_progress_within_bounds {}).2.2 rfl⟩

/-! ## The loops over contractor, warning and link rows -/

theorem forEachPush_ok_from {ρ α : Type} (body : ρ → Except JSError (Option α))
    (f : ρ → Option α) (rows : List ρ) (acc : List α)
    (h : ∀ r ∈ rows, body r = Except.ok (f r)) :
    rows.foldlM (fun acc row =>
      (body row).map (fun r =>
        match r with
        | none => acc
        | some a => acc ++ [a])) acc = Except.ok (acc ++ rows.filterMap f) := by
  induction rows generalizing acc with
  | nil => simp [pure, Except.pure]
  | cons r rows ih =>
    have ih1 := fun acc => ih acc (fun x hx => h x (List.mem_cons_of_mem _ hx))
    have hb := h r (List.mem_cons_self _ _)
    rw [List.foldlM_cons, hb]
    cases hf : f r with
    | none =>
      show List.foldlM _ acc rows = _
      rw [ih1 acc, List.filterMap_cons, hf]
    | some a =>
      show List.foldlM _ (acc ++ [a]) rows = _
      rw [ih1 (acc ++ [a]), List.filterMap_cons, hf]
      simp

theorem forEachPush_all_ok {ρ α : Type} (body : ρ → Except JSError (Option α))
    (rows : List ρ) (acc out : List α)
    (h : rows.foldlM (fun acc row =>
      (body row).map (fun r =>
        match r with
        | none => acc
        | some a => acc ++ [a])) acc = Except.ok out) :
    ∀ r ∈ rows, ∃ x, body r = Except.ok x := by
  induction rows generalizing acc with
  | nil => simp
  | cons r rows ih =>
    rw [List.foldlM_cons] at h
    cases hb : body r with
    | error e =>
      rw [hb] at h
      exact absurd h (by intro h1; cases h1)
    | ok x =>
      rw [hb] at h
      intro r1 hr1
      rcases List.mem_cons.mp hr1 with h1 | h1
      · exact ⟨x, by rw [h1, hb]⟩
      · exact ih _ h r1 h1

/-- A loop whose body, whenever it does not raise, yields `f row`: if the loop
completes its result is `rows.filterMap f`. -/
theorem forEachPush_eq {ρ α : Type} (body : ρ → Except JSError (Option α))
    (f : ρ → Option α) (rows : List ρ) (out : List α)
    (hf : ∀ r x, body r = Except.ok x → x = f r)
    (h : forEachPush body rows = Except.ok out) : out = rows.filterMap f := by
  have h1 := forEachPush_all_ok body rows [] out h
  have h2 : ∀ r ∈ rows, body r = Except.ok (f r) := by
    intro r hr
    obtain ⟨x, hx⟩ := h1 r hr
    rw [hx, hf r x hx]
  have h3 := forEachPush_ok_from body f rows [] h2
  have h4 : Except.ok out = Except.ok ([] ++ rows.filterMap f) := h.symm.trans h3
  simpa using Except.ok.inj h4

theorem forEachPush_ok {ρ α : Type} (body : ρ → Except JSError (Option α))
    (f : ρ → Option α) (rows : List ρ) (h : ∀ r ∈ rows, body r = Except.ok (f r)) :
    forEachPush body rows = Except.ok (rows.filterMap f) := by
  exact (forEachPush_ok_from body f rows [] h).trans (by simp)

theorem jsTrim_empty : jsTrim "" = "" := by decide

theorem trimText_eq (v : Val) :
    trimText v = if v.isText then Except.ok (specText v) else Except.error JSError.typeError := by
  cases v with
  | undef => rfl
  | bool b => cases b <;> rfl
  | num n =>
    unfold trimText Val.isText Val.orElse
    by_cases h : (Val.num n).truthy = true
    · simp [h]
    · simp [h, specText, jsTrim_empty]
  | str s =>
    unfold trimText Val.isText Val.orElse
    by_cases h : (Val.str s).truthy = true
    · simp [h, specText]
    · have hs : s = "" := by simpa [Val.truthy] using h
      subst hs
      simp [specText]

theorem bind_trimText {β : Type} (v : Val) (f : String → Except JSError β) :
    (trimText v >>= f) =
      if v.isText then f (specText v) else Except.error JSError.typeError := by
  rw [trimText_eq]
  cases v.isText <;> rfl

theorem lower_trim_empty : toLowerCase (jsTrim "") = "" := by decide

theorem preferredOf_eq (v : Val) : preferredOf v = specPreferred v := by
  cases v with
  | undef => decide
  | bool b => cases b <;> decide
  | num n =>
    unfold preferredOf textOf Val.orElse specPreferred
    by_cases h : n.truthy = true
    · simp [Val.truthy, h, Bool.or_assoc]
    · have h1 : n.truthy = false := by simpa using h
      simp [Val.truthy, h1, lower_trim_empty]
  | str s =>
    unfold preferredOf textOf Val.orElse specPreferred
    by_cases h : s = ""
    · subst h
      decide
    · simp [Val.truthy, h, Bool.or_assoc]

theorem contractorOfRow_eq (row : ContractorRow) :
    contractorOfRow row =
      if row.ContractorID.toNumber.truthy then
        (if row.textual then Except.ok (some (specContractorOfRow row))
         else Except.error JSError.typeError)
      else Except.ok none := by
  unfold contractorOfRow
  by_cases h : row.ContractorID.toNumber.truthy = true
  · simp only [h, Bool.not_true, Bool.false_eq_true, if_false, if_true, bind_trimText,
      preferredOf_eq]
    by_cases h1 : row.Name.isText = true; swap
    · simp [ContractorRow.textual, h1]
    by_cases h2 : row.Company.isText = true; swap
    · simp [ContractorRow.textual, h1, h2]
    by_cases h3 : row.Trade.isText = true; swap
    · simp [ContractorRow.textual, h1, h2, h3]
    by_cases h4 : row.Phone.isText = true; swap
    · simp [ContractorRow.textual, h1, h2, h3, h4]
    by_cases h5 : row.Email.isText = true; swap
    · simp [ContractorRow.textual, h1, h2, h3, h4, h5]
    by_cases h6 : row.Accreditations.isText = true; swap
    · simp [ContractorRow.textual, h1, h2, h3, h4, h5, h6]
    by_cases h7 : row.Notes.isText = true; swap
    · simp [ContractorRow.textual, h1, h2, h3, h4, h5, h6, h7]
    simp [ContractorRow.textual, h1, h2, h3, h4, h5, h6, h7, specContractorOfRow, pure,
      Except.pure]
  · have h1 : row.ContractorID.toNumber.truthy = false := by simpa using h
    simp [h1]

theorem hsWarningOfRow_eq (row : HSRow) :
    hsWarningOfRow row =
      if row.HSID.toNumber.truthy then
        (if row.textual then Except.ok (some (specHSWarningOfRow row))
         else Except.error JSError.typeError)
      else Except.ok none := by
  unfold hsWarningOfRow
  by_cases h : row.HSID.toNumber.truthy = true
  · simp only [h, Bool.not_true, Bool.false_eq_true, if_false, if_true, bind_trimText]
    by_cases h1 : row.WarningType.isText = true; swap
    · simp [HSRow.textual, h1]
    by_cases h2 : row.Description.isText = true; swap
    · simp [HSRow.textual, h1, h2]
    by_cases h3 : row.Severity.isText = true; swap
    · simp [HSRow.textual, h1, h2, h3]
    by_cases h4 : row.Location.isText = true; swap
    · simp [HSRow.textual, h1, h2, h3, h4]
    by_cases h5 : row.ControlMeasures.isText = true; swap
    · simp [HSRow.textual, h1, h2, h3, h4, h5]
    by_cases h6 : row.Notes.isText = true; swap
    · simp [HSRow.textual, h1, h2, h3, h4, h5, h6]
    simp [HSRow.textual, h1, h2, h3, h4, h5, h6, specHSWarningOfRow, pure, Except.pure]
  · have h1 : row.HSID.toNumber.truthy = false := by simpa using h
    simp [h1]

/-- The link object built for a row whose text cells are text. -/
theorem linkOfRow_eq (row : LinkRow) :
    linkOfRow row =
      if row.textual then
        Except.ok
          { linkId := row.LinkID.toNumber.orZero, projectId := row.ProjectID.toNumber.orZero,
            contractorId := row.ContractorID.toNumber.orZero, role := specText row.Role,
            notes := specText row.Notes }
      else Except.error JSError.typeError := by
  unfold linkOfRow
  simp only [bind_trimText]
  by_cases h1 : row.Role.isText = true; swap
  · simp [LinkRow.textual, h1]
  by_cases h2 : row.Notes.isText = true; swap
  · simp [LinkRow.textual, h1, h2]
  simp [LinkRow.textual, h1, h2, pure, Except.pure]

theorem isPos_orZero (x : JSNum) : x.orZero.isPos = x.isPos := by
  cases x with
  | nan => rfl
  | posInf => rfl
  | negInf => rfl
  | fin q =>
    unfold JSNum.orZero
    by_cases h : q = 0
    · subst h
      decide
    · simp [JSNum.truthy, h]

theorem orZero_of_isPos (x : JSNum) (h : x.isPos = true) : x.orZero = x := by
  cases x with
  | nan => exact absurd h (by decide)
  | posInf => rfl
  | negInf => rfl
  | fin q =>
    unfold JSNum.orZero
    have h1 : 0 < q := by simpa [JSNum.isPos] using h
    simp [JSNum.truthy, h1.ne']

theorem truthy_ne (x : JSNum) (h : x.truthy = true) : x ≠ JSNum.nan ∧ x ≠ JSNum.fin 0 := by
  constructor
  · rintro rfl
    exact absurd h (by decide)
  · rintro rfl
    exact absurd h (by decide)

theorem mapM_ok {ρ α : Type} (g : ρ → Except JSError α) (f : ρ → α) (rows : List ρ)
    (h : ∀ r ∈ rows, g r = Except.ok (f r)) : rows.mapM g = Except.ok (rows.map f) := by
  induction rows with
  | nil => rfl
  | cons r rows ih =>
    rw [List.mapM_cons, h r (List.mem_cons_self _ _),
      ih (fun x hx => h x (List.mem_cons_of_mem _ hx))]
    rfl

theorem mapM_all_ok {ρ α : Type} (g : ρ → Except JSError α) (rows : List ρ) (out : List α)
    (h : rows.mapM g = Except.ok out) : ∀ r ∈ rows, ∃ x, g r = Except.ok x := by
  induction rows generalizing out with
  | nil => simp
  | cons r rows ih =>
    rw [List.mapM_cons] at h
    cases hg : g r with
    | error e =>
      rw [hg] at h
      exact absurd h (by intro h1; cases h1)
    | ok x =>
      rw [hg] at h
      cases hrest : rows.mapM g with
      | error e =>
        rw [hrest] at h
        exact absurd h (by intro h1; cases h1)
      | ok ys =>
        intro r1 hr1
        rcases List.mem_cons.mp hr1 with h1 | h1
        · exact ⟨x, by rw [h1, hg]⟩
        · exact ih ys hrest r1 h1

/-- The contractors array, when the loop completes: one contractor for each
row with a truthy `ContractorID`, in row order. -/
theorem normaliseContractors_eq (rows : List ContractorRow) (out : List Contractor)
    (h : normaliseContractors rows = Except.ok out) :
    out = (rows.filter (fun r => r.ContractorID.toNumber.truthy)).map specContractorOfRow := by
  have h1 := forEachPush_eq contractorOfRow
    (fun r => if r.ContractorID.toNumber.truthy then some (specContractorOfRow r) else none)
    rows out ?_ h
  · rw [h1]
    clear h h1
    induction rows with
    | nil => rfl
    | cons r rows ih =>
      by_cases hr : r.ContractorID.toNumber.truthy = true
      · simp [List.filterMap_cons, List.filter_cons, hr, ih]
      · simp [List.filterMap_cons, List.filter_cons, hr, ih]
  · intro r x hx
    rw [contractorOfRow_eq] at hx
    by_cases hr : r.ContractorID.toNumber.truthy = true
    · by_cases ht : r.textual = true
      · simp only [hr, ht, if_true] at hx
        simp [hr, ← Except.ok.inj hx]
      · simp only [hr, ht, if_true, if_false] at hx
        cases hx
    · simp only [hr, if_false] at hx
      simp [hr, ← Except.ok.inj hx]

theorem normaliseContractors_ok (rows : List ContractorRow)
    (h : ∀ r ∈ rows, r.ContractorID.toNumber.truthy = true → r.textual = true) :
    ∃ out, normaliseContractors rows = Except.ok out := by
  refine ⟨_, forEachPush_ok contractorOfRow
    (fun r => if r.ContractorID.toNumber.truthy then some (specContractorOfRow r) else none)
    rows ?_⟩
  intro r hr
  rw [contractorOfRow_eq]
  by_cases h1 : r.ContractorID.toNumber.truthy = true
  · simp [h1, h r hr h1]
  · simp [h1]

/-- The warnings array, when the loop completes: one warning for each row with
a truthy `HSID`, in row order. -/
theorem normaliseHSWarnings_eq (rows : List HSRow) (out : List HSWarning)
    (h : normaliseHSWarnings rows = Except.ok out) :
    out = (rows.filter (fun r => r.HSID.toNumber.truthy)).map specHSWarningOfRow := by
  have h1 := forEachPush_eq hsWarningOfRow
    (fun r => if r.HSID.toNumber.truthy then some (specHSWarningOfRow r) else none)
    rows out ?_ h
  · rw [h1]
    clear h h1
    induction rows with
    | nil => rfl
    | cons r rows ih =>
      by_cases hr : r.HSID.toNumber.truthy = true
      · simp [List.filterMap_cons, List.filter_cons, hr, ih]
      · simp [List.filterMap_cons, List.filter_cons, hr, ih]
  · intro r x hx
    rw [hsWarningOfRow_eq] at hx
    by_cases hr : r.HSID.toNumber.truthy = true
    · by_cases ht : r.textual = true
      · simp only [hr, ht, if_true] at hx
        simp [hr, ← Except.ok.inj hx]
      · simp only [hr, ht, if_true, if_false] at hx
        cases hx
    · simp only [hr, if_false] at hx
      simp [hr, ← Except.ok.inj hx]

theorem normaliseHSWarnings_ok (rows : List HSRow)
    (h : ∀ r ∈ rows, r.HSID.toNumber.truthy = true → r.textual = true) :
    ∃ out, normaliseHSWarnings rows = Except.ok out := by
  refine ⟨_, forEachPush_ok hsWarningOfRow
    (fun r => if r.HSID.toNumber.truthy then some (specHSWarningOfRow r) else none)
    rows ?_⟩
  intro r hr
  rw [hsWarningOfRow_eq]
  by_cases h1 : r.HSID.toNumber.truthy = true
  · simp [h1, h r hr h1]
  · simp [h1]

/-- The links array, when `map` completes: the rows with three positive ids,
in row order. -/
theorem normaliseLinks_eq (rows : List LinkRow) (out : List ContractorLink)
    (h : normaliseLinks rows = Except.ok out) :
    out = (rows.filter LinkRow.positive).map specLinkOfRow := by
  unfold normaliseLinks at h
  cases hm : rows.mapM linkOfRow with
  | error e =>
    rw [hm] at h
    cases h
  | ok links =>
    rw [hm] at h
    have hout : links.filter (fun link =>
        link.linkId.isPos && link.projectId.isPos && link.contractorId.isPos) = out :=
      Except.ok.inj h
    have hall := mapM_all_ok linkOfRow rows links hm
    have hrow : ∀ r ∈ rows, linkOfRow r = Except.ok
        { linkId := r.LinkID.toNumber.orZero, projectId := r.ProjectID.toNumber.orZero,
          contractorId := r.ContractorID.toNumber.orZero, role := specText r.Role,
          notes := specText r.Notes } := by
      intro r hr
      obtain ⟨x, hx⟩ := hall r hr
      rw [linkOfRow_eq] at hx ⊢
      by_cases ht : r.textual = true
      · simp [ht]
      · simp only [ht, if_false] at hx
        cases hx
    have hlinks := (mapM_ok linkOfRow _ rows hrow).symm.trans hm
    rw [← hout, ← Except.ok.inj hlinks, List.filter_map]
    have hp : ((fun link : ContractorLink =>
        link.linkId.isPos && link.projectId.isPos && link.contractorId.isPos) ∘
        fun r : LinkRow =>
          ({ linkId := r.LinkID.toNumber.orZero, projectId := r.ProjectID.toNumber.orZero,
             contractorId := r.ContractorID.toNumber.orZero, role := specText r.Role,
             notes := specText r.Notes } : ContractorLink)) = LinkRow.positive := by
      funext r
      simp [LinkRow.positive, isPos_orZero]
    rw [hp]
    apply List.map_congr_left
    intro r hr
    have hpos := (List.mem_filter.mp hr).2
    simp only [LinkRow.positive, Bool.and_eq_true] at hpos
    simp [specLinkOfRow, orZero_of_isPos _ hpos.1.1, orZero_of_isPos _ hpos.1.2,
      orZero_of_isPos _ hpos.2]

theorem normaliseLinks_ok (rows : List LinkRow) (h : ∀ r ∈ rows, r.textual = true) :
    ∃ out, normaliseLinks rows = Except.ok out := by
  have hrow : ∀ r ∈ rows, linkOfRow r = Except.ok
      { linkId := r.LinkID.toNumber.orZero, projectId := r.ProjectID.toNumber.orZero,
        contractorId := r.ContractorID.toNumber.orZero, role := specText r.Role,
        notes := specText r.Notes } := by
    intro r hr
    rw [linkOfRow_eq]
    simp [h r hr]
  unfold normaliseLinks
  rw [mapM_ok linkOfRow _ rows hrow]
  exact ⟨_, rfl⟩

theorem strictEq_eq (x y : JSNum) (h : x.strictEq y = true) : x = y := by
  cases x <;> cases y <;> simp_all [JSNum.strictEq]

/-! ## Settled claims: the selection cursor and the contractor join -/

theorem strictEq_self (k : JSNum) (h : k.truthy = true) : k.strictEq k = true := by
  cases k <;> simp_all [JSNum.strictEq, JSNum.truthy]

/-- C11 fails in the code: project `1` is selected and a reload brings project
`7` only; `setProjects`, and `bootstrap` as a whole, leave the cursor at `1`,
which no stored project has, and `getSelectedProject` finds nothing.  The
handler of a filter change, run on that store, does select project `7`. -/
theorem C11_reload_leaves_dangling_cursor :
    sampleStore.selectedProjectId = some (JSNum.fin 1) ∧
      (setProjects sampleStore [sampleProjectSeven]).projects = [sampleProjectSeven] ∧
      (setProjects sampleStore [sampleProjectSeven]).selectedProjectId = some (JSNum.fin 1) ∧
      (∀ p ∈ (setProjects sampleStore [sampleProjectSeven]).projects, p.id ≠ JSNum.fin 1) ∧
      getSelectedProject (setProjects sampleStore [sampleProjectSeven]) = none ∧
      (bootstrap sampleStore sampleSevenWorkbook).projects = [sampleProjectSeven] ∧
      (bootstrap sampleStore sampleSevenWorkbook).selectedProjectId = some (JSNum.fin 1) ∧
      getSelectedProject (bootstrap sampleStore sampleSevenWorkbook) = none ∧
      (onFilterChange (bootstrap sampleStore sampleSevenWorkbook) "all" "all").selectedProjectId =
        some (JSNum.fin 7) := by
  decide!

/-- What `setProjects` does on a reload with a non-empty sequence: the first
project is selected only when the cursor was null; a cursor holding an id is
kept as it is, so after the reload it refers to a stored project exactly when
its id occurs in the new sequence, and otherwise `getSelectedProject` returns
no project. -/
theorem setProjects_keeps_a_set_cursor (s : Store) (p : Project) (rest : List Project) :
    (s.selectedProjectId = none →
        (setProjects s (p :: rest)).selectedProjectId = some p.id) ∧
      (∀ k, s.selectedProjectId = some k → k.truthy = true →
        (setProjects s (p :: rest)).selectedProjectId = some k ∧
          ((∀ q ∈ p :: rest, q.id ≠ k) →
            getSelectedProject (setProjects s (p :: rest)) = none) ∧
          ((∃ q ∈ p :: rest, q.id = k) →
            ∃ q ∈ p :: rest, getSelectedProject (setProjects s (p :: rest)) = some q ∧
              q.id = k)) := by
  constructor
  · intro h
    simp [setProjects, Store.cursorFalsy, h]
  · intro k hk hkt
    have hset : setProjects s (p :: rest) = { s with projects := p :: rest } := by
      simp [setProjects, Store.cursorFalsy, hk, hkt]
    have hget : getSelectedProject (setProjects s (p :: rest)) =
        (p :: rest).find? (fun q => q.id.strictEq k) := by
      rw [hset]
      simp [getSelectedProject, hk]
    refine ⟨by rw [hset]; exact hk, ?_, ?_⟩
    · intro hno
      rw [hget, List.find?_eq_none]
      intro q hq hqk
      exact hno q hq (strictEq_eq _ _ hqk)
    · rintro ⟨q, hq, hqk⟩
      cases hf : (p :: rest).find? (fun q => q.id.strictEq k) with
      | none =>
        rw [List.find?_eq_none] at hf
        have h1 := hf q hq
        rw [hqk, strictEq_self k hkt] at h1
        exact absurd rfl h1
      | some q1 =>
        have h2 : q1.id.strictEq k = true :=
          List.find?_some (p := fun q : Project => q.id.strictEq k) hf
        exact ⟨q1, List.mem_of_find?_eq_some hf, by rw [hget, hf], strictEq_eq _ _ h2⟩

/-- C12: `setSelectedProject` sets the cursor to any id and changes no stored
sequence; `getSelectedProject` then returns the first stored project whose id
is strictly equal to the cursor, and no project when the cursor is null or
names no stored project. -/
theorem C12_cursor_set_unchecked_and_resolved_lazily (s : Store) (id : Option JSNum) :
    (setSelectedProject s id).selectedProjectId = id ∧
      (setSelectedProject s id).projects = s.projects ∧
      (setSelectedProject s id).contractors = s.contractors ∧
      (setSelectedProject s id).hsWarnings = s.hsWarnings ∧
      (setSelectedProject s id).projectContractorLinks = s.projectContractorLinks ∧
      getSelectedProject (setSelectedProject s id) =
        (match id with
         | none => none
         | some k => s.projects.find? (fun p => p.id.strictEq k)) ∧
      (∀ k, id = some k → (∀ p ∈ s.projects, p.id ≠ k) →
        getSelectedProject (setSelectedProject s id) = none) ∧
      (∀ k p, id = some k → getSelectedProject (setSelectedProject s id) = some p →
        p ∈ s.projects ∧ p.id = k) := by
  have hget : getSelectedProject (setSelectedProject s id) =
      (match id with
       | none => none
       | some k => s.projects.find? (fun p => p.id.strictEq k)) := by
    cases id with
    | none => simp [getSelectedProject, setSelectedProject]
    | some k => rfl
  refine ⟨rfl, rfl, rfl, rfl, rfl, hget, ?_, ?_⟩
  · intro k hk hno
    rw [hget, hk]
    simp only []
    rw [List.find?_eq_none]
    intro p hp hpk
    exact hno p hp (strictEq_eq _ _ hpk)
  · intro k p hk hsome
    rw [hget, hk] at hsome
    simp only [] at hsome
    have h1 : p.id.strictEq k = true :=
      List.find?_some (p := fun q : Project => q.id.strictEq k) hsome
    exact ⟨List.mem_of_find?_eq_some hsome, strictEq_eq _ _ h1⟩

/-- Witness for `C12_cursor_set_unchecked_and_resolved_lazily`: the cursor set
to `42`, an id no stored project has. -/
theorem C12_cursor_set_unchecked_and_resolved_lazily_witness :
    (∀ p ∈ sampleStore.projects, p.id ≠ JSNum.fin 42) ∧
      getSelectedProject (setSelectedProject sampleStore (some (JSNum.fin 42))) = none :=
  ⟨by decide!, (C12_cursor_set_unchecked_and_resolved_lazily sampleStore
    (some (JSNum.fin 42))).2.2.2.2.2.2.1 (JSNum.fin 42) rfl (by decide!)⟩

/-- C13: `getContractorsForProject` returns one row per stored link whose
project id is strictly equal to the argument, in link order, with the link's
id, project id, role and notes; the row carries the fields of the first stored
contractor with the link's contractor id, and when there is none it carries
the link's contractor id, empty texts and `preferred = false`.  So the link
`5` of project `1` to the unknown contractor `99` yields one such row. -/
theorem C13_contractor_join_keeps_every_link (s : Store) (projectId : JSNum) :
    getContractorsForProject s projectId =
        (s.projectContractorLinks.filter (fun link => link.projectId.strictEq projectId)).map
          (fun link =>
            match s.contractors.find? (fun c => c.contractorId.strictEq link.contractorId) with
            | some c =>
              { linkId := link.linkId, projectId := link.projectId, role := link.role,
                notes := link.notes, contractorId := c.contractorId, name := c.name,
                company := c.company, trade := c.trade, phone := c.phone, email := c.email,
                accreditations := c.accreditations, preferred := c.preferred }
            | none =>
              { linkId := link.linkId, projectId := link.projectId, role := link.role,
                notes := link.notes, contractorId := link.contractorId, name := "",
                company := "", trade := "", phone := "", email := "", accreditations := "",
                preferred := false }) ∧
      getContractorsForProject sampleLinkStore (JSNum.fin 1) =
        [{ linkId := JSNum.fin 5, projectId := JSNum.fin 1, role := "Roofer", notes := "",
           contractorId := JSNum.fin 99, name := "", company := "", trade := "", phone := "",
           email := "", accreditations := "", preferred := false }] := by
  constructor
  · unfold getContractorsForProject getProjectContractorLinks
    apply List.map_congr_left
    intro link _
    have hte : ∀ t : String, (if t ≠ "" then t else "") = t := by
      intro t
      by_cases ht : t = "" <;> simp [ht]
    cases s.contractors.find? (fun c => c.contractorId.strictEq link.contractorId) with
    | none => rfl
    | some c => simp [textOrEmpty, hte]
  · decide!

/-! ## Settled claims: contractor, warning and link rows -/

/-- C14: the normalised link list is exactly the `ProjectContractors` rows
whose `LinkID`, `ProjectID` and `ContractorID` are all numeric and strictly
positive, in row order; every other row is dropped.  The list is produced
whenever the `Role` and `Notes` cells are absent or text. -/
theorem C14_links_are_the_rows_with_positive_ids (rows : List LinkRow) :
    ((∀ r ∈ rows, r.textual = true) →
        normaliseLinks rows = Except.ok ((rows.filter LinkRow.positive).map specLinkOfRow)) ∧
      (∀ out, normaliseLinks rows = Except.ok out →
        out = (rows.filter LinkRow.positive).map specLinkOfRow) := by
  constructor
  · intro h
    obtain ⟨out, hout⟩ := normaliseLinks_ok rows h
    rw [hout, normaliseLinks_eq rows out hout]
  · exact normaliseLinks_eq rows

/-- Witness for `C14_links_are_the_rows_with_positive_ids`: of a complete row
and a row without `ContractorID`, only the first is kept. -/
theorem C14_links_are_the_rows_with_positive_ids_witness :
    (∀ r ∈ [sampleRooferLinkRow, sampleBrokenLinkRow], r.textual = true) ∧
      normaliseLinks [sampleRooferLinkRow, sampleBrokenLinkRow] = Except.ok [sampleRooferLink] ∧
      [sampleRooferLink] =
        ([sampleRooferLinkRow, sampleBrokenLinkRow].filter LinkRow.positive).map specLinkOfRow :=
  ⟨by decide, by decide!,
    (C14_links_are_the_rows_with_positive_ids [sampleRooferLinkRow, sampleBrokenLinkRow]).2
      [sampleRooferLink] (by decide!)⟩

/-- C15, as stated, fails: a `Contractors` row whose `ContractorID` is the
number `-3` is retained, so not every normalised contractor has
`contractorId > 0`. -/
theorem C15_negative_contractor_id_is_retained :
    normaliseContractors [sampleNegativeContractorRow] =
        Except.ok [specContractorOfRow sampleNegativeContractorRow] ∧
      (specContractorOfRow sampleNegativeContractorRow).contractorId = JSNum.fin (-3) ∧
      (specContractorOfRow sampleNegativeContractorRow).contractorId.isPos = false := by
  decide!

/-- C15, amended: every normalised contractor has a `contractorId` that is
neither `NaN` nor zero and is the numeric `ContractorID` of a `Contractors`
row; a row whose `ContractorID` is non-numeric or zero yields no contractor.
The list is produced whenever the text cells of the retained rows are absent
or text. -/
theorem C15_contractor_id_is_nonzero_number (rows : List ContractorRow) :
    ((∀ r ∈ rows, r.ContractorID.toNumber.truthy = true → r.textual = true) →
        ∃ out, normaliseContractors rows = Except.ok out) ∧
      (∀ out, normaliseContractors rows = Except.ok out → ∀ c ∈ out,
        c.contractorId ≠ JSNum.nan ∧ c.contractorId ≠ JSNum.fin 0 ∧
          ∃ r ∈ rows, r.ContractorID.toNumber = c.contractorId) := by
  refine ⟨normaliseContractors_ok rows, ?_⟩
  intro out hout c hc
  rw [normaliseContractors_eq rows out hout] at hc
  obtain ⟨r, hr, rfl⟩ := List.mem_map.mp hc
  obtain ⟨hr1, hr2⟩ := List.mem_filter.mp hr
  exact ⟨(truthy_ne _ hr2).1, (truthy_ne _ hr2).2, r, hr1, rfl⟩

/-- Witness for `C15_contractor_id_is_nonzero_number`: a row with
`ContractorID` `2` yields the contractor `2`. -/
theorem C15_contractor_id_is_nonzero_number_witness :
    normaliseContractors [samplePaddedYesRow] = Except.ok [sampleBob] ∧
      sampleBob ∈ [sampleBob] ∧
      (sampleBob.contractorId ≠ JSNum.nan ∧ sampleBob.contractorId ≠ JSNum.fin 0 ∧
        ∃ r ∈ [samplePaddedYesRow], r.ContractorID.toNumber = sampleBob.contractorId) :=
  ⟨by decide!, by decide!,
    (C15_contractor_id_is_nonzero_number [samplePaddedYesRow]).2 [sampleBob] (by decide!)
      sampleBob (by decide!)⟩

/-- C16, as stated, fails: a `HealthAndSafety` row whose `HSID` is the number
`-4` is retained, so not every normalised warning has `id > 0`. -/
theorem C16_negative_hsid_is_retained :
    normaliseHSWarnings [sampleNegativeHSRow] =
        Except.ok [specHSWarningOfRow sampleNegativeHSRow] ∧
      (specHSWarningOfRow sampleNegativeHSRow).id = JSNum.fin (-4) ∧
      (specHSWarningOfRow sampleNegativeHSRow).id.isPos = false := by
  decide!

/-- C16, amended: every normalised warning has an `id` that is neither `NaN`
nor zero and is the numeric `HSID` of a `HealthAndSafety` row; a row whose
`HSID` is missing, non-numeric or zero yields no warning.  The list is
produced whenever the text cells of the retained rows are absent or text. -/
theorem C16_warning_id_is_nonzero_number (rows : List HSRow) :
    ((∀ r ∈ rows, r.HSID.toNumber.truthy = true → r.textual = true) →
        ∃ out, normaliseHSWarnings rows = Except.ok out) ∧
      (∀ out, normaliseHSWarnings rows = Except.ok out → ∀ w ∈ out,
        w.id ≠ JSNum.nan ∧ w.id ≠ JSNum.fin 0 ∧ ∃ r ∈ rows, r.HSID.toNumber = w.id) := by
  refine ⟨normaliseHSWarnings_ok rows, ?_⟩
  intro out hout w hw
  rw [normaliseHSWarnings_eq rows out hout] at hw
  obtain ⟨r, hr, rfl⟩ := List.mem_map.mp hw
  obtain ⟨hr1, hr2⟩ := List.mem_filter.mp hr
  exact ⟨(truthy_ne _ hr2).1, (truthy_ne _ hr2).2, r, hr1, rfl⟩

/-- Witness for `C16_warning_id_is_nonzero_number`: a row with `HSID` `2`
yields the warning `2`. -/
theorem C16_warning_id_is_nonzero_number_witness :
    normaliseHSWarnings [sampleHSRow] = Except.ok [specHSWarningOfRow sampleHSRow] ∧
      ((specHSWarningOfRow sampleHSRow).id ≠ JSNum.nan ∧
        (specHSWarningOfRow sampleHSRow).id ≠ JSNum.fin 0 ∧
        ∃ r ∈ [sampleHSRow], r.HSID.toNumber = (specHSWarningOfRow sampleHSRow).id) :=
  ⟨by decide!,
    (C16_warning_id_is_nonzero_number [sampleHSRow]).2 [specHSWarningOfRow sampleHSRow]
      (by decide!) (specHSWarningOfRow sampleHSRow) (by decide!)⟩

/-- C17, as stated, fails: the cell ` Yes ` (with blanks around it) is not one
of `yes`, `true`, `1` when compared case-insensitively, and the retained
contractor is flagged preferred, because the cell is trimmed first. -/
theorem C17_padded_yes_is_preferred :
    samplePaddedYesRow.Preferred = Val.str " Yes " ∧
      toLowerCase " Yes " ∉ ["yes", "true", "1"] ∧
      normaliseContractors [samplePaddedYesRow] = Except.ok [sampleBob] ∧
      sampleBob.preferred = true := by
  decide!

/-- C17, amended: for the retained `Contractors` rows, in order, the
`preferred` flag is true exactly when the text form of the `Preferred` cell,
with the white space at its ends removed and lower-cased, is one of `yes`,
`true`, `1`; it is false for an absent cell.  The text form of a text cell is
the text, that of a number or of `true` its string conversion. -/
theorem C17_preferred_from_trimmed_lowercased_cell (rows : List ContractorRow) :
    (∀ out, normaliseContractors rows = Except.ok out →
        out.map (fun c => c.preferred) =
          (rows.filter (fun r => r.ContractorID.toNumber.truthy)).map
            (fun r => specPreferred r.Preferred)) ∧
      (∀ s : String, specPreferred (Val.str s) = true ↔
        toLowerCase (jsTrim s) = "yes" ∨ toLowerCase (jsTrim s) = "true" ∨
          toLowerCase (jsTrim s) = "1") ∧
      specPreferred Val.undef = false ∧
      specPreferred (Val.bool true) = true ∧
      specPreferred (Val.num (JSNum.fin 1)) = true := by
  refine ⟨?_, ?_, rfl, rfl, by decide!⟩
  · intro out hout
    rw [normaliseContractors_eq rows out hout, List.map_map]
    rfl
  · intro s
    simp [specPreferred]

/-- Witness for `C17_preferred_from_trimmed_lowercased_cell`: the row with
the cell ` Yes `. -/
theorem C17_preferred_from_trimmed_lowercased_cell_witness :
    normaliseContractors [samplePaddedYesRow] = Except.ok [sampleBob] ∧
      [sampleBob].map (fun c => c.preferred) =
        ([samplePaddedYesRow].filter (fun r => r.ContractorID.toNumber.truthy)).map
          (fun r => specPreferred r.Preferred) :=
  ⟨by decide!,
    (C17_preferred_from_trimmed_lowercased_cell [samplePaddedYesRow]).1 [sampleBob]
      (by decide!)⟩

/-! ## Settled claims: the numeric and the text fields -/

theorem numericOrZero_orZero (v : Val) : NumericOrZero v v.toNumber.orZero := by
  unfold NumericOrZero JSNum.orZero
  cases h : v.toNumber with
  | nan => exact ⟨by decide, fun h1 => absurd rfl h1, fun _ => rfl⟩
  | posInf => exact ⟨by simp [JSNum.truthy], fun _ => rfl, fun h1 => by cases h1⟩
  | negInf => exact ⟨by simp [JSNum.truthy], fun _ => rfl, fun h1 => by cases h1⟩
  | fin q =>
    by_cases hq : q = 0
    · subst hq
      exact ⟨by simp [JSNum.truthy], fun _ => by simp [JSNum.truthy], fun h1 => by cases h1⟩
    · exact ⟨by simp [JSNum.truthy, hq], fun _ => by simp [JSNum.truthy, hq],
        fun h1 => by cases h1⟩

theorem isNonneg_orZero (x : JSNum) :
    x.orZero.isNonneg = (decide (x = JSNum.nan) || x.isNonneg) := by
  cases x with
  | nan => decide
  | posInf => rfl
  | negInf => rfl
  | fin q =>
    unfold JSNum.orZero
    by_cases hq : q = 0
    · subst hq
      decide
    · simp [JSNum.truthy, hq, JSNum.isNonneg]

theorem keptAsGiven_orElse (v : Val) : KeptAsGiven v (v.orElse (Val.str "")) := by
  constructor
  · intro s hs
    subst hs
    unfold Val.orElse
    by_cases h : s = ""
    · simp [Val.truthy, h]
    · simp [Val.truthy, h]
  · intro h
    subst h
    rfl

theorem trimmedFrom_specText (v : Val) : TrimmedFrom v (specText v) := by
  constructor
  · intro s hs
    subst hs
    rfl
  · intro h
    subst h
    rfl

/-- C18: in every normalised project each of `currentSpend`, `projectedSpend`,
`budget` and `baselineEstimate` is a number other than `NaN`: the numeric value
of the cell of the project's row when the cell has one (the text `1000` gives
`1000`), and `0` when the cell is absent or non-numeric. -/
theorem C18_money_fields_are_numbers_or_zero (rows : List ProjectRow) (tasks : List TaskRow)
    (p : Project) (hp : p ∈ normaliseProjects rows tasks) :
    ∃ r, (rows.filter (fun r => decide (r.ID.toNumber = p.id))).getLast? = some r ∧
      NumericOrZero r.CurrentSpend p.currentSpend ∧
      NumericOrZero r.ProjectedSpend p.projectedSpend ∧
      NumericOrZero r.Budget p.budget ∧
      NumericOrZero r.BaselineEstimate p.baselineEstimate := by
  obtain ⟨_, r, hr, h⟩ := (mem_normaliseProjects_iff rows tasks p).mp hp
  refine ⟨r, hr, ?_, ?_, ?_, ?_⟩
  · rw [congrArg Project.currentSpend h]
    exact numericOrZero_orZero _
  · rw [congrArg Project.projectedSpend h]
    exact numericOrZero_orZero _
  · rw [congrArg Project.budget h]
    exact numericOrZero_orZero _
  · rw [congrArg Project.baselineEstimate h]
    exact numericOrZero_orZero _

/-- Witness for `C18_money_fields_are_numbers_or_zero`: the row with `Budget`
`"1000"`, `ProjectedSpend` `"1200"` and no `BaselineEstimate` gives `1000`,
`1200` and `0`. -/
theorem C18_money_fields_are_numbers_or_zero_witness :
    sampleMoneyProject ∈ normaliseProjects [sampleMoneyRow] [] ∧
      sampleMoneyProject.budget = JSNum.fin 1000 ∧
      sampleMoneyProject.projectedSpend = JSNum.fin 1200 ∧
      sampleMoneyProject.baselineEstimate = JSNum.fin 0 ∧
      ∃ r, ([sampleMoneyRow].filter
          (fun r => decide (r.ID.toNumber = sampleMoneyProject.id))).getLast? = some r ∧
        NumericOrZero r.CurrentSpend sampleMoneyProject.currentSpend ∧
        NumericOrZero r.ProjectedSpend sampleMoneyProject.projectedSpend ∧
        NumericOrZero r.Budget sampleMoneyProject.budget ∧
        NumericOrZero r.BaselineEstimate sampleMoneyProject.baselineEstimate :=
  ⟨by decide!, by decide!, by decide!, by decide!,
    C18_money_fields_are_numbers_or_zero [sampleMoneyRow] [] sampleMoneyProject (by decide!)⟩

/-- C19, as stated, fails: a `Projects` row whose `CurrentSpend` is the number
`-5` yields a project whose `currentSpend` is `-5`. -/
theorem C19_negative_spend_is_kept :
    sampleMoneyProject ∈ normaliseProjects [sampleMoneyRow] [] ∧
      sampleMoneyProject.currentSpend = JSNum.fin (-5) ∧
      sampleMoneyProject.currentSpend.isNonneg = false := by
  decide!

/-- C19, amended: in every normalised project each of `currentSpend`,
`projectedSpend`, `budget` and `baselineEstimate` is non-negative exactly when
the numeric value of the cell of the project's row is non-negative or the cell
has no numeric value (then the field is `0`). -/
theorem C19_money_field_sign_follows_the_cell (rows : List ProjectRow)
    (tasks : List TaskRow) (p : Project) (hp : p ∈ normaliseProjects rows tasks) :
    ∃ r, (rows.filter (fun r => decide (r.ID.toNumber = p.id))).getLast? = some r ∧
      p.currentSpend.isNonneg =
        (decide (r.CurrentSpend.toNumber = JSNum.nan) || r.CurrentSpend.toNumber.isNonneg) ∧
      p.projectedSpend.isNonneg =
        (decide (r.ProjectedSpend.toNumber = JSNum.nan) ||
          r.ProjectedSpend.toNumber.isNonneg) ∧
      p.budget.isNonneg =
        (decide (r.Budget.toNumber = JSNum.nan) || r.Budget.toNumber.isNonneg) ∧
      p.baselineEstimate.isNonneg =
        (decide (r.BaselineEstimate.toNumber = JSNum.nan) ||
          r.BaselineEstimate.toNumber.isNonneg) := by
  obtain ⟨_, r, hr, h⟩ := (mem_normaliseProjects_iff rows tasks p).mp hp
  refine ⟨r, hr, ?_, ?_, ?_, ?_⟩
  · rw [congrArg Project.currentSpend h]
    exact isNonneg_orZero _
  · rw [congrArg Project.projectedSpend h]
    exact isNonneg_orZero _
  · rw [congrArg Project.budget h]
    exact isNonneg_orZero _
  · rw [congrArg Project.baselineEstimate h]
    exact isNonneg_orZero _

/-- Witness for `C19_money_field_sign_follows_the_cell`: the project of the
row with a budget of `1000` and a spend of `-5`. -/
theorem C19_money_field_sign_follows_the_cell_witness :
    sampleMoneyProject ∈ normaliseProjects [sampleMoneyRow] [] ∧
      sampleMoneyProject.budget.isNonneg = true ∧
      ∃ r, ([sampleMoneyRow].filter
          (fun r => decide (r.ID.toNumber = sampleMoneyProject.id))).getLast? = some r ∧
        sampleMoneyProject.currentSpend.isNonneg =
          (decide (r.CurrentSpend.toNumber = JSNum.nan) ||
            r.CurrentSpend.toNumber.isNonneg) ∧
        sampleMoneyProject.projectedSpend.isNonneg =
          (decide (r.ProjectedSpend.toNumber = JSNum.nan) ||
            r.ProjectedSpend.toNumber.isNonneg) ∧
        sampleMoneyProject.budget.isNonneg =
          (decide (r.Budget.toNumber = JSNum.nan) || r.Budget.toNumber.isNonneg) ∧
        sampleMoneyProject.baselineEstimate.isNonneg =
          (decide (r.BaselineEstimate.toNumber = JSNum.nan) ||
            r.BaselineEstimate.toNumber.isNonneg) :=
  ⟨by decide!, by decide!,
    C19_money_field_sign_follows_the_cell [sampleMoneyRow] [] sampleMoneyProject (by decide!)⟩

/-- C20 fails in the code: in one workbook the project name ` Roof ` and the
task title ` Survey ` (blanks around them) are stored with their blanks, where
trimming gives `Roof` and `Survey`, while the contractor name ` Bob ` is stored
as `Bob`. -/
theorem C20_project_name_is_not_trimmed :
    sampleMoneyProject ∈ normaliseProjects [sampleMoneyRow] [] ∧
      sampleMoneyRow.Name = Val.str " Roof " ∧
      sampleMoneyProject.name = Val.str " Roof " ∧
      jsTrim " Roof " = "Roof" ∧
      sampleMoneyProject.name ≠ Val.str (jsTrim " Roof ") ∧
      loadDataFromExcel samplePaddedWorkbook = Except.ok
        { projects := [{ sampleMoneyProject with phaseTasks := [taskOfRow samplePaddedTaskRow] }]
          contractors := [sampleBob], hsWarnings := [], projectContractorLinks := [] } ∧
      (taskOfRow samplePaddedTaskRow).title = Val.str " Survey " ∧
      jsTrim " Survey " = "Survey" ∧
      samplePaddedYesRow.Name = Val.str " Bob " ∧
      sampleBob.name = jsTrim " Bob " ∧ sampleBob.name = "Bob" := by
  decide!

/-- The free-text fields by the row an entity is built from: those of a
project and of a task are the cells as given, those of a contractor, a warning
and a link are the cells with the white space at both ends removed; each is
empty for a missing cell. -/
theorem text_fields_by_row :
    (∀ (id : JSNum) (r : ProjectRow),
      KeptAsGiven r.Name (projectOfRow id r).name ∧
      KeptAsGiven r.AssetType (projectOfRow id r).assetType ∧
      KeptAsGiven r.AssetName (projectOfRow id r).assetName ∧
      KeptAsGiven r.Site (projectOfRow id r).site ∧
      KeptAsGiven r.BuildingOrArea (projectOfRow id r).buildingOrArea ∧
      KeptAsGiven r.Owner (projectOfRow id r).owner ∧
      KeptAsGiven r.LeadUser (projectOfRow id r).leadUser ∧
      KeptAsGiven r.RiskRating (projectOfRow id r).riskRating ∧
      KeptAsGiven r.RiskSummary (projectOfRow id r).riskSummary) ∧
      (∀ r : TaskRow,
        KeptAsGiven r.Title (taskOfRow r).title ∧
        KeptAsGiven r.Assignee (taskOfRow r).assignee) ∧
      (∀ r : ContractorRow,
        TrimmedFrom r.Name (specContractorOfRow r).name ∧
        TrimmedFrom r.Company (specContractorOfRow r).company ∧
        TrimmedFrom r.Trade (specContractorOfRow r).trade ∧
        TrimmedFrom r.Phone (specContractorOfRow r).phone ∧
        TrimmedFrom r.Email (specContractorOfRow r).email ∧
        TrimmedFrom r.Accreditations (specContractorOfRow r).accreditations ∧
        TrimmedFrom r.Notes (specContractorOfRow r).notes) ∧
      (∀ r : HSRow,
        TrimmedFrom r.WarningType (specHSWarningOfRow r).warningType ∧
        TrimmedFrom r.Description (specHSWarningOfRow r).description ∧
        TrimmedFrom r.Severity (specHSWarningOfRow r).severity ∧
        TrimmedFrom r.Location (specHSWarningOfRow r).location ∧
        TrimmedFrom r.ControlMeasures (specHSWarningOfRow r).controlMeasures ∧
        TrimmedFrom r.Notes (specHSWarningOfRow r).notes) ∧
      (∀ r : LinkRow,
        TrimmedFrom r.Role (specLinkOfRow r).role ∧
        TrimmedFrom r.Notes (specLinkOfRow r).notes) := by
  refine ⟨?_, ?_, ?_, ?_, ?_⟩
  · intro id r
    exact ⟨keptAsGiven_orElse _, keptAsGiven_orElse _, keptAsGiven_orElse _,
      keptAsGiven_orElse _, keptAsGiven_orElse _, keptAsGiven_orElse _, keptAsGiven_orElse _,
      keptAsGiven_orElse _, keptAsGiven_orElse _⟩
  · intro r
    exact ⟨keptAsGiven_orElse _, keptAsGiven_orElse _⟩
  · intro r
    exact ⟨trimmedFrom_specText _, trimmedFrom_specText _, trimmedFrom_specText _,
      trimmedFrom_specText _, trimmedFrom_specText _, trimmedFrom_specText _,
      trimmedFrom_specText _⟩
  · intro r
    exact ⟨trimmedFrom_specText _, trimmedFrom_specText _, trimmedFrom_specText _,
      trimmedFrom_specText _, trimmedFrom_specText _, trimmedFrom_specText _⟩
  · intro r
    exact ⟨trimmedFrom_specText _, trimmedFrom_specText _⟩

/-! ## Settled claims: the whole load -/

/-- C21, the code at the failing input: the two required sheets are present
and a `Contractors` row holds its phone number as a numeric cell; `trim` is
called on the number and the load raises a `TypeError` instead of returning
the four sequences. -/
theorem C21_numeric_text_cell_raises :
    sampleNumericPhoneWorkbook.Projects ≠ none ∧ sampleNumericPhoneWorkbook.Tasks ≠ none ∧
      loadDataFromExcel sampleNumericPhoneWorkbook = Except.error JSError.typeError ∧
      bootstrap {} sampleNumericPhoneWorkbook = {} := by
  decide!

theorem normaliseContractors_nil : normaliseContractors [] = Except.ok [] := rfl

theorem normaliseHSWarnings_nil : normaliseHSWarnings [] = Except.ok [] := rfl

theorem normaliseLinks_nil : normaliseLinks [] = Except.ok [] := rfl

/-- C22: without the `Projects` or the `Tasks` sheet the load raises the
missing-sheet error and `bootstrap` leaves the store as it was; with both, an
absent `Contractors`, `HealthAndSafety` or `ProjectContractors` sheet behaves
as an empty one, and with all three absent the load returns the projects and
three empty sequences. -/
theorem C22_required_sheets_and_optional_sheets (s : Store) (wb : Workbook) :
    ((wb.Projects = none ∨ wb.Tasks = none) →
        loadDataFromExcel wb = Except.error (JSError.error "Missing Projects or Tasks sheet") ∧
          bootstrap s wb = s) ∧
      (wb.Contractors = none →
        loadDataFromExcel wb = loadDataFromExcel { wb with Contractors := some [] }) ∧
      (wb.HealthAndSafety = none →
        loadDataFromExcel wb = loadDataFromExcel { wb with HealthAndSafety := some [] }) ∧
      (wb.ProjectContractors = none →
        loadDataFromExcel wb = loadDataFromExcel { wb with ProjectContractors := some [] }) ∧
      (∀ projRows taskRows, wb.Projects = some projRows → wb.Tasks = some taskRows →
        wb.Contractors = none → wb.HealthAndSafety = none → wb.ProjectContractors = none →
        loadDataFromExcel wb = Except.ok
          { projects := normaliseProjects projRows taskRows, contractors := [],
            hsWarnings := [], projectContractorLinks := [] }) := by
  obtain ⟨pr, tr, cr, hr, lr⟩ := wb
  refine ⟨?_, ?_, ?_, ?_, ?_⟩
  · intro h
    have hload : loadDataFromExcel ⟨pr, tr, cr, hr, lr⟩ =
        Except.error (JSError.error "Missing Projects or Tasks sheet") := by
      rcases h with h | h
      · simp only at h
        subst h
        rfl
      · simp only at h
        subst h
        cases pr <;> rfl
    refine ⟨hload, ?_⟩
    unfold bootstrap
    rw [hload]
  · intro h
    simp only at h
    subst h
    cases pr <;> cases tr <;> rfl
  · intro h
    simp only at h
    subst h
    cases pr <;> cases tr <;> rfl
  · intro h
    simp only at h
    subst h
    cases pr <;> cases tr <;> rfl
  · intro projRows taskRows h1 h2 h3 h4 h5
    simp only at h1 h2 h3 h4 h5
    subst h1 h2 h3 h4 h5
    rfl

/-- Witness for `C22_required_sheets_and_optional_sheets`: a workbook without
the `Tasks` sheet leaves a populated store untouched; a workbook with the two
required sheets only loads. -/
theorem C22_required_sheets_and_optional_sheets_witness :
    (loadDataFromExcel sampleNoTasksWorkbook =
        Except.error (JSError.error "Missing Projects or Tasks sheet") ∧
      bootstrap sampleStore sampleNoTasksWorkbook = sampleStore) ∧
      loadDataFromExcel sampleMinimalWorkbook = Except.ok
        { projects := normaliseProjects [sampleRoofRow] [sampleSurveyRow], contractors := [],
          hsWarnings := [], projectContractorLinks := [] } :=
  ⟨(C22_required_sheets_and_optional_sheets sampleStore sampleNoTasksWorkbook).1 (Or.inr rfl),
    (C22_required_sheets_and_optional_sheets sampleStore sampleMinimalWorkbook).2.2.2.2
      [sampleRoofRow] [sampleSurveyRow] rfl rfl rfl rfl rfl⟩

/-! ## Settled claims: status cycling in the store and the stored order -/

theorem modifyAt_length {α : Type} (f : α → α) (n : Nat) (l : List α) :
    (modifyAt f n l).length = l.length := by
  induction l generalizing n with
  | nil => cases n <;> rfl
  | cons a l ih =>
    cases n with
    | zero => rfl
    | succ n => simp [modifyAt, ih]

theorem modifyAt_modifyAt {α : Type} (f g : α → α) (n : Nat) (l : List α) :
    modifyAt f n (modifyAt g n l) = modifyAt (fun a => f (g a)) n l := by
  induction l generalizing n with
  | nil => cases n <;> rfl
  | cons a l ih =>
    cases n with
    | zero => rfl
    | succ n => simp [modifyAt, ih]

theorem specTaskCount_modifyAt (f : Project → Project)
    (hf : ∀ p, (f p).phaseTasks.length = p.phaseTasks.length) (n : Nat)
    (projects : List Project) :
    specTaskCount (modifyAt f n projects) = specTaskCount projects := by
  unfold specTaskCount
  induction projects generalizing n with
  | nil => cases n <;> rfl
  | cons p projects ih =>
    cases n with
    | zero => simp [modifyAt, hf]
    | succ n => simp [modifyAt, ih]

/-- C29: `cycleTaskStatus` on a stored task and `cycleProjectStatus` on a
stored project change nothing but the status of that entity: overwriting that
one status makes the stores before and after equal; the cursor and the
contractor, warning and link sequences are untouched, and `computeStats`
reports the same project and task counts. -/
theorem C29_cycling_changes_only_that_status (s : Store) (i j : Nat) :
    (∀ v, overwriteTaskStatus (cycleTaskStatusAt s i j) i j v = overwriteTaskStatus s i j v) ∧
      (∀ v, overwriteProjectStatus (cycleProjectStatusAt s i) i v =
        overwriteProjectStatus s i v) ∧
      ((cycleTaskStatusAt s i j).selectedProjectId = s.selectedProjectId ∧
        (cycleTaskStatusAt s i j).contractors = s.contractors ∧
        (cycleTaskStatusAt s i j).hsWarnings = s.hsWarnings ∧
        (cycleTaskStatusAt s i j).projectContractorLinks = s.projectContractorLinks) ∧
      ((cycleProjectStatusAt s i).selectedProjectId = s.selectedProjectId ∧
        (cycleProjectStatusAt s i).contractors = s.contractors ∧
        (cycleProjectStatusAt s i).hsWarnings = s.hsWarnings ∧
        (cycleProjectStatusAt s i).projectContractorLinks = s.projectContractorLinks) ∧
      ((computeStats (cycleTaskStatusAt s i j)).projectCount = (computeStats s).projectCount ∧
        (computeStats (cycleTaskStatusAt s i j)).taskCount = (computeStats s).taskCount) ∧
      ((computeStats (cycleProjectStatusAt s i)).projectCount = (computeStats s).projectCount ∧
        (computeStats (cycleProjectStatusAt s i)).taskCount = (computeStats s).taskCount) := by
  refine ⟨?_, ?_, ⟨rfl, rfl, rfl, rfl⟩, ⟨rfl, rfl, rfl, rfl⟩, ⟨?_, ?_⟩, ⟨?_, ?_⟩⟩
  · intro v
    simp only [overwriteTaskStatus, cycleTaskStatusAt, modifyAt_modifyAt]
    rfl
  · intro v
    simp only [overwriteProjectStatus, cycleProjectStatusAt, modifyAt_modifyAt]
    rfl
  · simp only [computeStats_eq, cycleTaskStatusAt, modifyAt_length]
  · simp only [computeStats_eq, cycleTaskStatusAt]
    exact specTaskCount_modifyAt _ (fun p => modifyAt_length _ _ _) i s.projects
  · simp only [computeStats_eq, cycleProjectStatusAt, modifyAt_length]
  · simp only [computeStats_eq, cycleProjectStatusAt]
    exact specTaskCount_modifyAt cycleProjectStatus (fun p => rfl) i s.projects

/-! ## Settled claims: the order of the normalised projects -/

theorem arrayIndex_eq_some (k : JSNum) (i : Nat) (h : ProjectMap.arrayIndex k = some i) :
    k = JSNum.fin (i : Rat) := by
  cases k with
  | fin q =>
    simp only [ProjectMap.arrayIndex] at h
    split_ifs at h with hc
    have hi : q.num.toNat = i := Option.some.inj h
    have hnum : q.num = (i : Int) := by
      rw [← hi, Int.toNat_of_nonneg hc.2.1]
    congr 1
    rw [← Rat.num_div_den q, hc.1, hnum]
    simp
  | nan => simp [ProjectMap.arrayIndex] at h
  | posInf => simp [ProjectMap.arrayIndex] at h
  | negInf => simp [ProjectMap.arrayIndex] at h

theorem arrayIndex_of_nat (n : Nat) (h : n < 2 ^ 32 - 1) :
    ProjectMap.arrayIndex (JSNum.fin (n : Rat)) = some n := by
  have h1 : ((n : Rat)).den = 1 := Rat.den_natCast n
  have h2 : ((n : Rat)).num = (n : Int) := Rat.num_natCast n
  simp only [ProjectMap.arrayIndex]
  rw [if_pos]
  · rw [h2]
    rfl
  · refine ⟨h1, ?_, ?_⟩
    · rw [h2]
      exact Int.natCast_nonneg n
    · rw [h2]
      omega

/-- A key of the property map is the id of a retained row. -/
theorem mem_keys_buildProjectMap (rows : List ProjectRow) (tasks : List TaskRow) (k : JSNum) :
    k ∈ (buildProjectMap rows tasks).map Prod.fst ↔ k ∈ sourceIds rows := by
  have hkeys := keys_buildProjectMap rows tasks
  unfold sourceIds
  constructor
  · intro hk
    have ht := hkeys.2 k hk
    have hl : (buildProjectMap rows tasks).lookup k ≠ none := by
      intro h0
      exact (ProjectMap.lookup_eq_none_iff _ k).mp h0 hk
    rw [lookup_buildProjectMap rows tasks k ht] at hl
    cases hr : (rows.filter (fun r => decide (r.ID.toNumber = k))).getLast? with
    | none => simp [hr] at hl
    | some r =>
      have hmem := List.mem_of_mem_getLast? hr
      rw [List.mem_filter] at hmem
      have hid : r.ID.toNumber = k := of_decide_eq_true hmem.2
      refine List.mem_map.mpr ⟨r, List.mem_filter.mpr ⟨hmem.1, ?_⟩, hid⟩
      rw [hid]
      exact ht
  · intro hk
    obtain ⟨r, hr, hid⟩ := List.mem_map.mp hk
    rw [List.mem_filter] at hr
    have ht : k.truthy = true := by
      rw [← hid]
      exact hr.2
    by_contra hnot
    have h0 := (ProjectMap.lookup_eq_none_iff _ k).mpr hnot
    rw [lookup_buildProjectMap rows tasks k ht] at h0
    have hne : rows.filter (fun r => decide (r.ID.toNumber = k)) ≠ [] := by
      intro hnil
      have : r ∈ rows.filter (fun r => decide (r.ID.toNumber = k)) :=
        List.mem_filter.mpr ⟨hr.1, decide_eq_true hid⟩
      rw [hnil] at this
      exact List.not_mem_nil _ this
    cases hl : (rows.filter (fun r => decide (r.ID.toNumber = k))).getLast? with
    | none => exact hne (List.getLast?_eq_none_iff.mp hl)
    | some r1 => simp [hl] at h0

theorem JSNum.lt_irrefl (a : JSNum) : a.lt a = false := by
  cases a <;> simp [JSNum.lt]

theorem JSNum.lt_asymm (a b : JSNum) (h : a.lt b = true) : b.lt a = false := by
  cases a <;> cases b <;> simp_all [JSNum.lt]
  exact le_of_lt h

/-- When every key is an array index, `Object.values` lists the properties by
ascending key. -/
theorem ids_ascending (rows : List ProjectRow) (tasks : List TaskRow)
    (h : ∀ k ∈ sourceIds rows, (ProjectMap.arrayIndex k).isSome = true) :
    ((normaliseProjects rows tasks).map (fun p => p.id)).Pairwise
      (fun a b => a.lt b = true) := by
  have hkeys := keys_buildProjectMap rows tasks
  have hidx : ∀ e ∈ buildProjectMap rows tasks, (ProjectMap.arrayIndex e.1).isSome = true := by
    intro e he
    exact h e.1 ((mem_keys_buildProjectMap rows tasks e.1).mp (List.mem_map.mpr ⟨e, he, rfl⟩))
  have hnamed : ProjectMap.named (buildProjectMap rows tasks) = [] := by
    unfold ProjectMap.named
    rw [List.map_eq_nil_iff, List.filter_eq_nil_iff]
    intro e he
    have := hidx e he
    cases hc : ProjectMap.arrayIndex e.1 <;> simp [hc] at this ⊢
  have hid : ∀ e ∈ ProjectMap.indexed (buildProjectMap rows tasks),
      e.2.id = JSNum.fin (e.1 : Rat) := by
    intro e he
    unfold ProjectMap.indexed at he
    rw [List.mem_filterMap] at he
    obtain ⟨e0, he0, hmap⟩ := he
    cases hc : ProjectMap.arrayIndex e0.1 with
    | none => simp [hc] at hmap
    | some i =>
      rw [hc] at hmap
      have he1 : e = (i, e0.2) := (Option.some.inj hmap).symm
      rw [he1]
      show e0.2.id = JSNum.fin (i : Rat)
      rw [id_eq_key rows tasks e0 he0]
      exact arrayIndex_eq_some e0.1 i hc
  have hfst : (ProjectMap.indexed (buildProjectMap rows tasks)).map Prod.fst =
      ((buildProjectMap rows tasks).map Prod.fst).filterMap ProjectMap.arrayIndex := by
    unfold ProjectMap.indexed
    rw [List.map_filterMap, List.filterMap_map]
    apply List.filterMap_congr
    intro e _
    cases hc : ProjectMap.arrayIndex e.1 <;> simp [hc]
  have hnodup : ((ProjectMap.indexed (buildProjectMap rows tasks)).map Prod.fst).Nodup := by
    rw [hfst]
    apply List.Nodup.filterMap _ hkeys.1
    intro a a1 b hb hb1
    rw [arrayIndex_eq_some a b hb, arrayIndex_eq_some a1 b hb1]
  haveI : IsTotal (Nat × Project) (fun a b => a.1 ≤ b.1) := ⟨fun a b => Nat.le_total a.1 b.1⟩
  haveI : IsTrans (Nat × Project) (fun a b => a.1 ≤ b.1) :=
    ⟨fun a b c hab hbc => Nat.le_trans hab hbc⟩
  have hsorted := List.sorted_insertionSort (fun a b : Nat × Project => a.1 ≤ b.1)
    (ProjectMap.indexed (buildProjectMap rows tasks))
  have hperm := List.perm_insertionSort (fun a b : Nat × Project => a.1 ≤ b.1)
    (ProjectMap.indexed (buildProjectMap rows tasks))
  have hnodup2 : (((ProjectMap.indexed (buildProjectMap rows tasks)).insertionSort
      (fun a b => a.1 ≤ b.1)).map Prod.fst).Nodup :=
    ((hperm.map Prod.fst).nodup_iff).mpr hnodup
  have hne : ((ProjectMap.indexed (buildProjectMap rows tasks)).insertionSort
      (fun a b => a.1 ≤ b.1)).Pairwise (fun a b => a.1 ≠ b.1) := by
    have := hnodup2
    unfold List.Nodup at this
    rw [List.pairwise_map] at this
    exact this
  have hlt : ((ProjectMap.indexed (buildProjectMap rows tasks)).insertionSort
      (fun a b => a.1 ≤ b.1)).Pairwise (fun a b => a.1 < b.1) :=
    (List.Pairwise.and hsorted hne).imp (fun hab => lt_of_le_of_ne hab.1 hab.2)
  unfold normaliseProjects ProjectMap.values
  rw [hnamed, List.append_nil, List.map_map, List.pairwise_map]
  refine List.Pairwise.imp_of_mem ?_ hlt
  intro a b ha hb hab
  have ha1 := hid a (hperm.mem_iff.mp ha)
  have hb1 := hid b (hperm.mem_iff.mp hb)
  show (a.2.id).lt (b.2.id) = true
  rw [ha1, hb1]
  simp only [JSNum.lt, decide_eq_true_eq]
  exact_mod_cast hab

theorem setProjects_projects (s : Store) (newProjects : List Project) :
    (setProjects s newProjects).projects = newProjects := by
  unfold setProjects
  cases newProjects with
  | nil => rfl
  | cons p rest =>
    simp only []
    split_ifs <;> rfl

theorem getFilteredProjects_all (s : Store) : getFilteredProjects s "all" "all" = s.projects := by
  unfold getFilteredProjects
  simp

/-- C30: when every retained `Projects` row has a positive integer id below
`2 ^ 32 - 1`, the projects returned by `loadDataFromExcel` are in strictly
ascending id order whatever the order of the rows, and so are the projects
returned by `getFilteredProjects` once stored; the stored ids repeat the source
ids in source order exactly when the source ids are strictly ascending. -/
theorem C30_projects_come_out_in_ascending_id_order (rows : List ProjectRow)
    (tasks : List TaskRow) (s : Store)
    (h : ∀ r ∈ rows, r.ID.toNumber.truthy = true →
      ∃ n : Nat, 0 < n ∧ n < 2 ^ 32 - 1 ∧ r.ID.toNumber = JSNum.fin (n : Rat)) :
    loadDataFromExcel { Projects := some rows, Tasks := some tasks } =
        Except.ok { projects := normaliseProjects rows tasks, contractors := [],
                    hsWarnings := [], projectContractorLinks := [] } ∧
      ((normaliseProjects rows tasks).map (fun p => p.id)).Pairwise
        (fun a b => a.lt b = true) ∧
      (∀ statusFilter siteFilter,
        ((getFilteredProjects (setProjects s (normaliseProjects rows tasks))
          statusFilter siteFilter).map (fun p => p.id)).Pairwise (fun a b => a.lt b = true)) ∧
      getFilteredProjects (setProjects s (normaliseProjects rows tasks)) "all" "all" =
        normaliseProjects rows tasks ∧
      ((normaliseProjects rows tasks).map (fun p => p.id) = sourceIds rows ↔
        (sourceIds rows).Pairwise (fun a b => a.lt b = true)) := by
  have hidx : ∀ k ∈ sourceIds rows, (ProjectMap.arrayIndex k).isSome = true := by
    intro k hk
    unfold sourceIds at hk
    obtain ⟨r, hr, hid⟩ := List.mem_map.mp hk
    rw [List.mem_filter] at hr
    obtain ⟨n, _, hn, hrn⟩ := h r hr.1 hr.2
    rw [← hid, hrn, arrayIndex_of_nat n hn]
    rfl
  have hasc := ids_ascending rows tasks hidx
  have hstored := setProjects_projects s (normaliseProjects rows tasks)
  refine ⟨rfl, hasc, ?_, ?_, ?_⟩
  · intro statusFilter siteFilter
    unfold getFilteredProjects
    rw [hstored]
    exact (hasc.sublist ((List.filter_sublist _).map _))
  · rw [getFilteredProjects_all, hstored]
  · constructor
    · intro heq
      rw [← heq]
      exact hasc
    · intro hsrc
      haveI : IsAntisymm JSNum (fun a b => a.lt b = true) :=
        ⟨fun a b hab hba => by rw [JSNum.lt_asymm a b hab] at hba; exact absurd hba (by simp)⟩
      refine List.eq_of_perm_of_sorted ?_ hasc hsrc
      refine (ids_eq_keys rows tasks).trans ?_
      rw [List.perm_ext_iff_of_nodup (keys_buildProjectMap rows tasks).1]
      · intro k
        exact mem_keys_buildProjectMap rows tasks k
      · refine hsrc.imp_of_mem ?_
        intro a b _ _ hab heq
        rw [heq, JSNum.lt_irrefl] at hab
        exact absurd hab (by simp)

/-- Witness for `C30_projects_come_out_in_ascending_id_order`: rows with the ids
`5`, `2` are returned with the ids `2`, `5`. -/
theorem C30_projects_come_out_in_ascending_id_order_witness :
    normaliseProjects sampleRowsDescending [] =
        [projectOfRow (JSNum.fin 2) { ID := Val.num (JSNum.fin 2), Name := Val.str "Two" },
         projectOfRow (JSNum.fin 5) { ID := Val.num (JSNum.fin 5), Name := Val.str "Five" }] ∧
      ((normaliseProjects sampleRowsDescending []).map (fun p => p.id)).Pairwise
        (fun a b => a.lt b = true) :=
  ⟨by decide!,
    (C30_projects_come_out_in_ascending_id_order sampleRowsDescending [] {}
      (by
        intro r hr hid
        simp only [sampleRowsDescending, List.mem_cons, List.mem_singleton,
          List.not_mem_nil, or_false] at hr
        rcases hr with rfl | rfl
        · exact ⟨5, by norm_num, by norm_num, by simp [Val.toNumber]⟩
        · exact ⟨2, by norm_num, by norm_num, by simp [Val.toNumber]⟩)).2.1⟩

/-! ## Stable sorting by weight -/

theorem filter_orderedInsert_weight {α : Type} (w : α → Nat) (k : Nat) (a : α) (l : List α) :
    (l.orderedInsert (fun x y => w y ≤ w x) a).filter (fun x => decide (w x = k)) =
      (a :: l).filter (fun x => decide (w x = k)) := by
  induction l with
  | nil => rfl
  | cons b l ih =>
    rw [List.orderedInsert]
    by_cases hab : w b ≤ w a
    · rw [if_pos hab]
    · rw [if_neg hab, List.filter_cons, ih]
      by_cases ha : w a = k
      · have hb : ¬ w b = k := by omega
        simp [List.filter_cons, ha, hb]
      · simp [List.filter_cons, ha]

/-- The sort is stable: the elements of one weight keep their order. -/
theorem filter_insertionSort_weight {α : Type} (w : α → Nat) (k : Nat) (l : List α) :
    (l.insertionSort (fun x y => w y ≤ w x)).filter (fun x => decide (w x = k)) =
      l.filter (fun x => decide (w x = k)) := by
  induction l with
  | nil => rfl
  | cons a l ih =>
    rw [List.insertionSort, filter_orderedInsert_weight, List.filter_cons, List.filter_cons, ih]

theorem sorted_insertionSort_weight {α : Type} (w : α → Nat) (l : List α) :
    (l.insertionSort (fun x y => w y ≤ w x)).Pairwise (fun x y => w y ≤ w x) := by
  haveI : IsTotal α (fun x y => w y ≤ w x) := ⟨fun x y => Nat.le_total (w y) (w x)⟩
  haveI : IsTrans α (fun x y => w y ≤ w x) := ⟨fun x y z hxy hyz => Nat.le_trans hyz hxy⟩
  exact List.sorted_insertionSort (fun x y => w y ≤ w x) l

theorem mapM_keyed_ok {α : Type} (weight : α → Except JSError Nat) (f : α → Nat)
    (xs : List α) (h : ∀ x ∈ xs, weight x = Except.ok (f x)) :
    xs.mapM (fun x => do
      let w ← weight x
      return (w, x)) = Except.ok (xs.map (fun x => (f x, x))) := by
  apply mapM_ok
  intro x hx
  rw [h x hx]
  rfl

theorem mapM_keyed_all_ok {α : Type} (weight : α → Except JSError Nat)
    (xs : List α) (keyed : List (Nat × α))
    (h : xs.mapM (fun x => do
      let w ← weight x
      return (w, x)) = Except.ok keyed) :
    ∀ x ∈ xs, ∃ n, weight x = Except.ok n := by
  intro x hx
  have h1 := mapM_all_ok _ xs keyed h x hx
  obtain ⟨y, hy⟩ := h1
  cases hw : weight x with
  | ok n => exact ⟨n, rfl⟩
  | error e =>
    rw [hw] at hy
    cases hy

theorem insertionSort_keyed {α : Type} (f : α → Nat) (xs : List α) :
    ((xs.map (fun x => (f x, x))).insertionSort (fun a b => b.1 ≤ a.1)).map Prod.snd =
      xs.insertionSort (fun x y => f y ≤ f x) := by
  have h := List.map_insertionSort (fun x y : α => f y ≤ f x)
    (fun a b : Nat × α => b.1 ≤ a.1) (fun x => (f x, x)) xs (fun a _ b _ => Iff.rfl)
  rw [← h, List.map_map]
  exact (List.map_congr_left (fun x _ => rfl)).trans (List.map_id _)

/-- The sort returns when every weight does, and then it is the stable sort by
descending weight. -/
theorem sortByWeightDesc_ok {α : Type} (weight : α → Except JSError Nat) (f : α → Nat)
    (xs : List α) (h : ∀ x ∈ xs, weight x = Except.ok (f x)) :
    sortByWeightDesc weight xs = Except.ok (xs.insertionSort (fun x y => f y ≤ f x)) := by
  match xs, h with
  | [], _ => rfl
  | [x], _ => rfl
  | x :: y :: rest, h =>
    unfold sortByWeightDesc
    simp only []
    rw [mapM_keyed_ok weight f (x :: y :: rest) h]
    show Except.ok _ = _
    rw [insertionSort_keyed]

/-- Whenever the sort returns, it is the stable sort by descending weight, for
any weight function that agrees with the returned weights. -/
theorem sortByWeightDesc_eq {α : Type} (weight : α → Except JSError Nat) (f : α → Nat)
    (hf : ∀ x n, weight x = Except.ok n → f x = n)
    (xs out : List α) (h : sortByWeightDesc weight xs = Except.ok out) :
    out = xs.insertionSort (fun x y => f y ≤ f x) := by
  match xs, h with
  | [], h => exact (Except.ok.inj h).symm
  | [x], h => exact (Except.ok.inj h).symm
  | x :: y :: rest, h =>
    have hall : ∀ z ∈ x :: y :: rest, weight z = Except.ok (f z) := by
      unfold sortByWeightDesc at h
      simp only [] at h
      cases hk : (x :: y :: rest).mapM (fun x => do
        let w ← weight x
        return (w, x)) with
      | error e =>
        rw [hk] at h
        cases h
      | ok keyed =>
        intro z hz
        obtain ⟨n, hn⟩ := mapM_keyed_all_ok weight _ keyed hk z hz
        rw [hn, hf z n hn]
    rw [sortByWeightDesc_ok weight f _ hall] at h
    exact (Except.ok.inj h).symm

/-! ## Settled claims: the rankings by weight -/

theorem labelWeight_isText (v : Val) (h : v.isText = true) : ∃ n, labelWeight v = Except.ok n := by
  unfold Val.isText at h
  unfold labelWeight
  cases hv : v.orElse (Val.str "") with
  | str s =>
    simp only []
    split_ifs <;> exact ⟨_, rfl⟩
  | undef => simp [hv] at h
  | bool b => simp [hv] at h
  | num n => simp [hv] at h

theorem riskWeight_ratingWeight (p : Project) (n : Nat)
    (h : riskWeight p.riskRating = Except.ok n) : ratingWeight p = n := by
  unfold ratingWeight
  rw [h]

theorem riskWeight_of_isText (p : Project) (h : p.riskRating.isText = true) :
    riskWeight p.riskRating = Except.ok (ratingWeight p) := by
  obtain ⟨n, hn⟩ := labelWeight_isText p.riskRating h
  have hn1 : riskWeight p.riskRating = Except.ok n := hn
  rw [riskWeight_ratingWeight p n hn1, hn1]

/-- The ranking returns exactly when the sort does. -/
theorem renderProgrammeRisks_eq (s : Store) (projects : List Project) (run : RisksRun)
    (h : renderProgrammeRisks s (some projects) = Except.ok run) :
    run.projectsToShow = projects ∧
      run.sorted =
        (projects.insertionSort (fun a b => ratingWeight b ≤ ratingWeight a)).take 5 := by
  unfold renderProgrammeRisks at h
  cases projects with
  | nil =>
    have h1 := Except.ok.inj h
    rw [← h1]
    exact ⟨rfl, rfl⟩
  | cons p rest =>
    simp only [Option.getD_some, List.isEmpty_cons] at h
    cases hs : sortByWeightDesc (fun p => riskWeight p.riskRating) (p :: rest) with
    | error e =>
      rw [hs] at h
      cases h
    | ok out =>
      rw [hs] at h
      have h1 : ({ projectsToShow := p :: rest, sorted := out.take 5 } : RisksRun) = run :=
        Except.ok.inj h
      rw [← h1, sortByWeightDesc_eq _ ratingWeight riskWeight_ratingWeight _ out hs]
      exact ⟨rfl, rfl⟩

theorem renderProgrammeRisks_ok (s : Store) (projects : List Project)
    (h : ∀ p ∈ projects, p.riskRating.isText = true) :
    renderProgrammeRisks s (some projects) = Except.ok
      { projectsToShow := projects,
        sorted := (projects.insertionSort
          (fun a b => ratingWeight b ≤ ratingWeight a)).take 5 } := by
  unfold renderProgrammeRisks
  cases projects with
  | nil => rfl
  | cons p rest =>
    simp only [Option.getD_some, List.isEmpty_cons]
    rw [sortByWeightDesc_ok _ ratingWeight (p :: rest)
      (fun q hq => riskWeight_of_isText q (h q hq))]
    rfl

/-- C24: `renderProgrammeRisks` returns its ranked list whenever every risk
rating is absent or text, and whenever it returns, the ranked list has length
`min 5 n`, is ordered by `riskWeight` descending, keeps the projects of one
weight in their input order, leaves out no project that outweighs a listed
one, and the array passed in is as it was.  Without an argument the stored
projects are ranked. -/
theorem C24_risk_ranking_is_stable_top_five (s : Store) (projects : List Project) :
    ((∀ p ∈ projects, p.riskRating.isText = true) →
        ∃ run, renderProgrammeRisks s (some projects) = Except.ok run) ∧
      (∀ run, renderProgrammeRisks s (some projects) = Except.ok run →
        run.sorted.length = min 5 projects.length ∧
        run.sorted.Pairwise (fun a b => ratingWeight b ≤ ratingWeight a) ∧
        (∀ k, (run.sorted.filter (fun p => decide (ratingWeight p = k))) <+:
          (projects.filter (fun p => decide (ratingWeight p = k)))) ∧
        (∃ omitted, (run.sorted ++ omitted).Perm projects ∧
          ∀ a ∈ run.sorted, ∀ b ∈ omitted, ratingWeight b ≤ ratingWeight a) ∧
        run.projectsToShow = projects) ∧
      (∀ p, riskWeight p.riskRating = Except.ok (ratingWeight p) ∨
        riskWeight p.riskRating = Except.error JSError.typeError) ∧
      renderProgrammeRisks s none = renderProgrammeRisks s (some s.projects) := by
  refine ⟨fun h => ⟨_, renderProgrammeRisks_ok s projects h⟩, ?_, ?_, rfl⟩
  swap
  · intro p
    cases hw : riskWeight p.riskRating with
    | ok n => exact Or.inl (by rw [riskWeight_ratingWeight p n hw])
    | error e =>
      right
      unfold riskWeight labelWeight at hw
      cases hv : p.riskRating.orElse (Val.str "") with
      | str x =>
        rw [hv] at hw
        simp only [] at hw
        split_ifs at hw
      | undef =>
        rw [hv] at hw
        exact hw ▸ rfl
      | bool b =>
        rw [hv] at hw
        exact hw ▸ rfl
      | num n =>
        rw [hv] at hw
        exact hw ▸ rfl
  intro run hrun
  obtain ⟨hin, hsorted⟩ := renderProgrammeRisks_eq s projects run hrun
  have hperm := List.perm_insertionSort (fun a b : Project => ratingWeight b ≤ ratingWeight a)
    projects
  have hpw := sorted_insertionSort_weight ratingWeight projects
  refine ⟨?_, ?_, ?_, ?_, hin⟩
  · rw [hsorted, List.length_take, hperm.length_eq]
  · rw [hsorted]
    exact hpw.sublist (List.take_sublist _ _)
  · intro k
    rw [hsorted, ← filter_insertionSort_weight ratingWeight k projects]
    exact List.IsPrefix.filter _ ⟨_, List.take_append_drop 5 _⟩
  · refine ⟨(projects.insertionSort (fun a b => ratingWeight b ≤ ratingWeight a)).drop 5, ?_, ?_⟩
    · rw [hsorted, List.take_append_drop]
      exact hperm
    · intro a ha b hb
      rw [hsorted] at ha
      have hsplit := List.take_append_drop 5
        (projects.insertionSort (fun a b => ratingWeight b ≤ ratingWeight a))
      rw [← hsplit, List.pairwise_append] at hpw
      exact hpw.2.2 a ha b hb

/-- Witness for `C24_risk_ranking_is_stable_top_five`: of three projects rated
`Low`, `High`, `High` the two `High` ones come first, in their input order. -/
theorem C24_risk_ranking_is_stable_top_five_witness :
    (∀ p ∈ sampleRatedProjects, p.riskRating.isText = true) ∧
      renderProgrammeRisks sampleStore (some sampleRatedProjects) = Except.ok
        { projectsToShow := sampleRatedProjects,
          sorted := [{ sampleProjectSeven with riskRating := Val.str "High" },
                     { sampleMoneyProject with riskRating := Val.str "High" },
                     { sampleRoofProject with riskRating := Val.str "Low" }] } ∧
      ∃ run, renderProgrammeRisks sampleStore (some sampleRatedProjects) = Except.ok run :=
  ⟨by decide, by decide!,
    (C24_risk_ranking_is_stable_top_five sampleStore sampleRatedProjects).1 (by decide)⟩

theorem foldlM_ok {α β : Type} (stepM : β → α → Except JSError β) (step : β → α → β)
    (h : ∀ b a, stepM b a = Except.ok (step b a)) (l : List α) (init : β) :
    l.foldlM stepM init = Except.ok (l.foldl step init) := by
  induction l generalizing init with
  | nil => rfl
  | cons a l ih =>
    rw [List.foldlM_cons, h init a]
    exact ih (step init a)

theorem hsSeverityWeight_str (s : String) :
    hsSeverityWeight (Val.str s) = Except.ok (inlineSeverityWeight s) := by
  show labelWeight (Val.str s) = _
  rw [labelWeight_str]
  unfold inlineSeverityWeight
  have h : (if s = "" then "" else s) = s := by
    by_cases hs : s = ""
    · rw [if_pos hs, hs]
    · rw [if_neg hs]
  simp only [h]

/-- A left fold keeping the heavier of the two, the held one on a tie, ends on
the first element of greatest weight. -/
theorem foldl_heavier {α : Type} (w : α → Nat) (l : List α) (init : α) :
    (∀ x ∈ l, w x ≤ w (l.foldl (fun h x => if w x > w h then x else h) init)) ∧
      w init ≤ w (l.foldl (fun h x => if w x > w h then x else h) init) ∧
      ((l.foldl (fun h x => if w x > w h then x else h) init = init) ∨
        ∃ pre post, l = pre ++ l.foldl (fun h x => if w x > w h then x else h) init :: post ∧
          (∀ x ∈ pre, w x < w (l.foldl (fun h x => if w x > w h then x else h) init)) ∧
          w init < w (l.foldl (fun h x => if w x > w h then x else h) init)) := by
  induction l generalizing init with
  | nil => exact ⟨by simp, le_refl _, Or.inl rfl⟩
  | cons a l ih =>
    rw [List.foldl_cons]
    by_cases ha : w a > w init
    · rw [if_pos ha]
      obtain ⟨h1, h2, h3⟩ := ih a
      refine ⟨?_, le_of_lt (lt_of_lt_of_le ha h2), Or.inr ?_⟩
      · intro x hx
        rcases List.mem_cons.mp hx with rfl | hx
        · exact h2
        · exact h1 x hx
      · rcases h3 with h3 | ⟨pre, post, hl, hpre, hlt⟩
        · refine ⟨[], l, ?_, by simp, ?_⟩
          · rw [h3]
            rfl
          · rw [h3]
            exact ha
        · refine ⟨a :: pre, post, ?_, ?_, lt_trans ha hlt⟩
          · rw [List.cons_append, ← hl]
          · intro x hx
            rcases List.mem_cons.mp hx with rfl | hx
            · exact hlt
            · exact hpre x hx
    · rw [if_neg ha]
      obtain ⟨h1, h2, h3⟩ := ih init
      refine ⟨?_, h2, ?_⟩
      · intro x hx
        rcases List.mem_cons.mp hx with rfl | hx
        · exact le_trans (not_lt.mp ha) h2
        · exact h1 x hx
      · rcases h3 with h3 | ⟨pre, post, hl, hpre, hlt⟩
        · exact Or.inl h3
        · refine Or.inr ⟨a :: pre, post, ?_, ?_, hlt⟩
          · rw [List.cons_append, ← hl]
          · intro x hx
            rcases List.mem_cons.mp hx with rfl | hx
            · exact lt_of_le_of_lt (not_lt.mp ha) hlt
            · exact hpre x hx

theorem highestSeverityReduce_eq (warnings : List HSWarning) :
    highestSeverityReduce warnings = Except.ok (selectedHighestSeverity warnings) := by
  cases warnings with
  | nil => rfl
  | cons first rest =>
    unfold highestSeverityReduce selectedHighestSeverity
    simp only []
    rw [foldlM_ok _ (fun highest w =>
      if inlineSeverityWeight w.severity > inlineSeverityWeight highest.severity then w
      else highest)]
    · rfl
    · intro b a
      rw [hsSeverityWeight_str, hsSeverityWeight_str]
      rfl

/-- The inline reduce returns the first warning of greatest weight. -/
theorem selectedHighestSeverity_spec (warnings : List HSWarning) (hne : warnings ≠ []) :
    ∃ highest, selectedHighestSeverity warnings = some highest ∧
      (∀ w ∈ warnings,
        inlineSeverityWeight w.severity ≤ inlineSeverityWeight highest.severity) ∧
      ∃ pre post, warnings = pre ++ highest :: post ∧
        ∀ w ∈ pre, inlineSeverityWeight w.severity < inlineSeverityWeight highest.severity := by
  cases warnings with
  | nil => exact absurd rfl hne
  | cons first rest =>
    have hsel : selectedHighestSeverity (first :: rest) =
        some (rest.foldl (fun h x =>
          if inlineSeverityWeight x.severity > inlineSeverityWeight h.severity then x else h)
          first) := by
      unfold selectedHighestSeverity
      simp only [List.foldl_cons, gt_iff_lt, lt_self_iff_false, if_false]
    obtain ⟨h1, h2, h3⟩ := foldl_heavier (fun w : HSWarning => inlineSeverityWeight w.severity)
      rest first
    refine ⟨_, hsel, ?_, ?_⟩
    · intro w hw
      rcases List.mem_cons.mp hw with rfl | hw
      · exact h2
      · exact h1 w hw
    · rcases h3 with h3 | ⟨pre, post, hl, hpre, hlt⟩
      · refine ⟨[], rest, ?_, by simp⟩
        rw [h3]
        rfl
      · refine ⟨first :: pre, post, ?_, ?_⟩
        · rw [List.cons_append, ← hl]
        · intro x hx
          rcases List.mem_cons.mp hx with rfl | hx
          · exact hlt
          · exact hpre x hx

/-- C23: on a non-empty sequence of warnings the reduce of
`renderProgrammeHSHotspots` and the inline reduce of `renderSelectedProject`
return the same record; its `hsSeverityWeight` is at least that of every
warning of the sequence, and every warning before it weighs strictly less. -/
theorem C23_both_reduces_pick_first_heaviest (warnings : List HSWarning)
    (hne : warnings ≠ []) :
    ∃ (highest : HSWarning) (weight : HSWarning → Nat),
      highestSeverityReduce warnings = Except.ok (some highest) ∧
      selectedHighestSeverity warnings = some highest ∧
      (∀ w, hsSeverityWeight (Val.str w.severity) = Except.ok (weight w)) ∧
      (∀ w ∈ warnings, weight w ≤ weight highest) ∧
      ∃ pre post, warnings = pre ++ highest :: post ∧ ∀ w ∈ pre, weight w < weight highest := by
  obtain ⟨highest, hsel, hmax, hfirst⟩ := selectedHighestSeverity_spec warnings hne
  refine ⟨highest, fun w => inlineSeverityWeight w.severity, ?_, hsel, ?_, hmax, hfirst⟩
  · rw [highestSeverityReduce_eq, hsel]
  · intro w
    exact hsSeverityWeight_str w.severity

/-- Witness for `C23_both_reduces_pick_first_heaviest`: of a `Low` warning
followed by a `High` one, both reduces return the `High` one. -/
theorem C23_both_reduces_pick_first_heaviest_witness :
    highestSeverityReduce [sampleLowWarning, sampleHighWarning] =
        Except.ok (some sampleHighWarning) ∧
      selectedHighestSeverity [sampleLowWarning, sampleHighWarning] = some sampleHighWarning ∧
      hsSeverityWeight (Val.str sampleHighWarning.severity) = Except.ok 3 ∧
      ∃ (highest : HSWarning) (weight : HSWarning → Nat),
        highestSeverityReduce [sampleLowWarning, sampleHighWarning] = Except.ok (some highest) ∧
        selectedHighestSeverity [sampleLowWarning, sampleHighWarning] = some highest ∧
        (∀ w, hsSeverityWeight (Val.str w.severity) = Except.ok (weight w)) ∧
        (∀ w ∈ [sampleLowWarning, sampleHighWarning], weight w ≤ weight highest) ∧
        ∃ pre post, [sampleLowWarning, sampleHighWarning] = pre ++ highest :: post ∧
          ∀ w ∈ pre, weight w < weight highest :=
  ⟨by decide!, by decide!, by decide!,
    C23_both_reduces_pick_first_heaviest [sampleLowWarning, sampleHighWarning] (by decide)⟩

/-! ## Sets and keyed collections: lemmas -/

theorem mem_foldl_setAdd {α : Type} [DecidableEq α] (l s : List α) (x : α) :
    x ∈ l.foldl setAdd s ↔ x ∈ s ∨ x ∈ l := by
  induction l generalizing s with
  | nil => simp
  | cons a l ih =>
    rw [List.foldl_cons, ih]
    unfold setAdd
    by_cases ha : a ∈ s
    · rw [if_pos ha]
      constructor
      · rintro (h | h)
        · exact Or.inl h
        · exact Or.inr (List.mem_cons_of_mem _ h)
      · rintro (h | h)
        · exact Or.inl h
        · rcases List.mem_cons.mp h with rfl | h
          · exact Or.inl ha
          · exact Or.inr h
    · rw [if_neg ha]
      simp only [List.mem_append, List.mem_singleton, List.mem_cons]
      tauto

theorem nodup_foldl_setAdd {α : Type} [DecidableEq α] (l s : List α) (hs : s.Nodup) :
    (l.foldl setAdd s).Nodup := by
  induction l generalizing s with
  | nil => exact hs
  | cons a l ih =>
    rw [List.foldl_cons]
    apply ih
    unfold setAdd
    by_cases ha : a ∈ s
    · rw [if_pos ha]
      exact hs
    · rw [if_neg ha]
      rw [List.nodup_append]
      refine ⟨hs, List.nodup_singleton a, ?_⟩
      intro x hx hx1
      rw [List.mem_singleton] at hx1
      exact ha (hx1 ▸ hx)

theorem mem_setOf {α : Type} [DecidableEq α] (l : List α) (x : α) : x ∈ setOf l ↔ x ∈ l := by
  unfold setOf
  rw [mem_foldl_setAdd]
  simp

theorem nodup_setOf {α : Type} [DecidableEq α] (l : List α) : (setOf l).Nodup :=
  nodup_foldl_setAdd l [] List.nodup_nil

/-- The size of a set is the number of distinct values added to it. -/
theorem length_setOf {α : Type} [DecidableEq α] (l : List α) :
    (setOf l).length = l.dedup.length := by
  apply List.Perm.length_eq
  rw [List.perm_ext_iff_of_nodup (nodup_setOf l) (List.nodup_dedup l)]
  intro x
  rw [mem_setOf, List.mem_dedup]

theorem lookupAt_nil {κ β : Type} [DecidableEq κ] (k : κ) :
    lookupAt ([] : List (κ × β)) k = none := rfl

theorem lookupAt_cons {κ β : Type} [DecidableEq κ] (e : κ × β) (m : List (κ × β)) (k : κ) :
    lookupAt (e :: m) k = if e.1 = k then some e.2 else lookupAt m k := by
  unfold lookupAt
  by_cases h : e.1 = k <;> simp [List.find?, h]

theorem lookupAt_eq_none_iff {κ β : Type} [DecidableEq κ] (m : List (κ × β)) (k : κ) :
    lookupAt m k = none ↔ k ∉ m.map Prod.fst := by
  induction m with
  | nil => simp [lookupAt_nil]
  | cons e m ih =>
    rw [lookupAt_cons]
    by_cases h : e.1 = k
    · simp [h]
    · have h1 : ¬ k = e.1 := fun h2 => h h2.symm
      simp [h, h1, ih]

theorem lookupAt_updateAt {κ β : Type} [DecidableEq κ] (empty : β) (update : β → β)
    (m : List (κ × β)) (k k1 : κ) :
    lookupAt (updateAt empty update m k) k1 =
      if k = k1 then some (update ((lookupAt m k).getD empty)) else lookupAt m k1 := by
  induction m with
  | nil =>
    rw [updateAt, lookupAt_cons, lookupAt_nil]
    rfl
  | cons e m ih =>
    rw [updateAt]
    by_cases h : e.1 = k
    · by_cases h1 : k = k1
      · have h2 : e.1 = k1 := h.trans h1
        simp only [lookupAt_cons, if_pos h, if_pos h1, if_pos h2, Option.getD_some]
      · have h2 : ¬ e.1 = k1 := fun h2 => h1 (h.symm.trans h2)
        simp only [lookupAt_cons, if_pos h, if_neg h1, if_neg h2]
    · by_cases h1 : k = k1
      · have h2 : ¬ e.1 = k1 := fun h2 => h (h2.trans h1.symm)
        simp only [lookupAt_cons, ih, if_neg h, if_pos h1, if_neg h2]
      · simp only [lookupAt_cons, ih, if_neg h, if_neg h1]

theorem keys_updateAt {κ β : Type} [DecidableEq κ] (empty : β) (update : β → β)
    (m : List (κ × β)) (k : κ) :
    (updateAt empty update m k).map Prod.fst = setAdd (m.map Prod.fst) k := by
  induction m with
  | nil => rfl
  | cons e m ih =>
    rw [updateAt]
    unfold setAdd at ih ⊢
    by_cases h : e.1 = k
    · rw [if_pos h, if_pos]
      · rfl
      · rw [List.map_cons, h]
        exact List.mem_cons_self _ _
    · rw [if_neg h, List.map_cons, ih, List.map_cons]
      have h1 : ¬ k = e.1 := fun h2 => h h2.symm
      by_cases hk : k ∈ m.map Prod.fst
      · rw [if_pos hk, if_pos (List.mem_cons_of_mem _ hk)]
      · rw [if_neg hk, if_neg]
        · rfl
        · intro h2
          rcases List.mem_cons.mp h2 with h3 | h3
          · exact h1 h3
          · exact hk h3

/-- The entry of a key after a loop of updates: absent when no element of the
loop has the key, otherwise the updates of those elements applied in order. -/
theorem lookupAt_foldl_updateAt {κ β ρ : Type} [DecidableEq κ] (empty : β) (key : ρ → κ)
    (upd : ρ → β → β) (l : List ρ) (m : List (κ × β)) (k : κ) :
    lookupAt (l.foldl (fun m x => updateAt empty (upd x) m (key x)) m) k =
      if (l.filter (fun x => decide (key x = k))).isEmpty = true then lookupAt m k
      else some ((l.filter (fun x => decide (key x = k))).foldl (fun b x => upd x b)
        ((lookupAt m k).getD empty)) := by
  induction l generalizing m with
  | nil => rfl
  | cons x l ih =>
    rw [List.foldl_cons, ih, lookupAt_updateAt]
    by_cases hx : key x = k
    · have hf : (x :: l).filter (fun x => decide (key x = k)) =
          x :: l.filter (fun x => decide (key x = k)) :=
        List.filter_cons_of_pos (by simpa using hx)
      rw [hf, if_pos hx, List.foldl_cons, hx]
      have hne : ¬ (x :: l.filter (fun x => decide (key x = k))).isEmpty = true := by simp
      rw [if_neg hne]
      by_cases hl : (l.filter (fun x => decide (key x = k))).isEmpty = true
      · rw [if_pos hl, List.isEmpty_iff.mp hl]
        rfl
      · rw [if_neg hl]
        rfl
    · have hf : (x :: l).filter (fun x => decide (key x = k)) =
          l.filter (fun x => decide (key x = k)) :=
        List.filter_cons_of_neg (by simpa using hx)
      rw [hf, if_neg hx]

theorem keys_foldl_updateAt {κ β ρ : Type} [DecidableEq κ] (empty : β) (key : ρ → κ)
    (upd : ρ → β → β) (l : List ρ) (m : List (κ × β)) :
    (l.foldl (fun m x => updateAt empty (upd x) m (key x)) m).map Prod.fst =
      (l.map key).foldl setAdd (m.map Prod.fst) := by
  induction l generalizing m with
  | nil => rfl
  | cons x l ih =>
    rw [List.foldl_cons, ih, keys_updateAt, List.map_cons, List.foldl_cons]

theorem foldl_if_eq_filter {β ρ : Type} (keep : ρ → Prop) [DecidablePred keep]
    (g : β → ρ → β) (l : List ρ) (init : β) :
    l.foldl (fun b x => if keep x then g b x else b) init =
      (l.filter (fun x => decide (keep x))).foldl g init := by
  induction l generalizing init with
  | nil => rfl
  | cons x l ih =>
    rw [List.foldl_cons, ih]
    by_cases hx : keep x
    · rw [if_pos hx, List.filter_cons_of_pos (by simpa using hx), List.foldl_cons]
    · rw [if_neg hx, List.filter_cons_of_neg (by simpa using hx)]

theorem mem_numericKeys {β : Type} (m : List (JSNum × β)) (k : JSNum)
    (h : k ∈ numericKeys m) : k ∈ m.map Prod.fst := by
  unfold numericKeys at h
  rcases List.mem_append.mp h with h1 | h1
  · obtain ⟨i, hi, hk⟩ := List.mem_map.mp h1
    rw [(List.perm_insertionSort _ _).mem_iff, List.mem_filterMap] at hi
    obtain ⟨e, he, hidx⟩ := hi
    rw [← hk, ← arrayIndex_eq_some e.1 i hidx]
    exact List.mem_map.mpr ⟨e, he, rfl⟩
  · obtain ⟨e, he, hk⟩ := List.mem_map.mp h1
    exact List.mem_map.mpr ⟨e, (List.mem_filter.mp he).1, hk⟩

/-! ## Settled claims: contractor usage -/

theorem foldl_setAdd_map {ρ α : Type} [DecidableEq α] (val : ρ → α) (l : List ρ) :
    l.foldl (fun set x => setAdd set (val x)) [] = setOf (l.map val) := by
  unfold setOf
  rw [List.foldl_map]

/-- The set collected under a key by a loop that adds a value of each element
to the set of its key. -/
theorem lookupAt_sets {κ ρ : Type} [DecidableEq κ] (key : ρ → κ) (val : ρ → JSNum)
    (l : List ρ) (k : κ) :
    (lookupAt (l.foldl (fun m x => updateAt [] (fun set => setAdd set (val x)) m (key x)) [])
      k).getD [] = setOf ((l.filter (fun x => decide (key x = k))).map val) := by
  rw [lookupAt_foldl_updateAt [] key (fun x set => setAdd set (val x)) l [] k]
  by_cases h : (l.filter (fun x => decide (key x = k))).isEmpty = true
  · rw [if_pos h, List.isEmpty_iff.mp h]
    rfl
  · rw [if_neg h, lookupAt_nil, Option.getD_some, Option.getD_none, foldl_setAdd_map]

theorem usageMap_count (projects : List Project) (links : List ContractorLink)
    (contractorId : JSNum) :
    ((lookupAt (usageMap projects links) contractorId).getD []).length =
      specUsageCount projects links contractorId := by
  unfold usageMap
  simp only []
  rw [foldl_if_eq_filter (fun link : ContractorLink =>
      link.projectId ∈ setOf (projects.map (fun p => p.id)))
    (fun m link => updateAt [] (fun set => setAdd set link.projectId) m link.contractorId),
    lookupAt_sets (fun link : ContractorLink => link.contractorId) (fun link => link.projectId),
    length_setOf]
  unfold specUsageCount
  apply List.Perm.length_eq
  rw [List.perm_ext_iff_of_nodup (List.nodup_dedup _) ((List.nodup_dedup _).filter _)]
  intro x
  simp only [List.mem_dedup, List.mem_map, List.mem_filter, mem_setOf, List.any_eq_true,
    decide_eq_true_eq]
  constructor
  · rintro ⟨link, ⟨⟨hl, ⟨p, hp, hpid⟩⟩, hc⟩, rfl⟩
    exact ⟨⟨p, hp, hpid⟩, link, hl, rfl, hc⟩
  · rintro ⟨⟨p, hp, hpid⟩, link, hl, hx, hc⟩
    exact ⟨link, ⟨⟨hl, ⟨p, hp, hpid.trans hx.symm⟩⟩, hc⟩, hx⟩

theorem specUsageCount_nil (projects : List Project) (contractorId : JSNum) :
    specUsageCount projects [] contractorId = 0 := by
  unfold specUsageCount
  simp

/-- The rows of `renderProgrammeContractors` are the contractors with their
count of distinct shown projects, those of count `0` left out, in stable
descending order of the count, cut to eight. -/
theorem renderProgrammeContractors_eq (s : Store) (projects : List Project) :
    renderProgrammeContractors s (some projects) =
      (((s.contractors.map (fun c =>
          ({ contractor := c
             projectCount :=
               specUsageCount projects s.projectContractorLinks c.contractorId } : UsageRow))).filter
        (fun row => decide (row.projectCount > 0))).insertionSort
          (fun a b => b.projectCount ≤ a.projectCount)).take 8 := by
  unfold renderProgrammeContractors
  simp only [Option.getD_some]
  by_cases h : (s.contractors.isEmpty || s.projectContractorLinks.isEmpty) = true
  · rw [if_pos h]
    rw [Bool.or_eq_true] at h
    rcases h with h | h
    · rw [List.isEmpty_iff.mp h]
      rfl
    · rw [List.isEmpty_iff.mp h]
      have hnil : (s.contractors.map (fun c =>
          ({ contractor := c
             projectCount := specUsageCount projects [] c.contractorId } : UsageRow))).filter
          (fun row => decide (row.projectCount > 0)) = [] := by
        rw [List.filter_eq_nil_iff]
        intro row hrow
        obtain ⟨c, _, hc⟩ := List.mem_map.mp hrow
        rw [← hc]
        simp [specUsageCount_nil]
      rw [hnil]
      rfl
  · rw [if_neg h]
    simp only [usageMap_count]

/-- C26: the rows of `renderProgrammeContractors` are the stored contractors,
each with the number of distinct ids of shown projects linked to it (a pair
linked more than once counting once), those of count `0` left out, sorted by
descending count with ties in contractor order, and cut to eight: so each row
carries that count, which is positive; a contractor of count `0` has no row;
the rows are in descending order of the count, at most eight, and no row left
out has a greater count than a row listed. -/
theorem C26_contractor_usage_counts_distinct_projects (s : Store) (projects : List Project) :
    renderProgrammeContractors s (some projects) =
        (((s.contractors.map (fun c =>
            ({ contractor := c
               projectCount :=
                 specUsageCount projects s.projectContractorLinks c.contractorId } :
              UsageRow))).filter
          (fun row => decide (row.projectCount > 0))).insertionSort
            (fun a b => b.projectCount ≤ a.projectCount)).take 8 ∧
      (∃ omitted,
        (renderProgrammeContractors s (some projects) ++ omitted).Perm
          ((s.contractors.map (fun c =>
              ({ contractor := c
                 projectCount :=
                   specUsageCount projects s.projectContractorLinks c.contractorId } :
                UsageRow))).filter
            (fun row => decide (row.projectCount > 0))) ∧
        (renderProgrammeContractors s (some projects)).length =
          min 8 (renderProgrammeContractors s (some projects) ++ omitted).length ∧
        ∀ a ∈ renderProgrammeContractors s (some projects), ∀ b ∈ omitted,
          b.projectCount ≤ a.projectCount) ∧
      (∀ k, ((renderProgrammeContractors s (some projects)).filter
          (fun row => decide (row.projectCount = k))) <+:
        ((s.contractors.filter (fun c =>
            decide (specUsageCount projects s.projectContractorLinks c.contractorId > 0) &&
            decide (specUsageCount projects s.projectContractorLinks c.contractorId = k))).map
          (fun c =>
            ({ contractor := c
               projectCount :=
                 specUsageCount projects s.projectContractorLinks c.contractorId } :
              UsageRow)))) ∧
      (∀ row ∈ renderProgrammeContractors s (some projects),
        row.contractor ∈ s.contractors ∧
        row.projectCount =
          specUsageCount projects s.projectContractorLinks row.contractor.contractorId ∧
        0 < row.projectCount) ∧
      (∀ c, specUsageCount projects s.projectContractorLinks c.contractorId = 0 →
        ∀ row ∈ renderProgrammeContractors s (some projects), row.contractor ≠ c) ∧
      (renderProgrammeContractors s (some projects)).Pairwise
        (fun a b => b.projectCount ≤ a.projectCount) ∧
      (renderProgrammeContractors s (some projects)).length ≤ 8 ∧
      renderProgrammeContractors s none = renderProgrammeContractors s (some s.projects) := by
  have heq := renderProgrammeContractors_eq s projects
  generalize hrows : (s.contractors.map (fun c =>
      ({ contractor := c
         projectCount := specUsageCount projects s.projectContractorLinks c.contractorId } :
        UsageRow))).filter (fun row => decide (row.projectCount > 0)) = rows at heq
  have hperm := List.perm_insertionSort (fun a b : UsageRow => b.projectCount ≤ a.projectCount)
    rows
  have hpw := sorted_insertionSort_weight (fun row : UsageRow => row.projectCount) rows
  have hsplit := List.take_append_drop 8
    (rows.insertionSort (fun a b : UsageRow => b.projectCount ≤ a.projectCount))
  have hrow : ∀ row ∈ renderProgrammeContractors s (some projects),
      row.contractor ∈ s.contractors ∧
      row.projectCount =
        specUsageCount projects s.projectContractorLinks row.contractor.contractorId ∧
      0 < row.projectCount := by
    intro row hrow
    rw [heq] at hrow
    have h1 := hperm.mem_iff.mp (List.mem_of_mem_take hrow)
    rw [← hrows, List.mem_filter] at h1
    obtain ⟨h2, h3⟩ := h1
    obtain ⟨c, hc, hrc⟩ := List.mem_map.mp h2
    rw [← hrc]
    rw [← hrc] at h3
    exact ⟨hc, rfl, of_decide_eq_true h3⟩
  refine ⟨heq, ?_, ?_, hrow, ?_, ?_, ?_, rfl⟩
  · refine ⟨(rows.insertionSort (fun a b : UsageRow => b.projectCount ≤ a.projectCount)).drop 8,
      ?_, ?_, ?_⟩
    · rw [heq, hsplit]
      exact hperm
    · rw [heq, hsplit, List.length_take]
    · intro a ha b hb
      rw [heq] at ha
      rw [← hsplit, List.pairwise_append] at hpw
      exact hpw.2.2 a ha b hb
  · intro k
    have hstable := filter_insertionSort_weight (fun row : UsageRow => row.projectCount) k rows
    have hfilter : rows.filter (fun row => decide (row.projectCount = k)) =
        (s.contractors.filter (fun c =>
          decide (specUsageCount projects s.projectContractorLinks c.contractorId > 0) &&
          decide (specUsageCount projects s.projectContractorLinks c.contractorId = k))).map
        (fun c =>
          ({ contractor := c
             projectCount :=
               specUsageCount projects s.projectContractorLinks c.contractorId } :
            UsageRow)) := by
      rw [← hrows, List.filter_filter, List.filter_map]
      congr 1
      apply List.filter_congr
      intro c _
      simp [Bool.and_comm]
    rw [heq, ← hfilter, ← hstable]
    exact List.IsPrefix.filter _ ⟨_, hsplit⟩
  · intro c hc row hr hrc
    obtain ⟨_, h2, h3⟩ := hrow row hr
    rw [hrc, hc] at h2
    omega
  · rw [heq]
    exact hpw.sublist (List.take_sublist _ _)
  · rw [heq, List.length_take]
    exact Nat.min_le_left _ _

/-- Witness for `C26_contractor_usage_counts_distinct_projects`: contractor `2`,
linked to project `1` twice and to project `7`, has the count `2` and comes
first; contractor `1`, linked to project `1` and to a project not shown, has
the count `1`. -/
theorem C26_contractor_usage_counts_distinct_projects_witness :
    renderProgrammeContractors sampleUsageStore (some sampleUsageStore.projects) =
        [{ contractor := sampleBob, projectCount := 2 },
         { contractor := sampleAcme, projectCount := 1 }] ∧
      (((sampleUsageStore.contractors.map (fun c =>
            ({ contractor := c
               projectCount :=
                 specUsageCount sampleUsageStore.projects
                   sampleUsageStore.projectContractorLinks c.contractorId } :
              UsageRow))).filter
          (fun row => decide (row.projectCount > 0))).insertionSort
            (fun a b => b.projectCount ≤ a.projectCount)).take 8 =
        [{ contractor := sampleBob, projectCount := 2 },
         { contractor := sampleAcme, projectCount := 1 }] := by
  have hrun : renderProgrammeContractors sampleUsageStore (some sampleUsageStore.projects) =
      [{ contractor := sampleBob, projectCount := 2 },
       { contractor := sampleAcme, projectCount := 1 }] := by decide!
  refine ⟨hrun, ?_⟩
  rw [← (C26_contractor_usage_counts_distinct_projects sampleUsageStore
    sampleUsageStore.projects).1]
  exact hrun

/-! ## Settled claims: usage by trade -/

theorem updateContractorRadarChart_labels (contractors : List Contractor)
    (links : List ContractorLink) :
    (updateContractorRadarChart contractors links).labels =
      setOf (links.map (tradeOfLink contractors)) := by
  unfold updateContractorRadarChart
  simp only []
  rw [keys_foldl_updateAt [] (tradeOfLink contractors)
    (fun link set => setAdd set link.projectId) links []]
  rfl

theorem updateContractorRadarChart_data (contractors : List Contractor)
    (links : List ContractorLink) :
    (updateContractorRadarChart contractors links).data =
      (updateContractorRadarChart contractors links).labels.map
        (specTradeCount contractors links) := by
  unfold updateContractorRadarChart
  simp only []
  apply List.map_congr_left
  intro trade _
  rw [lookupAt_sets (tradeOfLink contractors) (fun link : ContractorLink => link.projectId),
    length_setOf]
  rfl

/-- C27: the labels of the radar chart are the trades of the links, each once,
and the value plotted for a trade is the number of distinct project ids among
the links of that trade; a link whose contractor is not found, or has an empty
trade, is under `Other`; every plotted value is at least `1`; every link is
counted, whatever its project. -/
theorem C27_trade_usage_counts_distinct_projects (contractors : List Contractor)
    (links : List ContractorLink) :
    (updateContractorRadarChart contractors links).labels =
        setOf (links.map (tradeOfLink contractors)) ∧
      (updateContractorRadarChart contractors links).data =
        (updateContractorRadarChart contractors links).labels.map
          (specTradeCount contractors links) ∧
      (∀ v ∈ (updateContractorRadarChart contractors links).data, 1 ≤ v) ∧
      (∀ link ∈ links,
        tradeOfLink contractors link ∈ (updateContractorRadarChart contractors links).labels) ∧
      (∀ link,
        contractors.find? (fun c => c.contractorId.strictEq link.contractorId) = none →
          tradeOfLink contractors link = "Other") ∧
      (∀ link c,
        contractors.find? (fun c => c.contractorId.strictEq link.contractorId) = some c →
          tradeOfLink contractors link = if c.trade = "" then "Other" else c.trade) := by
  have hlabels := updateContractorRadarChart_labels contractors links
  have hdata := updateContractorRadarChart_data contractors links
  refine ⟨hlabels, hdata, ?_, ?_, ?_, ?_⟩
  · intro v hv
    rw [hdata, List.mem_map] at hv
    obtain ⟨trade, htrade, hcount⟩ := hv
    rw [hlabels, mem_setOf, List.mem_map] at htrade
    obtain ⟨link, hlink, hl⟩ := htrade
    rw [← hcount]
    unfold specTradeCount
    apply List.length_pos_of_mem
    rw [List.mem_dedup]
    exact List.mem_map.mpr ⟨link, List.mem_filter.mpr ⟨hlink, decide_eq_true hl⟩, rfl⟩
  · intro link hlink
    rw [hlabels, mem_setOf]
    exact List.mem_map.mpr ⟨link, hlink, rfl⟩
  · intro link h
    unfold tradeOfLink
    rw [h]
  · intro link c h
    unfold tradeOfLink
    rw [h]

/-! ## Settled claims: the health and safety hotspots -/

theorem hsSeverityWeight_weightOfSeverity (severity : String) :
    hsSeverityWeight (Val.str severity) = Except.ok (weightOfSeverity severity) := by
  unfold weightOfSeverity
  rw [hsSeverityWeight_str]

theorem weightOfSeverity_eq (severity : String) :
    weightOfSeverity severity = inlineSeverityWeight severity := by
  unfold weightOfSeverity
  rw [hsSeverityWeight_str]

theorem foldl_push {α : Type} (l init : List α) :
    l.foldl (fun b x => b ++ [x]) init = init ++ l := by
  induction l generalizing init with
  | nil => simp
  | cons a l ih => rw [List.foldl_cons, ih, List.append_assoc, List.singleton_append]

/-- The entry of `projectWarningsMap` for the id of a shown project: the stored
warnings of that id, in stored order; there is no entry without a warning. -/
theorem lookupAt_projectWarningsMap (projects : List Project) (hsWarnings : List HSWarning)
    (k : JSNum) (warnings : List HSWarning)
    (h : lookupAt (projectWarningsMap projects hsWarnings) k = some warnings) :
    warnings ≠ [] ∧
      warnings = hsWarnings.filter (fun w => decide (w.projectId = k)) ∧
      k ∈ projects.map (fun p => p.id) := by
  unfold projectWarningsMap at h
  simp only [] at h
  rw [foldl_if_eq_filter (fun w : HSWarning => w.projectId ∈ setOf (projects.map (fun p => p.id)))
      (fun m w => updateAt [] (fun warnings => warnings ++ [w]) m w.projectId),
    lookupAt_foldl_updateAt [] (fun w : HSWarning => w.projectId)
      (fun w warnings => warnings ++ [w])] at h
  by_cases he : ((hsWarnings.filter (fun w => decide (w.projectId ∈
      setOf (projects.map (fun p => p.id))))).filter
      (fun w => decide (w.projectId = k))).isEmpty = true
  · rw [if_pos he] at h
    cases h
  · rw [if_neg he, lookupAt_nil, Option.getD_none, foldl_push, List.nil_append] at h
    have hw := (Option.some.inj h).symm
    have hne : warnings ≠ [] := by
      intro h0
      rw [hw] at h0
      exact he (List.isEmpty_iff.mpr h0)
    obtain ⟨w, hwmem⟩ := List.exists_mem_of_ne_nil warnings hne
    rw [hw, List.mem_filter, List.mem_filter] at hwmem
    have hk : k ∈ projects.map (fun p => p.id) := by
      have h1 := of_decide_eq_true hwmem.1.2
      rw [mem_setOf, of_decide_eq_true hwmem.2] at h1
      exact h1
    refine ⟨hne, ?_, hk⟩
    rw [hw, List.filter_filter]
    apply List.filter_congr
    intro x _
    by_cases hx : x.projectId = k
    · simp [hx, mem_setOf, hk]
    · simp [hx]

theorem selectedHighestSeverity_mem (warnings : List HSWarning) (highest : HSWarning)
    (h : selectedHighestSeverity warnings = some highest) : highest ∈ warnings := by
  have hne : warnings ≠ [] := by
    intro h0
    rw [h0] at h
    cases h
  obtain ⟨h1, hsel, _, pre, post, hsplit, _⟩ := selectedHighestSeverity_spec warnings hne
  rw [hsel] at h
  rw [← Option.some.inj h, hsplit]
  simp

/-- What an entry returned by the callback of the hotspot list holds. -/
theorem hotspotOfKey_some (projects : List Project) (m : List (JSNum × List HSWarning))
    (k : JSNum) (e : Hotspot) (h : hotspotOfKey projects m k = Except.ok (some e)) :
    ∃ warnings highest,
      projects.find? (fun p => p.id.strictEq k) = some e.project ∧
      lookupAt m k = some warnings ∧
      selectedHighestSeverity warnings = some highest ∧
      e.highestSeverity = highest.severity ∧
      2 ≤ weightOfSeverity highest.severity := by
  unfold hotspotOfKey at h
  cases hf : projects.find? (fun p => p.id.strictEq k) with
  | none =>
    rw [hf] at h
    cases h
  | some p =>
    rw [hf] at h
    cases hl : lookupAt m k with
    | none =>
      rw [hl] at h
      cases h
    | some warnings =>
      rw [hl] at h
      simp only [highestSeverityReduce_eq, hsSeverityWeight_weightOfSeverity, bind, Except.bind,
        pure, Except.pure] at h
      cases hs : selectedHighestSeverity warnings with
      | none =>
        rw [hs] at h
        cases h
      | some highest =>
        rw [hs] at h
        simp only [] at h
        by_cases hw : weightOfSeverity highest.severity < 2
        · rw [if_pos hw] at h
          cases h
        · rw [if_neg hw] at h
          have he := Option.some.inj (Except.ok.inj h)
          refine ⟨warnings, highest, ?_, rfl, hs, ?_, not_lt.mp hw⟩
          · rw [← he]
          · rw [← he]

/-- The callback of the hotspot list returns on every key of the map. -/
theorem hotspotOfKey_ok (projects : List Project) (m : List (JSNum × List HSWarning))
    (k : JSNum) (warnings : List HSWarning) (hl : lookupAt m k = some warnings)
    (hne : warnings ≠ []) : ∃ v, hotspotOfKey projects m k = Except.ok v := by
  unfold hotspotOfKey
  cases hf : projects.find? (fun p => p.id.strictEq k) with
  | none => exact ⟨none, rfl⟩
  | some p =>
    simp only [hl, highestSeverityReduce_eq, hsSeverityWeight_weightOfSeverity, bind,
      Except.bind, pure, Except.pure]
    obtain ⟨highest, hs, _⟩ := selectedHighestSeverity_spec warnings hne
    rw [hs]
    simp only []
    by_cases hw : weightOfSeverity highest.severity < 2
    · rw [if_pos hw]
      exact ⟨_, rfl⟩
    · rw [if_neg hw]
      exact ⟨_, rfl⟩

theorem numericKeys_perm {β : Type} (m : List (JSNum × β)) :
    (numericKeys m).Perm (m.map Prod.fst) := by
  unfold numericKeys
  have h2 : (m.filterMap (fun e => ProjectMap.arrayIndex e.1)).map
      (fun i : Nat => JSNum.fin (i : Rat)) =
      (m.filter (fun e => (ProjectMap.arrayIndex e.1).isSome)).map Prod.fst := by
    induction m with
    | nil => rfl
    | cons e m ih =>
      cases h : ProjectMap.arrayIndex e.1 with
      | none => simp [List.filterMap_cons, List.filter_cons, h, ih]
      | some i =>
        simp [List.filterMap_cons, List.filter_cons, h, ih]
        exact (arrayIndex_eq_some e.1 i h).symm
  have h1 : (((m.filterMap (fun e => ProjectMap.arrayIndex e.1)).insertionSort
      (fun a b => a ≤ b)).map (fun i : Nat => JSNum.fin (i : Rat))).Perm
      ((m.filterMap (fun e => ProjectMap.arrayIndex e.1)).map
        (fun i : Nat => JSNum.fin (i : Rat))) := (List.perm_insertionSort _ _).map _
  have h3 : (m.filter (fun e => (ProjectMap.arrayIndex e.1).isSome) ++
      m.filter (fun e => (ProjectMap.arrayIndex e.1).isNone)).Perm m := by
    have h4 := List.filter_append_perm (fun e : JSNum × β => (ProjectMap.arrayIndex e.1).isSome) m
    have h5 : (fun e : JSNum × β => (ProjectMap.arrayIndex e.1).isNone) =
        (fun e => !(ProjectMap.arrayIndex e.1).isSome) := by
      funext e
      cases ProjectMap.arrayIndex e.1 <;> rfl
    rw [h5]
    exact h4
  refine (h1.append_right _).trans ?_
  rw [h2, ← List.map_append]
  exact h3.map _

theorem keys_projectWarningsMap (projects : List Project) (hsWarnings : List HSWarning) :
    ((projectWarningsMap projects hsWarnings).map Prod.fst).Nodup := by
  unfold projectWarningsMap
  simp only []
  rw [foldl_if_eq_filter (fun w : HSWarning => w.projectId ∈ setOf (projects.map (fun p => p.id)))
      (fun m w => updateAt [] (fun warnings => warnings ++ [w]) m w.projectId),
    keys_foldl_updateAt [] (fun w : HSWarning => w.projectId)
      (fun w warnings => warnings ++ [w])]
  exact nodup_foldl_setAdd _ _ List.nodup_nil

/-- The entry of `projectWarningsMap` for the id of a shown project that has a
stored warning. -/
theorem lookupAt_projectWarningsMap_of_mem (projects : List Project)
    (hsWarnings : List HSWarning) (k : JSNum) (hk : k ∈ projects.map (fun p => p.id))
    (hne : hsWarnings.filter (fun w => decide (w.projectId = k)) ≠ []) :
    lookupAt (projectWarningsMap projects hsWarnings) k =
      some (hsWarnings.filter (fun w => decide (w.projectId = k))) := by
  have hfilter : (hsWarnings.filter (fun w => decide (w.projectId ∈
      setOf (projects.map (fun p => p.id))))).filter (fun w => decide (w.projectId = k)) =
      hsWarnings.filter (fun w => decide (w.projectId = k)) := by
    rw [List.filter_filter]
    apply List.filter_congr
    intro x _
    by_cases hx : x.projectId = k
    · simp [hx, mem_setOf, hk]
    · simp [hx]
  unfold projectWarningsMap
  simp only []
  rw [foldl_if_eq_filter (fun w : HSWarning => w.projectId ∈ setOf (projects.map (fun p => p.id)))
      (fun m w => updateAt [] (fun warnings => warnings ++ [w]) m w.projectId),
    lookupAt_foldl_updateAt [] (fun w : HSWarning => w.projectId)
      (fun w warnings => warnings ++ [w]), hfilter]
  rw [if_neg (fun h => hne (List.isEmpty_iff.mp h)), lookupAt_nil, Option.getD_none, foldl_push,
    List.nil_append]

theorem strictEq_refl (k : JSNum) (h : k ≠ JSNum.nan) : k.strictEq k = true := by
  cases k <;> simp_all [JSNum.strictEq]

/-- The entry that the callback of the hotspot list returns for a key whose
project is found and whose heaviest warning weighs at least `2`. -/
theorem hotspotOfKey_eq (projects : List Project) (m : List (JSNum × List HSWarning))
    (k : JSNum) (project : Project) (warnings : List HSWarning) (highest : HSWarning)
    (hfind : projects.find? (fun p => p.id.strictEq k) = some project)
    (hlook : lookupAt m k = some warnings)
    (hsel : selectedHighestSeverity warnings = some highest)
    (hweight : 2 ≤ weightOfSeverity highest.severity) :
    hotspotOfKey projects m k = Except.ok (some
      { project := project
        highestSeverity := highest.severity
        warningTypes :=
          setOf ((warnings.map (fun w => w.warningType)).filter (fun t => decide (t ≠ ""))) }) := by
  unfold hotspotOfKey
  simp only [hfind, hlook, highestSeverityReduce_eq, hsSeverityWeight_weightOfSeverity, bind,
    Except.bind, pure, Except.pure, hsel]
  rw [if_neg (not_lt.mpr hweight)]

/-- The hotspot list: the entries returned on the keys of the map, in stable
descending order of weight, cut to five. -/
theorem renderProgrammeHSHotspots_eq (s : Store) (projects : List Project) :
    renderProgrammeHSHotspots s (some projects) = Except.ok
      ((((numericKeys (projectWarningsMap projects s.hsWarnings)).filterMap (fun k =>
          match hotspotOfKey projects (projectWarningsMap projects s.hsWarnings) k with
          | Except.ok v => v
          | Except.error _ => none)).insertionSort (fun a b =>
        weightOfSeverity b.highestSeverity ≤ weightOfSeverity a.highestSeverity)).take 5) := by
  unfold renderProgrammeHSHotspots
  by_cases hw : s.hsWarnings.isEmpty = true
  · rw [if_pos hw, List.isEmpty_iff.mp hw]
    rfl
  · rw [if_neg hw]
    simp only [Option.getD_some]
    have hkeys : ∀ k ∈ numericKeys (projectWarningsMap projects s.hsWarnings),
        hotspotOfKey projects (projectWarningsMap projects s.hsWarnings) k = Except.ok
          (match hotspotOfKey projects (projectWarningsMap projects s.hsWarnings) k with
           | Except.ok v => v
           | Except.error _ => none) := by
      intro k hk
      have hmem := mem_numericKeys _ k hk
      cases hl : lookupAt (projectWarningsMap projects s.hsWarnings) k with
      | none => exact absurd hmem ((lookupAt_eq_none_iff _ k).mp hl)
      | some warnings =>
        obtain ⟨hne, _, _⟩ := lookupAt_projectWarningsMap projects s.hsWarnings k warnings hl
        obtain ⟨v, hv⟩ := hotspotOfKey_ok projects _ k warnings hl hne
        rw [hv]
    rw [mapM_ok _ _ _ hkeys]
    simp only [bind, Except.bind]
    rw [sortByWeightDesc_ok _ (fun e : Hotspot => weightOfSeverity e.highestSeverity) _
      (fun e _ => hsSeverityWeight_weightOfSeverity e.highestSeverity)]
    simp only [pure, Except.pure, List.filterMap_map]
    rfl

/-- C25: `renderProgrammeHSHotspots` returns a list `out` of at most five
entries, the heaviest of the entries `out ++ omitted` of all the hotspots.
Each hotspot carries a shown project, the severity of the record that the
reduce picks among the stored warnings of that project, of weight at least `2`
and at least the weight of each of them, and no two hotspots have the same
project id.  Every shown project with a stored warning of weight at least `2`
is a hotspot; a shown project whose stored warnings all weigh less than `2`, or
that has none, is not.  The entries listed are in descending order of weight,
and none left out outweighs a listed one. -/
theorem C25_hotspots_are_medium_or_high_top_five (s : Store) (projects : List Project) :
    ∃ out omitted : List Hotspot,
      renderProgrammeHSHotspots s (some projects) = Except.ok out ∧
      out.length ≤ 5 ∧
      out.length = min 5 (out ++ omitted).length ∧
      (∀ a ∈ out, ∀ b ∈ omitted,
        weightOfSeverity b.highestSeverity ≤ weightOfSeverity a.highestSeverity) ∧
      ((out ++ omitted).map (fun e => e.project.id)).Nodup ∧
      (∀ e ∈ out ++ omitted, e.project ∈ projects ∧
        ∃ highest,
          highestSeverityReduce
              (s.hsWarnings.filter (fun w => decide (w.projectId = e.project.id))) =
            Except.ok (some highest) ∧
          e.highestSeverity = highest.severity ∧
          2 ≤ weightOfSeverity highest.severity ∧
          ∀ w ∈ s.hsWarnings, w.projectId = e.project.id →
            weightOfSeverity w.severity ≤ weightOfSeverity highest.severity) ∧
      (∀ p ∈ projects, p.id ≠ JSNum.nan →
        (∃ w ∈ s.hsWarnings, w.projectId = p.id ∧ 2 ≤ weightOfSeverity w.severity) →
          ∃ e ∈ out ++ omitted, e.project.id = p.id) ∧
      (∀ p ∈ projects,
        (∀ w ∈ s.hsWarnings, w.projectId = p.id → weightOfSeverity w.severity < 2) →
          ∀ e ∈ out ++ omitted, e.project.id ≠ p.id) ∧
      out.Pairwise (fun a b =>
        weightOfSeverity b.highestSeverity ≤ weightOfSeverity a.highestSeverity) ∧
      (∀ severity, hsSeverityWeight (Val.str severity) =
        Except.ok (weightOfSeverity severity)) ∧
      renderProgrammeHSHotspots s none = renderProgrammeHSHotspots s (some s.projects) := by
  have hout := renderProgrammeHSHotspots_eq s projects
  have hnodupKeys : (numericKeys (projectWarningsMap projects s.hsWarnings)).Nodup :=
    (numericKeys_perm _).nodup_iff.mpr (keys_projectWarningsMap projects s.hsWarnings)
  generalize hkept : (numericKeys (projectWarningsMap projects s.hsWarnings)).filterMap (fun k =>
      match hotspotOfKey projects (projectWarningsMap projects s.hsWarnings) k with
      | Except.ok v => v
      | Except.error _ => none) = kept at hout
  have hmemKept : ∀ e, e ∈ kept ↔
      ∃ k ∈ numericKeys (projectWarningsMap projects s.hsWarnings),
        hotspotOfKey projects (projectWarningsMap projects s.hsWarnings) k =
          Except.ok (some e) := by
    intro e
    rw [← hkept, List.mem_filterMap]
    constructor
    · rintro ⟨k, hk, hke⟩
      refine ⟨k, hk, ?_⟩
      cases hh : hotspotOfKey projects (projectWarningsMap projects s.hsWarnings) k with
      | error err =>
        rw [hh] at hke
        cases hke
      | ok v =>
        rw [hh] at hke
        exact congrArg Except.ok hke
    · rintro ⟨k, hk, hke⟩
      refine ⟨k, hk, ?_⟩
      rw [hke]
  have hkeyOf : ∀ e k, hotspotOfKey projects (projectWarningsMap projects s.hsWarnings) k =
      Except.ok (some e) → e.project.id = k := by
    intro e k hk
    obtain ⟨_, _, hfind, _⟩ := hotspotOfKey_some projects _ k e hk
    exact strictEq_eq _ _ (List.find?_some (p := fun q : Project => q.id.strictEq k) hfind)
  have hentry : ∀ e ∈ kept, e.project ∈ projects ∧
      ∃ highest,
        highestSeverityReduce
            (s.hsWarnings.filter (fun w => decide (w.projectId = e.project.id))) =
          Except.ok (some highest) ∧
        e.highestSeverity = highest.severity ∧
        2 ≤ weightOfSeverity highest.severity ∧
        ∀ w ∈ s.hsWarnings, w.projectId = e.project.id →
          weightOfSeverity w.severity ≤ weightOfSeverity highest.severity := by
    intro e he
    obtain ⟨k, _, hk⟩ := (hmemKept e).mp he
    obtain ⟨warnings, highest, hfind, hlook, hsel, hsev, hweight⟩ :=
      hotspotOfKey_some projects _ k e hk
    have hmem := List.mem_of_find?_eq_some hfind
    have hid := hkeyOf e k hk
    obtain ⟨hne, hwarnings, _⟩ :=
      lookupAt_projectWarningsMap projects s.hsWarnings k warnings hlook
    rw [hid, ← hwarnings]
    refine ⟨hmem, highest, ?_, hsev, hweight, ?_⟩
    · rw [highestSeverityReduce_eq, hsel]
    · intro w hw hwk
      obtain ⟨h1, hsel1, hmax, _⟩ := selectedHighestSeverity_spec warnings hne
      rw [hsel] at hsel1
      rw [Option.some.inj hsel1, weightOfSeverity_eq, weightOfSeverity_eq]
      apply hmax
      rw [hwarnings]
      exact List.mem_filter.mpr ⟨hw, decide_eq_true hwk⟩
  have hnodup : (kept.map (fun e => e.project.id)).Nodup := by
    have hk1 : kept.Nodup := by
      rw [← hkept]
      apply List.Nodup.filterMap _ hnodupKeys
      intro k k1 e he he1
      have h1 : hotspotOfKey projects (projectWarningsMap projects s.hsWarnings) k =
          Except.ok (some e) := by
        cases hh : hotspotOfKey projects (projectWarningsMap projects s.hsWarnings) k with
        | error err =>
          rw [hh] at he
          cases he
        | ok v =>
          rw [hh] at he
          exact congrArg Except.ok (Option.mem_def.mp he)
      have h2 : hotspotOfKey projects (projectWarningsMap projects s.hsWarnings) k1 =
          Except.ok (some e) := by
        cases hh : hotspotOfKey projects (projectWarningsMap projects s.hsWarnings) k1 with
        | error err =>
          rw [hh] at he1
          cases he1
        | ok v =>
          rw [hh] at he1
          exact congrArg Except.ok (Option.mem_def.mp he1)
      rw [← hkeyOf e k h1, ← hkeyOf e k1 h2]
    refine List.Nodup.map_on ?_ hk1
    intro e he e1 he1 hid
    obtain ⟨k, _, hk⟩ := (hmemKept e).mp he
    obtain ⟨k1, _, hk1⟩ := (hmemKept e1).mp he1
    have h1 := hkeyOf e k hk
    have h2 := hkeyOf e1 k1 hk1
    have hkk : k = k1 := by rw [← h1, ← h2, hid]
    rw [hkk, hk1] at hk
    exact (Option.some.inj (Except.ok.inj hk)).symm
  have hperm := List.perm_insertionSort (fun a b : Hotspot =>
    weightOfSeverity b.highestSeverity ≤ weightOfSeverity a.highestSeverity) kept
  have hpw := sorted_insertionSort_weight (fun e : Hotspot => weightOfSeverity e.highestSeverity)
    kept
  have hsplit := List.take_append_drop 5 (kept.insertionSort (fun a b : Hotspot =>
    weightOfSeverity b.highestSeverity ≤ weightOfSeverity a.highestSeverity))
  have hmemAll : ∀ e, e ∈ (kept.insertionSort (fun a b : Hotspot =>
      weightOfSeverity b.highestSeverity ≤ weightOfSeverity a.highestSeverity)).take 5 ++
      (kept.insertionSort (fun a b : Hotspot =>
      weightOfSeverity b.highestSeverity ≤ weightOfSeverity a.highestSeverity)).drop 5 ↔
      e ∈ kept := by
    intro e
    rw [hsplit]
    exact hperm.mem_iff
  refine ⟨_, (kept.insertionSort (fun a b : Hotspot =>
    weightOfSeverity b.highestSeverity ≤ weightOfSeverity a.highestSeverity)).drop 5, hout,
    ?_, ?_, ?_, ?_, ?_, ?_, ?_, ?_, hsSeverityWeight_weightOfSeverity, rfl⟩
  · rw [List.length_take]
    exact Nat.min_le_left _ _
  · rw [hsplit, List.length_take]
  · intro a ha b hb
    rw [← hsplit, List.pairwise_append] at hpw
    exact hpw.2.2 a ha b hb
  · rw [hsplit]
    exact ((hperm.map _).nodup_iff).mpr hnodup
  · intro e he
    exact hentry e ((hmemAll e).mp he)
  · intro p hp hnan ⟨w, hw, hwp, hw2⟩
    have hk : p.id ∈ projects.map (fun p => p.id) := List.mem_map.mpr ⟨p, hp, rfl⟩
    have hwmem : w ∈ s.hsWarnings.filter (fun w => decide (w.projectId = p.id)) :=
      List.mem_filter.mpr ⟨hw, decide_eq_true hwp⟩
    have hne : s.hsWarnings.filter (fun w => decide (w.projectId = p.id)) ≠ [] :=
      List.ne_nil_of_mem hwmem
    have hlook := lookupAt_projectWarningsMap_of_mem projects s.hsWarnings p.id hk hne
    have hkey : p.id ∈ numericKeys (projectWarningsMap projects s.hsWarnings) := by
      rw [(numericKeys_perm _).mem_iff]
      by_contra hnot
      rw [(lookupAt_eq_none_iff _ _).mpr hnot] at hlook
      cases hlook
    cases hfind : projects.find? (fun q => q.id.strictEq p.id) with
    | none =>
      rw [List.find?_eq_none] at hfind
      exact absurd (strictEq_refl p.id hnan) (hfind p hp)
    | some q =>
      obtain ⟨highest, hsel, hmax, _⟩ := selectedHighestSeverity_spec _ hne
      have hweight : 2 ≤ weightOfSeverity highest.severity := by
        have := hmax w hwmem
        rw [weightOfSeverity_eq] at hw2 ⊢
        omega
      have heq := hotspotOfKey_eq projects _ p.id q _ highest hfind hlook hsel hweight
      refine ⟨_, (hmemAll _).mpr ((hmemKept _).mpr ⟨p.id, hkey, heq⟩), ?_⟩
      exact hkeyOf _ p.id heq
  · intro p _ hlow e he hid
    obtain ⟨_, highest, hred, _, hweight, _⟩ := hentry e ((hmemAll e).mp he)
    rw [highestSeverityReduce_eq] at hred
    have hmem := selectedHighestSeverity_mem _ highest (Except.ok.inj hred)
    rw [List.mem_filter] at hmem
    have := hlow highest hmem.1 ((of_decide_eq_true hmem.2).trans hid)
    omega
  · exact hpw.sublist (List.take_sublist _ _)

/-- Witness for `C25_hotspots_are_medium_or_high_top_five`: the `Low` and the
`High` warning of project `1` make it the one hotspot, with severity `High`. -/
theorem C25_hotspots_are_medium_or_high_top_five_witness :
    renderProgrammeHSHotspots sampleHotspotStore (some [sampleRoofProject]) = Except.ok
        [{ project := sampleRoofProject, highestSeverity := "High", warningTypes := [] }] ∧
      ∃ e ∈ [({ project := sampleRoofProject, highestSeverity := "High",
                warningTypes := [] } : Hotspot)],
        e.project.id = sampleRoofProject.id := by
  have hrun : renderProgrammeHSHotspots sampleHotspotStore (some [sampleRoofProject]) =
      Except.ok [{ project := sampleRoofProject, highestSeverity := "High",
                   warningTypes := [] }] := by decide!
  obtain ⟨out, omitted, hout, hlen, hmin, _, _, _, hlisted, _⟩ :=
    C25_hotspots_are_medium_or_high_top_five sampleHotspotStore [sampleRoofProject]
  rw [hrun] at hout
  have hout1 := Except.ok.inj hout
  obtain ⟨e, he, hid⟩ := hlisted sampleRoofProject (by decide) (by decide)
    ⟨sampleHighWarning, by decide, by decide!, by decide!⟩
  have homitted : omitted = [] := by
    rw [← hout1] at hmin
    cases omitted with
    | nil => rfl
    | cons b rest =>
      exfalso
      simp only [List.length_append, List.length_cons, List.length_nil] at hmin
      rw [Nat.min_def] at hmin
      split_ifs at hmin <;> omega
  rw [homitted, List.append_nil, ← hout1] at he
  exact ⟨hrun, e, he, hid⟩

/-! ## Settled claims: the phase columns -/

theorem bucketTask_from (tasks : List Task) (phases : Phases)
    (h : ∀ t ∈ tasks, propertyKey t.phase ∉ objectPrototypeKeys) :
    tasks.foldlM bucketTask phases = Except.ok
      { Pre := phases.Pre ++ tasks.filter (fun t => decide (propertyKey t.phase = "Pre"))
        During := phases.During ++
          tasks.filter (fun t => decide (propertyKey t.phase = "During"))
        Post := phases.Post ++ tasks.filter (fun t => decide (propertyKey t.phase = "Post")) } := by
  induction tasks generalizing phases with
  | nil =>
    simp only [List.foldlM, List.filter_nil, List.append_nil]
    rfl
  | cons t tasks ih =>
    have ht := h t (List.mem_cons_self _ _)
    have hrest := fun x hx => h x (List.mem_cons_of_mem _ hx)
    rw [List.foldlM_cons]
    unfold bucketTask
    simp only []
    by_cases h1 : propertyKey t.phase = "Pre"
    · rw [if_pos h1]
      show List.foldlM bucketTask _ tasks = _
      rw [ih _ hrest]
      simp [List.filter_cons, h1]
    · rw [if_neg h1]
      by_cases h2 : propertyKey t.phase = "During"
      · rw [if_pos h2]
        show List.foldlM bucketTask _ tasks = _
        rw [ih _ hrest]
        simp [List.filter_cons, h2]
      · rw [if_neg h2]
        by_cases h3 : propertyKey t.phase = "Post"
        · rw [if_pos h3]
          show List.foldlM bucketTask _ tasks = _
          rw [ih _ hrest]
          simp [List.filter_cons, h3]
        · rw [if_neg h3, if_neg ht]
          show List.foldlM bucketTask _ tasks = _
          rw [ih _ hrest]
          simp [List.filter_cons, h1, h2, h3]

/-- When no phase is the name of an inherited property, the bucketing completes
and each column holds the tasks of its phase, in task order. -/
theorem bucketPhases_ok (project : Project)
    (h : ∀ t ∈ project.phaseTasks, propertyKey t.phase ∉ objectPrototypeKeys) :
    bucketPhases project = Except.ok
      { Pre := project.phaseTasks.filter (fun t => decide (propertyKey t.phase = "Pre"))
        During := project.phaseTasks.filter (fun t => decide (propertyKey t.phase = "During"))
        Post := project.phaseTasks.filter (fun t => decide (propertyKey t.phase = "Post")) } := by
  unfold bucketPhases
  rw [bucketTask_from project.phaseTasks {} h]
  rfl

/-- C28 fails in the code: a task whose phase is `constructor`, a value outside
`Pre`, `During`, `Post`, is loaded from the workbook and counted by
`computeStats`, but the phase bucketing of `renderSelectedProject` raises a
`TypeError` on it instead of leaving it out. -/
theorem C28_inherited_phase_name_raises :
    normaliseProjects [sampleRoofRow] [sampleConstructorRow] = [sampleConstructorProject] ∧
      (∀ t ∈ sampleConstructorProject.phaseTasks,
        t.phase ≠ Val.str "Pre" ∧ t.phase ≠ Val.str "During" ∧ t.phase ≠ Val.str "Post") ∧
      bucketPhases sampleConstructorProject = Except.error JSError.typeError ∧
      (computeStats { projects := [sampleConstructorProject] }).taskCount = 1 := by
  refine ⟨by decide!, by decide, by decide, by decide!⟩

end EstateDashboard
